import Mathlib

/-! Chaser LED driver (`src/chaser/chaser.c`).

Shallow embedding of the sequence-scheduling core of the driver: the command
queue (`kfifo`), the Sequence State, the step timer callback `chaser_timer`,
the dispatcher `chaser_thread`, the write path `chaser_write` and the sysfs
handlers.  The driver's private structure becomes the record `priv`; every
driver function becomes a pure function on `priv`.

Machine integers are naturals (or integers) reduced explicitly where the C type
can overflow.  The LED register is represented by the list of the values written
to it, oldest first.  The kernel timer is represented by its pending state: the
delay, in milliseconds, of the last `mod_timer` that has not fired yet.
-/

namespace Chaser

/-! ## Constants -/

def NUM_LEDS : Nat := 10
def MAX_SEQUENCES : Nat := 16
def DEFAULT_INTERVAL : Nat := 1000

def EIO : Int := 5
def EFAULT : Int := 14
def EINVAL : Int := 22
def ENOSPC : Int := 28
def ERANGE : Int := 34

/-- Size of one sysfs output page, the limit of `sysfs_emit` and `sysfs_emit_at`. -/
def PAGE_SIZE : Nat := 4096

/-! ## Data model -/

inductive direction where
  | UP
  | DOWN
  deriving DecidableEq, Repr

/-- Integer value of an enumerator of `enum direction`. -/
def direction.toNat : direction → Nat
  | .UP => 0
  | .DOWN => 1

/-- Result of `sizeof(enum direction)`: the enumeration is stored as a 32-bit `int`. -/
def sizeof_direction : Nat := 4

/-- Object representation of a `direction` variable: four bytes, little endian. -/
def direction.bytes (d : direction) : List Nat :=
  [d.toNat % 256, d.toNat / 256 % 256, d.toNat / 65536 % 256, d.toNat / 16777216 % 256]

/-- Value of a `direction` variable whose four bytes are `b` (missing bytes read as 0). -/
def le32 (b : List Nat) : Nat :=
  b.getD 0 0 + 256 * b.getD 1 0 + 65536 * b.getD 2 0 + 16777216 * b.getD 3 0

/-- The branch taken by `if (dir == UP) ... else ...` on a raw value. -/
def direction.ofRaw (raw : Nat) : direction :=
  if raw = direction.UP.toNat then .UP else .DOWN

/-- The C structure `struct sequence_info`: `uint16_t led_value`, `enum direction dir`,
`uint8_t finish_flag`. -/
structure sequence_info where
  led_value : Nat
  dir : direction
  finish_flag : Nat
  deriving DecidableEq, Repr

/-- The kernel byte FIFO `struct kfifo`, by its contract: `size` is the capacity in bytes,
`data` the bytes currently stored, oldest first. -/
structure kfifo where
  size : Nat
  data : List Nat
  deriving DecidableEq, Repr

/-- The driver's private structure `struct priv`, restricted to the fields the scheduling core
reads or writes.  `led_base` is the trace of the values written to the LED register;
`timer` is `some d` while an expiry armed with a delay of `d` ms is pending. -/
structure priv where
  led_base : List Nat
  sequence_fifo : kfifo
  timer : Option Nat
  sequence_info : sequence_info
  interval : Nat
  completed_sequences : Int
  deriving DecidableEq, Repr

/-! ## Kernel primitives used by the driver -/

def roundup_pow_of_two_aux : Nat → Nat → Nat → Nat
  | 0, _, acc => acc
  | fuel + 1, n, acc => if n ≤ acc then acc else roundup_pow_of_two_aux fuel n (2 * acc)

/-- Smallest power of two that is at least `n` (for `n` up to `2^32`). -/
def roundup_pow_of_two (n : Nat) : Nat := roundup_pow_of_two_aux 32 n 1

/-- `kfifo_alloc`: an empty FIFO whose capacity is the requested size rounded up to a power
of two. -/
def kfifo_alloc (size : Nat) : kfifo :=
  { size := roundup_pow_of_two size, data := [] }

def kfifo_len (f : kfifo) : Nat := f.data.length

def kfifo_unused (f : kfifo) : Nat := f.size - kfifo_len f

def kfifo_is_empty (f : kfifo) : Bool := f.data.isEmpty

/-- `kfifo_in(fifo, buf, len)`: copies at most `kfifo_unused` bytes of `buf` to the tail and
returns the number of bytes copied. -/
def kfifo_in (f : kfifo) (buf : List Nat) : kfifo × Nat :=
  let len := min buf.length (kfifo_unused f)
  ({ f with data := f.data ++ buf.take len }, len)

/-- `kfifo_out(fifo, buf, len)`: removes at most `len` bytes from the head; returns the
bytes copied out (their number is the return value of the C function). -/
def kfifo_out (f : kfifo) (len : Nat) : kfifo × List Nat :=
  let n := min len (kfifo_len f)
  ({ f with data := f.data.drop n }, f.data.take n)

/-- `iowrite32(value, priv->led_base)`. -/
def iowrite32 (value : Nat) (p : priv) : priv :=
  { p with led_base := p.led_base ++ [value % 2 ^ 32] }

/-- `mod_timer(&priv->timer, jiffies + msecs_to_jiffies(ms))`. -/
def mod_timer (p : priv) (ms : Nat) : priv :=
  { p with timer := some ms }

/-- `atomic_inc` on the 32-bit signed `atomic_t`. -/
def atomic_inc (c : Int) : Int :=
  if c + 1 > 2147483647 then c + 1 - 4294967296 else c + 1

/-! ## Step timer -/

/-- The timer callback `chaser_timer` (lines 68-99). -/
def chaser_timer (p : priv) : priv :=
  let p1 := iowrite32 p.sequence_info.led_value p
  if 0 < p1.sequence_info.led_value ∧ p1.sequence_info.led_value ≤ 1 <<< (NUM_LEDS - 1) then
    let p2 := mod_timer p1 p1.interval
    { p2 with
      sequence_info :=
        { p2.sequence_info with
          led_value :=
            (if p2.sequence_info.dir = direction.UP then p2.sequence_info.led_value <<< 1
             else p2.sequence_info.led_value >>> 1) % 2 ^ 16 } }
  else
    { p1 with
      sequence_info := { p1.sequence_info with finish_flag := 1 }
      completed_sequences := atomic_inc p1.completed_sequences }

/-- One expiry of the kernel timer: possible only while an expiry is pending; the timer is
no longer pending when the callback runs. -/
def timer_expire (p : priv) : Option priv :=
  match p.timer with
  | none => none
  | some _ => some (chaser_timer { p with timer := none })

/-- The state after `n` successive expiries, `none` when fewer than `n` can happen. -/
def firings : Nat → priv → Option priv
  | 0, p => some p
  | n + 1, p => (firings n p).bind timer_expire

/-! ## Dispatcher -/

/-- Body of the inner loop of `chaser_thread` after a command was popped (lines 133-149):
initialise the Sequence State and arm the timer with a delay of 0. -/
def chaser_thread_start (dir : direction) (p : priv) : priv :=
  let si : sequence_info :=
    if dir = direction.UP then
      { p.sequence_info with dir := direction.UP, led_value := 1 }
    else
      { p.sequence_info with dir := direction.DOWN, led_value := 1 <<< (NUM_LEDS - 1) }
  let p1 := { p with sequence_info := { si with finish_flag := 0 } }
  mod_timer p1 0

/-- One pass of the inner loop of `chaser_thread` (lines 125-149): pop `sizeof(dir)` bytes;
leave the loop (`none` command) when fewer bytes were read, otherwise start the sequence. -/
def chaser_thread_iter (p : priv) : priv × Option direction :=
  let r := kfifo_out p.sequence_fifo sizeof_direction
  let p1 := { p with sequence_fifo := r.1 }
  if r.2.length ≠ sizeof_direction then (p1, none)
  else
    let dir := direction.ofRaw (le32 r.2)
    (chaser_thread_start dir p1, some dir)

/-- State of the driver after a successful `chaser_probe`: the private structure is zeroed
by `devm_kzalloc`, the FIFO is allocated, the counter and the interval are set, and the LED
register is cleared. -/
def chaser_probe : priv :=
  iowrite32 0
    { led_base := []
      sequence_fifo := kfifo_alloc (MAX_SEQUENCES * sizeof_direction)
      timer := none
      sequence_info := { led_value := 0, dir := direction.UP, finish_flag := 0 }
      interval := DEFAULT_INTERVAL
      completed_sequences := 0 }

/-! ## Write path -/

/-- The bytes of a C string literal. -/
def c_str (s : String) : List Nat := s.toList.map Char.toNat

/-- `strcmp` on byte strings; reading past the end of a list reads the terminating NUL. -/
def strcmp : List Nat → List Nat → Int
  | a :: as, b :: bs =>
      if a ≠ b then (a : Int) - (b : Int) else if a = 0 then 0 else strcmp as bs
  | a :: _, [] => (a : Int)
  | [], b :: _ => -(b : Int)
  | [], [] => 0

/-- `copy_from_user(cmd, buf, count)`: `buf` holds the readable bytes at the user address;
the copy fails when fewer than `count` bytes are readable. -/
def copy_from_user (buf : List Nat) (count : Nat) : Option (List Nat) :=
  if count ≤ buf.length then some (buf.take count) else none

/-- First half of `chaser_write` (lines 193-208): length check, copy, termination and
recognition of the command text. -/
def chaser_write_parse (buf : List Nat) (count : Nat) : Except Int direction :=
  if count > 15 then .error (-EINVAL)
  else
    match copy_from_user buf count with
    | none => .error (-EFAULT)
    | some data =>
      let cmd := data ++ [0]
      if strcmp cmd (c_str "up\n") = 0 then .ok direction.UP
      else if strcmp cmd (c_str "down\n") = 0 then .ok direction.DOWN
      else .error (-EINVAL)

/-- The write callback `chaser_write` (lines 184-223): new state and return value. -/
def chaser_write (p : priv) (buf : List Nat) (count : Nat) : priv × Int :=
  match chaser_write_parse buf count with
  | .error e => (p, e)
  | .ok dir =>
    let r := kfifo_in p.sequence_fifo dir.bytes
    let p1 := { p with sequence_fifo := r.1 }
    if r.2 ≠ sizeof_direction then (p1, -ENOSPC)
    else (p1, (count : Int))

/-! ## Interval control -/

/-- `sysfs_emit(buf, fmt, ...)` applied to the formatted text: the text stored in the page
(at most `PAGE_SIZE - 1` characters) and the returned length. -/
def sysfs_emit (text : List Char) : List Char × Int :=
  let out := text.take (PAGE_SIZE - 1)
  (out, (out.length : Int))

/-- `sysfs_emit_at(buf, at, fmt, ...)`: the page content after the call and the number of
characters written. -/
def sysfs_emit_at (buf : List Char) (pos : Nat) (text : List Char) : List Char × Nat :=
  if pos ≥ PAGE_SIZE then (buf, 0)
  else
    let out := text.take (PAGE_SIZE - pos - 1)
    (buf.take pos ++ out, out.length)

def isxdigit (c : Nat) : Bool :=
  (48 ≤ c && c ≤ 57) || (97 ≤ c && c ≤ 102) || (65 ≤ c && c ≤ 70)

/-- The kernel helper `_parse_integer_fixup_radix`: base detection and `0x` skipping. -/
def _parse_integer_fixup_radix (s : List Nat) (base : Nat) : List Nat × Nat :=
  let base1 :=
    if base = 0 then
      if s.getD 0 0 = 48 then
        if (s.getD 1 0 ||| 32) = 120 ∧ isxdigit (s.getD 2 0) = true then 16 else 8
      else 10
    else base
  let s1 :=
    if base1 = 16 ∧ s.getD 0 0 = 48 ∧ (s.getD 1 0 ||| 32) = 120 then s.drop 2 else s
  (s1, base1)

/-- The kernel helper `_parse_integer`: the value of the leading digits (unbounded) and
their number. -/
def _parse_integer (base : Nat) : List Nat → Nat → Nat → Nat × Nat
  | [], res, rv => (res, rv)
  | c :: s, res, rv =>
    let lc := c ||| 32
    if 48 ≤ c ∧ c ≤ 57 then
      if c - 48 ≥ base then (res, rv) else _parse_integer base s (res * base + (c - 48)) (rv + 1)
    else if 97 ≤ lc ∧ lc ≤ 102 then
      if lc - 97 + 10 ≥ base then (res, rv)
      else _parse_integer base s (res * base + (lc - 97 + 10)) (rv + 1)
    else (res, rv)

/-- The kernel parser `kstrtouint(s, base, &res)` on the C string `s`. -/
def kstrtouint (buf : List Nat) (base : Nat) : Except Int Nat :=
  let s := buf.takeWhile (fun c => c ≠ 0)
  let s0 := if s.getD 0 0 = 43 then s.drop 1 else s
  let f := _parse_integer_fixup_radix s0 base
  let r := _parse_integer f.2 f.1 0 0
  if r.1 ≥ 2 ^ 64 then .error (-ERANGE)
  else if r.2 = 0 then .error (-EINVAL)
  else
    let rest := f.1.drop r.2
    let rest1 := if rest.getD 0 0 = 10 then rest.drop 1 else rest
    if rest1 ≠ [] then .error (-EINVAL)
    else if r.1 ≥ 2 ^ 32 then .error (-ERANGE)
    else .ok r.1

/-- The sysfs handler `interval_show` (lines 232-244): page text and return value. -/
def interval_show (p : priv) : List Char × Int :=
  sysfs_emit ((Nat.repr p.interval).toList ++ [Char.ofNat 10])

/-- The sysfs handler `interval_store` (lines 247-269): new state and return value. -/
def interval_store (p : priv) (buf : List Nat) (count : Nat) : priv × Int :=
  match kstrtouint buf 0 with
  | .error ret => (p, ret)
  | .ok new_interval =>
    if new_interval = 0 then (p, -EINVAL)
    else ({ p with interval := new_interval }, (count : Int))

/-! ## Telemetry -/

/-- Number of queued commands as computed by `queued_sequences_show` (line 311). -/
def queued (p : priv) : Nat := kfifo_len p.sequence_fifo / sizeof_direction

/-- The sysfs handler `queued_sequences_show` (lines 305-315). -/
def queued_sequences_show (p : priv) : List Char × Int :=
  sysfs_emit ((Nat.repr (queued p)).toList ++ [Char.ofNat 10])

/-- The array `entries` of `sequence_show` seen through the bytes copied into it: element
`i` is the 32-bit value at byte offset `4 * i` (bytes never written read as 0). -/
def entries_get (raw : List Nat) (i : Nat) : Nat :=
  le32 ((raw.drop (sizeof_direction * i)).take sizeof_direction)

/-- The listing loop of `sequence_show` (lines 346-351), from index `i`, for `n` more
iterations. -/
def sequence_show_loop (raw : List Nat) : Nat → Nat → List Char × Nat → List Char × Nat
  | 0, _, acc => acc
  | n + 1, i, acc =>
    let e :=
      if entries_get raw i = direction.UP.toNat then sysfs_emit_at acc.1 acc.2 "up\n".toList
      else sysfs_emit_at acc.1 acc.2 "down\n".toList
    sequence_show_loop raw n (i + 1) (e.1, acc.2 + e.2)

/-- The sysfs handler `sequence_show` (lines 319-354): new state, page text and return
value. -/
def sequence_show (p : priv) : priv × List Char × Int :=
  let num0 := kfifo_len p.sequence_fifo / sizeof_direction
  let num := if num0 > MAX_SEQUENCES then MAX_SEQUENCES else num0
  if num > 0 then
    let o := kfifo_out p.sequence_fifo (num * sizeof_direction)
    let w := kfifo_in o.1 o.2
    let p1 := { p with sequence_fifo := w.1 }
    if w.2 ≠ o.2.length then (p1, [], - EIO)
    else
      let r := sequence_show_loop o.2 num 0 ([], 0)
      (p1, r.1, (r.2 : Int))
  else
    let r := sequence_show_loop [] num 0 ([], 0)
    (p, r.1, (r.2 : Int))

/-! ## Queue well-formedness, reachable states and operation sequences -/

/-- Number of bits set in the 16-bit pattern `v`. -/
def bitCount (v : Nat) : Nat := (List.range 16).countP (fun i => v.testBit i)

/-- The FIFO as the driver keeps it: the capacity allocated by `chaser_probe`, no more bytes
than the capacity, and a whole number of `enum direction` objects. -/
def kfifo_wf (f : kfifo) : Prop :=
  f.size = MAX_SEQUENCES * sizeof_direction ∧ f.data.length ≤ f.size ∧
    f.data.length % sizeof_direction = 0

instance (f : kfifo) : Decidable (kfifo_wf f) := by
  unfold kfifo_wf; infer_instance

/-- The commands a byte content of the FIFO stands for, oldest first: each group of four
bytes read the way `chaser_thread` and `sequence_show` read it. -/
def pending_cmds : List Nat → List direction
  | b0 :: b1 :: b2 :: b3 :: rest => direction.ofRaw (le32 [b0, b1, b2, b3]) :: pending_cmds rest
  | _ => []

/-- The text `sequence_show` prints for one command. -/
def cmd_line : direction → List Char
  | .UP => "up\n".toList
  | .DOWN => "down\n".toList

/-- The text a client writes for a command. -/
def cmd_text : direction → List Nat
  | .UP => c_str "up\n"
  | .DOWN => c_str "down\n"

/-- States of the driver reachable after `chaser_probe` through its entry points, taken in
any order: writes, passes of the dispatcher loop, timer expiries, interval stores and
displays of the queue. -/
inductive Reachable : priv → Prop
  | probe : Reachable chaser_probe
  | write (p : priv) (buf : List Nat) (count : Nat) :
      Reachable p → Reachable (chaser_write p buf count).1
  | thread (p : priv) : Reachable p → Reachable (chaser_thread_iter p).1
  | expire (p q : priv) : Reachable p → timer_expire p = some q → Reachable q
  | store (p : priv) (buf : List Nat) (count : Nat) :
      Reachable p → Reachable (interval_store p buf count).1
  | display (p : priv) : Reachable p → Reachable (sequence_show p).1

/-- One operation on the command queue: a `chaser_write` of `count` bytes of `buf`, or one
pop by the dispatcher. -/
inductive queue_op where
  | enqueue (buf : List Nat) (count : Nat)
  | dequeue
  deriving DecidableEq, Repr

/-- Record of a run of queue operations: the return values of the writes, the commands of
the writes that succeeded, the commands popped, and the driver state. -/
structure queue_run where
  results : List Int
  accepted : List direction
  dequeued : List direction
  state : priv
  deriving DecidableEq, Repr

/-- Executes the operations in order, recording what each one returned. -/
def run_queue_ops : List queue_op → queue_run → queue_run
  | [], r => r
  | queue_op.enqueue buf count :: ops, r =>
    let w := chaser_write r.state buf count
    let acc :=
      match chaser_write_parse buf count with
      | .ok d => if 0 ≤ w.2 then r.accepted ++ [d] else r.accepted
      | .error _ => r.accepted
    run_queue_ops ops
      { results := r.results ++ [w.2], accepted := acc, dequeued := r.dequeued, state := w.1 }
  | queue_op.dequeue :: ops, r =>
    let t := chaser_thread_iter r.state
    run_queue_ops ops
      { results := r.results, accepted := r.accepted,
        dequeued := r.dequeued ++ t.2.toList, state := t.1 }

/-- The run that starts right after `chaser_probe`. -/
def queue_run_start : queue_run :=
  { results := [], accepted := [], dequeued := [], state := chaser_probe }

/-- The writes of the commands `cmds`, each with its exact text. -/
def enqueue_all (cmds : List direction) : List queue_op :=
  cmds.map (fun d => queue_op.enqueue (cmd_text d) (cmd_text d).length)


/-- The driver state ten expiries after the dispatcher started a DOWN sequence on a freshly
probed device: the ten patterns have been written, the pattern has been shifted to 0 and the
completion expiry is pending. -/
def down_sequence_tenth : priv :=
  { led_base := [0, 512, 256, 128, 64, 32, 16, 8, 4, 2, 1]
    sequence_fifo := { size := 64, data := [] }
    timer := some 1000
    sequence_info := { led_value := 0, dir := direction.DOWN, finish_flag := 0 }
    interval := 1000
    completed_sequences := 0 }

/-- The commands returned by `MAX_SEQUENCES` successive pops of the dispatcher from the
state `p`: what the queue of `p` holds, as the dequeues see it. -/
def drain (p : priv) : List direction :=
  (run_queue_ops (List.replicate MAX_SEQUENCES queue_op.dequeue)
    { results := [], accepted := [], dequeued := [], state := p }).dequeued

/-! ## Current LED -/

def ffs_aux : Nat → Nat → Nat → Nat
  | 0, _, _ => 0
  | fuel + 1, x, i => if x % 2 = 1 then i + 1 else ffs_aux fuel (x / 2) (i + 1)

/-- The kernel helper `ffs` on a 32-bit value: one-based position of the lowest set bit, 0
when no bit is set. -/
def ffs (x : Nat) : Nat := ffs_aux 32 (x % 2 ^ 32) 0

/-- The value `led` computed by `current_led_show` under `seq_lock` (lines 277-287). -/
def current_led (p : priv) : Int :=
  if p.sequence_info.finish_flag = 0 then
    let led : Int := (ffs p.sequence_info.led_value : Int) - 1
    if led < 0 ∨ led ≥ (NUM_LEDS : Int) then -1 else led
  else -1

/-- The sysfs handler `current_led_show` (lines 273-290): page text and return value. -/
def current_led_show (p : priv) : List Char × Int :=
  sysfs_emit ((toString (current_led p)).toList ++ [Char.ofNat 10])

/-- The driver state ten expiries after the dispatcher started an UP sequence on a freshly
probed device: the ten patterns have been written, the pattern has been shifted to 1024 and
the completion expiry is pending. -/
def up_sequence_tenth : priv :=
  { led_base := [0, 1, 2, 4, 8, 16, 32, 64, 128, 256, 512]
    sequence_fifo := { size := 64, data := [] }
    timer := some 1000
    sequence_info := { led_value := 1024, dir := direction.UP, finish_flag := 0 }
    interval := 1000
    completed_sequences := 0 }

/-! ## The dispatcher as a state machine, and teardown -/

/-- Control points of `chaser_thread`: the test of the outer loop (line 117), the wait for a
command (line 119), the stop test after it (line 121), the head of the inner loop
(line 125), the wait for the end of the sequence (line 150) and the return (line 154). -/
inductive thread_pc where
  | loop_test
  | wait_cmd
  | stop_test
  | pop
  | wait_finish
  | exited
  deriving DecidableEq, Repr

/-- The driver together with its dispatcher thread: the private structure, the control point
of `chaser_thread`, the flag read by `kthread_should_stop`, and the number of Sequence
States the thread has initialised so far (a counter kept for the statements only). -/
structure sys where
  p : priv
  pc : thread_pc
  should_stop : Bool
  inits : Nat
  deriving DecidableEq, Repr

/-- One step of `chaser_thread` (lines 117-154) from its current control point; `none` when
the thread is blocked in a wait whose condition is false, or has returned. -/
def chaser_thread (s : sys) : Option sys :=
  match s.pc with
  | .loop_test =>
    if s.should_stop then some { s with pc := .exited } else some { s with pc := .wait_cmd }
  | .wait_cmd =>
    if s.should_stop ∨ ¬ kfifo_is_empty s.p.sequence_fifo then some { s with pc := .stop_test }
    else none
  | .stop_test =>
    if s.should_stop then some { s with pc := .exited } else some { s with pc := .pop }
  | .pop =>
    match chaser_thread_iter s.p with
    | (p1, none) => some { s with p := p1, pc := .loop_test }
    | (p1, some _) => some { s with p := p1, pc := .wait_finish, inits := s.inits + 1 }
  | .wait_finish =>
    if s.p.sequence_info.finish_flag ≠ 0 then some { s with pc := .pop } else none
  | .exited => none

/-- The system after a successful `chaser_probe`: the thread has been created and is at the
top of its loop. -/
def sys_probe : sys :=
  { p := chaser_probe, pc := thread_pc.loop_test, should_stop := false, inits := 0 }

/-- First part of `chaser_remove` (lines 488-489): the LED register is cleared, then
`kthread_stop` requests the stop of the thread (and then waits for its return). -/
def chaser_remove_begin (s : sys) : sys :=
  { s with p := iowrite32 0 s.p, should_stop := true }

/-- Second part of `chaser_remove` (line 490), possible once `kthread_stop` has returned,
that is once the thread has returned: `del_timer_sync` cancels a pending expiry. -/
def chaser_remove_finish (s : sys) : Option sys :=
  if s.pc = thread_pc.exited then some { s with p := { s.p with timer := none } } else none

/-- States of the system reachable after `chaser_probe`: steps of the thread, timer expiries,
calls of the write path and of the sysfs handlers, and the two parts of `chaser_remove`. -/
inductive SysReach : sys → Prop
  | probe : SysReach sys_probe
  | thread (s t : sys) : SysReach s → chaser_thread s = some t → SysReach t
  | expire (s : sys) (q : priv) : SysReach s → timer_expire s.p = some q →
      SysReach { s with p := q }
  | write (s : sys) (buf : List Nat) (count : Nat) : SysReach s →
      SysReach { s with p := (chaser_write s.p buf count).1 }
  | store (s : sys) (buf : List Nat) (count : Nat) : SysReach s →
      SysReach { s with p := (interval_store s.p buf count).1 }
  | display (s : sys) : SysReach s → SysReach { s with p := (sequence_show s.p).1 }
  | remove_begin (s : sys) : SysReach s → SysReach (chaser_remove_begin s)
  | remove_finish (s t : sys) : SysReach s → chaser_remove_finish s = some t → SysReach t

/-- The state after `n` steps of the thread, `none` when fewer than `n` are possible. -/
def thread_steps : Nat → sys → Option sys
  | 0, s => some s
  | n + 1, s => (thread_steps n s).bind chaser_thread

/-- The state after `n` timer expiries, `none` when fewer than `n` can happen. -/
def sys_firings (n : Nat) (s : sys) : Option sys :=
  (firings n s.p).map (fun q => { s with p := q })

/-- A `chaser_write` of the exact text of the command `d`. -/
def sys_write (d : direction) (s : sys) : sys :=
  { s with p := (chaser_write s.p (cmd_text d) (cmd_text d).length).1 }

/-- The system reached when, on a freshly probed device, "up" and "down" are written, the
thread starts the UP sequence, three expiries happen, and `chaser_remove` begins: the stop
is requested while the UP sequence is in flight and DOWN is still queued. -/
def stop_requested : sys :=
  { p :=
      { led_base := [0, 1, 2, 4, 0]
        sequence_fifo := { size := 64, data := [1, 0, 0, 0] }
        timer := some 1000
        sequence_info := { led_value := 8, dir := direction.UP, finish_flag := 0 }
        interval := 1000
        completed_sequences := 0 }
    pc := thread_pc.wait_finish
    should_stop := true
    inits := 1 }

/-- The system two thread steps after the UP sequence of `stop_requested` has completed. -/
def after_stop : sys :=
  { p :=
      { led_base := [0, 1, 2, 4, 0, 8, 16, 32, 64, 128, 256, 512, 1024]
        sequence_fifo := { size := 64, data := [] }
        timer := some 0
        sequence_info := { led_value := 512, dir := direction.DOWN, finish_flag := 0 }
        interval := 1000
        completed_sequences := 1 }
    pc := thread_pc.wait_finish
    should_stop := true
    inits := 2 }

/-- The system reached when, on a freshly probed device, "up" is written, the thread starts
the UP sequence, three expiries happen, and `chaser_remove` begins. -/
def remove_begun : sys :=
  { p :=
      { led_base := [0, 1, 2, 4, 0]
        sequence_fifo := { size := 64, data := [] }
        timer := some 1000
        sequence_info := { led_value := 8, dir := direction.UP, finish_flag := 0 }
        interval := 1000
        completed_sequences := 0 }
    pc := thread_pc.wait_finish
    should_stop := true
    inits := 1 }

/-- The system when the `chaser_remove` begun in `remove_begun` has finished. -/
def remove_done : sys :=
  { p :=
      { led_base := [0, 1, 2, 4, 0, 8, 16, 32, 64, 128, 256, 512, 1024]
        sequence_fifo := { size := 64, data := [] }
        timer := none
        sequence_info := { led_value := 1024, dir := direction.UP, finish_flag := 1 }
        interval := 1000
        completed_sequences := 1 }
    pc := thread_pc.exited
    should_stop := true
    inits := 1 }

/-! ## Locks taken by the driver functions -/

/-- The three locks of the private structure. -/
inductive lock where
  | fifo_lock
  | seq_lock
  | interval_lock
  deriving DecidableEq, Repr

/-- A lock operation: `mutex_lock` / `spin_lock` / `spin_lock_irqsave`, or the matching
unlock. -/
inductive lock_event where
  | acquire (l : lock)
  | release (l : lock)
  deriving DecidableEq, Repr

/-- Lock operations of `chaser_timer` in program order: `seq_lock` around the whole body
(lines 73 and 98) and, on the re-arming branch, `interval_lock` around the read of the
interval (lines 80 and 82). -/
def chaser_timer_locks (p : priv) : List lock_event :=
  [lock_event.acquire lock.seq_lock] ++
    (if 0 < p.sequence_info.led_value ∧ p.sequence_info.led_value ≤ 1 <<< (NUM_LEDS - 1) then
      [lock_event.acquire lock.interval_lock, lock_event.release lock.interval_lock]
    else []) ++
    [lock_event.release lock.seq_lock]

/-- Lock operations of one pass of the inner loop of `chaser_thread`: `fifo_lock` around the
pop (lines 125 and 127) and, when a command was read, `seq_lock` around the initialisation
(lines 133 and 147). -/
def chaser_thread_locks (p : priv) : List lock_event :=
  [lock_event.acquire lock.fifo_lock, lock_event.release lock.fifo_lock] ++
    (if (kfifo_out p.sequence_fifo sizeof_direction).2.length ≠ sizeof_direction then []
     else [lock_event.acquire lock.seq_lock, lock_event.release lock.seq_lock])

/-- Lock operations of `chaser_write`: `fifo_lock` around `kfifo_in` (lines 211 and 213),
none when the command is rejected before. -/
def chaser_write_locks (buf : List Nat) (count : Nat) : List lock_event :=
  match chaser_write_parse buf count with
  | .error _ => []
  | .ok _ => [lock_event.acquire lock.fifo_lock, lock_event.release lock.fifo_lock]

/-- Lock operations of `interval_show` (lines 239 and 241). -/
def interval_show_locks : List lock_event :=
  [lock_event.acquire lock.interval_lock, lock_event.release lock.interval_lock]

/-- Lock operations of `interval_store` (lines 264 and 266), none on the error returns. -/
def interval_store_locks (buf : List Nat) : List lock_event :=
  match kstrtouint buf 0 with
  | .error _ => []
  | .ok new_interval =>
    if new_interval = 0 then []
    else [lock_event.acquire lock.interval_lock, lock_event.release lock.interval_lock]

/-- Lock operations of `current_led_show` (lines 280 and 287). -/
def current_led_show_locks : List lock_event :=
  [lock_event.acquire lock.seq_lock, lock_event.release lock.seq_lock]

/-- Lock operations of `completed_sequences_show`: none, the counter is atomic. -/
def completed_sequences_show_locks : List lock_event := []

/-- Lock operations of `queued_sequences_show` (lines 310 and 312). -/
def queued_sequences_show_locks : List lock_event :=
  [lock_event.acquire lock.fifo_lock, lock_event.release lock.fifo_lock]

/-- Lock operations of `sequence_show` (line 326 and line 339 or 343). -/
def sequence_show_locks : List lock_event :=
  [lock_event.acquire lock.fifo_lock, lock_event.release lock.fifo_lock]

/-- The locks held after each operation of a trace, starting with the locks `held`. -/
def held_sets : List lock → List lock_event → List (List lock)
  | _, [] => []
  | held, lock_event.acquire l :: rest => (l :: held) :: held_sets (l :: held) rest
  | held, lock_event.release l :: rest => held.erase l :: held_sets (held.erase l) rest

/-- Largest number of locks held at the same time along a trace. -/
def max_held (tr : List lock_event) : Nat :=
  ((held_sets [] tr).map List.length).foldl max 0

/-- The nestings of a trace: the pairs (lock already held, lock acquired). -/
def nestings : List lock → List lock_event → List (lock × lock)
  | _, [] => []
  | held, lock_event.acquire l :: rest => held.map (fun h => (h, l)) ++ nestings (l :: held) rest
  | held, lock_event.release l :: rest => nestings (held.erase l) rest

end Chaser

/-! Accumulator character device (`src/using_ioctl/accumulate_module`). -/

namespace Accumulate

def EFAULT : Int := 14
def EINVAL : Int := 22

def OP_ADD : Nat := 0
def OP_MULTIPLY : Nat := 1

/-- The ioctl number encoding `_IOC(dir, type, nr, size)` of the kernel headers: number in
bits 0-7, type in bits 8-15, size in bits 16-29, direction in bits 30-31. -/
def _IOC (dir type nr size : Nat) : Nat :=
  (dir <<< 30) ||| (type <<< 8) ||| nr ||| (size <<< 16)

def _IOC_NONE : Nat := 0
def _IOC_WRITE : Nat := 1

def _IO (type nr : Nat) : Nat := _IOC _IOC_NONE type nr 0
def _IOW (type nr size : Nat) : Nat := _IOC _IOC_WRITE type nr size

/-- Result of `sizeof(int)`. -/
def sizeof_int : Nat := 4

def ACCUMULATE_IOC_MAGIC : Nat := ('+').toNat
def ACCUMULATE_CMD_RESET : Nat := _IO ACCUMULATE_IOC_MAGIC 0
def ACCUMULATE_CMD_CHANGE_OP : Nat := _IOW ACCUMULATE_IOC_MAGIC 1 sizeof_int

/-- Result of `sizeof(accumulate_value)`, a `uint64_t`. -/
def sizeof_value : Nat := 8

/-- The two static variables of the module: `accumulate_value` (a `uint64_t`) and
`operation` (an `int` that only ever holds `OP_ADD` or `OP_MULTIPLY`). -/
structure state where
  accumulate_value : Nat
  operation : Nat
  deriving DecidableEq, Repr

/-- The eight bytes of a `uint64_t`, little endian. -/
def u64_bytes (v : Nat) : List Nat :=
  [v % 256, v / 256 % 256, v / 65536 % 256, v / 16777216 % 256, v / 4294967296 % 256,
    v / 1099511627776 % 256, v / 281474976710656 % 256, v / 72057594037927936 % 256]

/-- The `uint64_t` stored in the first eight bytes of `b` (missing bytes read as 0). -/
def u64_of_bytes (b : List Nat) : Nat :=
  b.getD 0 0 + 256 * b.getD 1 0 + 65536 * b.getD 2 0 + 16777216 * b.getD 3 0 +
    4294967296 * b.getD 4 0 + 1099511627776 * b.getD 5 0 + 281474976710656 * b.getD 6 0 +
    72057594037927936 * b.getD 7 0

/-- `copy_from_user(&value, buf, n)`: `buf` holds the readable bytes at the user address;
the copy fails when fewer than `n` bytes are readable. -/
def copy_from_user (buf : List Nat) (n : Nat) : Option (List Nat) :=
  if n ≤ buf.length then some (buf.take n) else none

/-- `copy_to_user(buf, &value, n)`: `room` is the number of writable bytes at the user
address; the copy fails when it is smaller than the data. -/
def copy_to_user (room : Nat) (data : List Nat) : Option (List Nat) :=
  if data.length ≤ room then some data else none

/-- The read callback `accumulate_read` (lines 23-42): the bytes stored in the user buffer
(if any), the new file position and the return value. -/
def accumulate_read (s : state) (room count ppos : Nat) : Option (List Nat) × Nat × Int :=
  if ppos ≥ sizeof_value then (none, ppos, 0)
  else if count < sizeof_value then (none, ppos, -EINVAL)
  else
    match copy_to_user room (u64_bytes s.accumulate_value) with
    | none => (none, ppos, -EFAULT)
    | some out => (some out, sizeof_value, (sizeof_value : Int))

/-- The write callback `accumulate_write` (lines 44-71): the new module state, the new file
position and the return value. -/
def accumulate_write (s : state) (buf : List Nat) (count ppos : Nat) : state × Nat × Int :=
  if count ≠ sizeof_value then (s, ppos, -EINVAL)
  else
    match copy_from_user buf sizeof_value with
    | none => (s, 0, -EFAULT)
    | some data =>
      let value := u64_of_bytes data
      if s.operation = OP_ADD then
        ({ s with accumulate_value := (s.accumulate_value + value) % 2 ^ 64 }, 0,
          (sizeof_value : Int))
      else if s.operation = OP_MULTIPLY then
        ({ s with accumulate_value := (s.accumulate_value * value) % 2 ^ 64 }, 0,
          (sizeof_value : Int))
      else (s, 0, -EINVAL)

/-- The ioctl callback `accumulate_ioctl` (lines 73-91): new module state and return value. -/
def accumulate_ioctl (s : state) (cmd arg : Nat) : state × Int :=
  if cmd = ACCUMULATE_CMD_RESET then ({ s with accumulate_value := 0 }, 0)
  else if cmd = ACCUMULATE_CMD_CHANGE_OP then
    if arg ≠ OP_ADD ∧ arg ≠ OP_MULTIPLY then (s, -EINVAL)
    else ({ s with operation := arg }, 0)
  else (s, -EINVAL)

/-- The module state and the position of one open file. -/
structure session where
  dev : state
  pos : Nat
  deriving DecidableEq, Repr

/-- A `write(fd, &v, sizeof(v))` of the test program: eight bytes holding `v`. -/
def write_value (v : Nat) (x : session) : session :=
  let r := accumulate_write x.dev (u64_bytes v) sizeof_value x.pos
  { dev := r.1, pos := r.2.1 }

/-- The loop `for (i ...) write(fd, &values[i], sizeof(values[i]))` of the test program. -/
def write_values : List Nat → session → session
  | [], x => x
  | v :: vs, x => write_values vs (write_value v x)

/-- An `ioctl(fd, cmd, arg)` of the test program. -/
def do_ioctl (cmd arg : Nat) (x : session) : session :=
  { x with dev := (accumulate_ioctl x.dev cmd arg).1 }

/-- A `read(fd, &result, sizeof(result))` of the test program: the session afterwards and
the value of `result` when bytes were stored in it. -/
def read_value (x : session) : session × Option Nat :=
  let r := accumulate_read x.dev sizeof_value sizeof_value x.pos
  ({ x with pos := r.2.1 }, r.1.map u64_of_bytes)

/-- The ioctl number `ACCUMULATE_CMD_RESET` hard-coded in `test_accumulate.c` (line 12). -/
def test_accumulate.ACCUMULATE_CMD_RESET : Nat := 11008

/-- The ioctl number `ACCUMULATE_CMD_CHANGE_OP` hard-coded in `test_accumulate.c`
(line 13). -/
def test_accumulate.ACCUMULATE_CMD_CHANGE_OP : Nat := 1074014977

/-- The addition test of `main` in `test_accumulate.c` (lines 24-35), on the device state
found at `open`: the value read into `result` and the session afterwards. -/
def test_addition (dev : state) : session × Option Nat :=
  let x : session := { dev := dev, pos := 0 }
  let x := do_ioctl test_accumulate.ACCUMULATE_CMD_CHANGE_OP OP_ADD x
  let x := do_ioctl test_accumulate.ACCUMULATE_CMD_RESET 0 x
  let x := write_values [5, 3, 10] x
  read_value x

/-- The multiplication test of `main` in `test_accumulate.c` (lines 37-48), continuing on
the session left by the addition test. -/
def test_multiplication (x : session) : session × Option Nat :=
  let x := do_ioctl test_accumulate.ACCUMULATE_CMD_RESET 0 x
  let x := write_value 1 x
  let x := do_ioctl test_accumulate.ACCUMULATE_CMD_CHANGE_OP OP_MULTIPLY x
  let x := write_values [5, 3, 10] x
  read_value x

/-- The two values printed by `main` of `test_accumulate.c`. -/
def test_main (dev : state) : Option Nat × Option Nat :=
  let a := test_addition dev
  let m := test_multiplication a.1
  (a.2, m.2)

end Accumulate

/-! Parrot character device (`src/parrot_module/parrot.c`). -/

namespace Parrot

def ENOMEM : Int := 12
def EFAULT : Int := 14
def EINVAL : Int := 22

/-- The static structure `dev_buffer`: the allocated bytes (`data`, as many as the
allocation holds), the recorded `capacity` and the data `size`. -/
structure dev_buffer where
  data : List Nat
  capacity : Nat
  size : Nat
  deriving DecidableEq, Repr

/-- A successful `krealloc(data, n, GFP_KERNEL)`: an allocation of `n` bytes that keeps the
old content; the byte at index `i` of the new part is whatever the allocator hands out,
`fresh i`. -/
def krealloc (data : List Nat) (n : Nat) (fresh : Nat → Nat) : List Nat :=
  (data ++ (List.range (n - data.length)).map (fun i => fresh (data.length + i))).take n

/-- State after a successful `parrot_init`: 8 allocated bytes (of unspecified content
`fresh`), capacity 8, size 0. -/
def parrot_init (fresh : Nat → Nat) : dev_buffer :=
  { data := krealloc [] 8 fresh, capacity := 8, size := 0 }

/-- The read callback `parrot_read` (lines 43-73).  `room` is `none` for a NULL user
pointer, otherwise the number of writable bytes at the user address; `pos` is the file
position (never negative).  Result: the bytes stored in the user buffer, the new position
and the return value. -/
def parrot_read (b : dev_buffer) (room : Option Nat) (count pos : Nat) :
    List Nat × Nat × Int :=
  match room with
  | none => ([], pos, 0)
  | some r =>
    if count = 0 then ([], pos, 0)
    else if pos ≥ b.size then ([], pos, 0)
    else
      let bytes_available := b.size - pos
      let bytes_to_read := min count bytes_available
      if bytes_to_read ≤ r then
        ((b.data.drop pos).take bytes_to_read, pos + bytes_to_read, (bytes_to_read : Int))
      else ([], pos, -EFAULT)

/-- The write callback `parrot_write` (lines 87-127).  `buf` holds the readable bytes at the
user address, `pos` is the file position (never negative), `alloc` is `none` when a
`krealloc` would fail and otherwise gives the content of newly allocated bytes.  Result: the
new buffer, the new position and the return value.  A failing `copy_from_user` has copied
the readable bytes and zeroed the rest of the destination. -/
def parrot_write (b : dev_buffer) (buf : List Nat) (count pos : Nat)
    (alloc : Option (Nat → Nat)) : dev_buffer × Nat × Int :=
  if pos > 1024 ∨ count > 1024 - pos then (b, pos, -EINVAL)
  else
    let required_capacity := pos + count
    let grown : Option dev_buffer :=
      if required_capacity > b.capacity then
        alloc.map (fun fresh =>
          { b with data := krealloc b.data required_capacity fresh,
                   capacity := required_capacity })
      else some b
    match grown with
    | none => (b, pos, -ENOMEM)
    | some b1 =>
      if count ≤ buf.length then
        let b2 : dev_buffer :=
          { b1 with data := b1.data.take pos ++ buf.take count ++ b1.data.drop (pos + count) }
        let b3 : dev_buffer :=
          if b2.size < required_capacity then { b2 with size := required_capacity } else b2
        (b3, pos + count, (count : Int))
      else
        ({ b1 with data := b1.data.take pos ++ buf ++ List.replicate (count - buf.length) 0 ++
            b1.data.drop (pos + count) }, pos, -EFAULT)

/-- The buffer as the driver keeps it: `capacity` is the number of allocated bytes and the
data size does not exceed it. -/
def buffer_wf (b : dev_buffer) : Prop :=
  b.data.length = b.capacity ∧ b.size ≤ b.capacity

instance (b : dev_buffer) : Decidable (buffer_wf b) := by
  unfold buffer_wf; infer_instance

end Parrot

/-! ADXL345 accelerometer driver (`src/adxl345/adxl345.c`). -/

namespace Adxl345

def EIO : Int := 5
def ENOMEM : Int := 12
def EFAULT : Int := 14
def ENODEV : Int := 19
def EINVAL : Int := 22

def ADXL345_DEVID_VAL : Nat := 0xE5
def ADXL345_DATA_FORMAT : Nat := 0x31
def ADXL345_POWER_CTL : Nat := 0x2D
def ADXL345_THRESH_TAP : Nat := 0x1D
def ADXL345_DUR : Nat := 0x21
def ADXL345_LATENT : Nat := 0x22
def ADXL345_WINDOW : Nat := 0x23
def ADXL345_TAP_AXES : Nat := 0x2A
def ADXL345_INT_ENABLE : Nat := 0x2E
def ADXL345_INT_MAP : Nat := 0x2F
def ADXL345_RANGE_4G : Nat := 0x01
def ADXL345_MEASURE_MODE : Nat := 0x08
def ADXL345_SLEEP_MODE : Nat := 0x00
def ADXL345_INT_SINGLE_TAP : Nat := 0x40
def ADXL345_INT_DOUBLE_TAP : Nat := 0x20
def ADXL345_SUPRESS_BIT : Nat := 1 <<< 3
def ADXL345_TAP_AXIS_X : Nat := 1 <<< 2
def ADXL345_TAP_AXIS_Y : Nat := 1 <<< 1
def ADXL345_TAP_AXIS_Z : Nat := 1 <<< 0

/-! ### Reading the acceleration -/

/-- The conversion `(s16)v` of a value to a signed 16-bit integer. -/
def s16 (v : Nat) : Int :=
  if v % 65536 < 32768 then ((v % 65536 : Nat) : Int) else ((v % 65536 : Nat) : Int) - 65536

/-- The conversion `%u` of `printf`. -/
def fmt_u (n : Nat) : List Char := Nat.toDigits 10 n

/-- The conversion `%03u` of `printf`: at least three digits, padded with zeros. -/
def fmt_03u (n : Nat) : List Char :=
  List.replicate (3 - (fmt_u n).length) '0' ++ fmt_u n

/-- `snprintf(output, size, ...)` applied to the formatted text: the characters stored (at
most `size - 1`) and the return value (the length of the whole text). -/
def snprintf (size : Nat) (text : List Char) : List Char × Nat :=
  (text.take (size - 1), text.length)

/-- The computation of lines 329-345 for one axis, from the two registers `lo` and `hi`: the
sign character and the absolute value in mg. -/
def axis_mg (lo hi : Nat) : Char × Nat :=
  let raw : Int := s16 ((hi <<< 8) ||| lo)
  let mg : Int := Int.tdiv (raw * 78) 10
  let sign : Char := if mg < 0 then '-' else '+'
  let abs : Nat := (if mg < 0 then -mg else mg).toNat
  (sign, abs)

/-- The text formatted by line 348 of `adxl345_read` from the six data registers. -/
def format_line (data_regs : List Nat) : List Char :=
  let x := axis_mg (data_regs.getD 0 0) (data_regs.getD 1 0)
  let y := axis_mg (data_regs.getD 2 0) (data_regs.getD 3 0)
  let z := axis_mg (data_regs.getD 4 0) (data_regs.getD 5 0)
  "X = ".toList ++ [x.1] ++ fmt_u (x.2 / 1000) ++ ['.'] ++ fmt_03u (x.2 % 1000) ++
    "; Y = ".toList ++ [y.1] ++ fmt_u (y.2 / 1000) ++ ['.'] ++ fmt_03u (y.2 % 1000) ++
    "; Z = ".toList ++ [z.1] ++ fmt_u (z.2 / 1000) ++ ['.'] ++ fmt_03u (z.2 % 1000) ++
    [Char.ofNat 10]

/-- The read callback `adxl345_read` (lines 303-372).  `ret` and `data_regs` are the return
value of the block read on the bus and the six bytes it stored; `room` is `none` for a NULL
user pointer, otherwise the number of writable bytes at the user address.  Result: the
characters stored in the user buffer, the new position, the return value, and whether the
truncation branch (line 355) was taken. -/
def adxl345_read (ret : Int) (data_regs : List Nat) (room : Option Nat) (count ppos : Nat) :
    List Char × Nat × Int × Bool :=
  match room with
  | none => ([], ppos, 0, false)
  | some r =>
    if count = 0 then ([], ppos, 0, false)
    else if ret ≠ 6 then ([], ppos, - EIO, false)
    else
      let out := snprintf 50 (format_line data_regs)
      let truncated : Bool := decide (out.2 ≥ 50)
      let len := if out.2 ≥ 50 then 50 - 1 else out.2
      if ppos ≥ len then ([], ppos, 0, truncated)
      else
        let count1 := if count > len - ppos then len - ppos else count
        if count1 ≤ r then
          ((out.1.drop ppos).take count1, ppos + count1, (count1 : Int), truncated)
        else ([], ppos, -EFAULT, truncated)

/-- One axis as the documentation of the format describes it: the signed little-endian
16-bit value, scaled by 78 / 10 with truncation toward zero, printed as a sign, the integer
part of the value divided by 1000, a dot and the three decimal digits of the remainder. -/
def axis_text_spec (lo hi : Nat) : List Char :=
  let u : Nat := lo + 256 * hi
  let raw : Int := if u < 32768 then (u : Int) else (u : Int) - 65536
  let m : Int := Int.tdiv (raw * 78) 10
  let a : Nat := m.natAbs
  [if m < 0 then '-' else '+'] ++ Nat.toDigits 10 (a / 1000) ++ ['.'] ++
    [Nat.digitChar (a % 1000 / 100), Nat.digitChar (a % 100 / 10), Nat.digitChar (a % 10)]

/-! ### Tap mode -/

/-- The bus and the driver data: `regs` lists the register writes that succeeded on the bus
(register, value), oldest first; the other fields are those of `struct adxl345_data` that
the sysfs handlers use. -/
structure adxl345_data where
  regs : List (Nat × Nat)
  tap_axis : Nat
  tap_mode : Nat
  tap_count : Int
  tap_event : Int
  wait_busy : Int
  deriving DecidableEq, Repr

/-- `i2c_smbus_write_byte_data(client, reg, value)` whose return value is `ret`: the
register is written when the transfer succeeds. -/
def i2c_smbus_write_byte_data (s : adxl345_data) (reg value : Nat) (ret : Int) :
    adxl345_data :=
  if ret < 0 then s else { s with regs := s.regs ++ [(reg, value)] }

/-- The value last written to the register `reg`, if any. -/
def last_written (s : adxl345_data) (reg : Nat) : Option Nat :=
  ((s.regs.filter (fun w => w.1 = reg)).getLast?).map (fun w => w.2)

/-- `strncmp(a, b, n)` on byte strings; reading past the end of a list reads the
terminating NUL. -/
def strncmp : List Nat → List Nat → Nat → Int
  | _, _, 0 => 0
  | a, b, n + 1 =>
    if a.headD 0 ≠ b.headD 0 then (a.headD 0 : Int) - (b.headD 0 : Int)
    else if a.headD 0 = 0 then 0
    else strncmp a.tail b.tail n

/-- The bytes of a C string literal. -/
def c_str (s : String) : List Nat := s.toList.map Char.toNat

/-- The sysfs handler `tap_mode_show` (lines 143-159): page text and return value. -/
def tap_mode_show (s : adxl345_data) : List Char × Int :=
  let mode_str : String :=
    if s.tap_mode = ('o').toNat then "off\n"
    else if s.tap_mode = ('s').toNat then "single\n"
    else if s.tap_mode = ('d').toNat then "double\n"
    else if s.tap_mode = ('b').toNat then "both\n"
    else "unknown\n"
  (mode_str.toList, (mode_str.toList.length : Int))

/-- The sysfs handler `tap_mode_store` (lines 161-205); `ret` is the return value of the
write to `INT_ENABLE`.  Result: new state and return value. -/
def tap_mode_store (s : adxl345_data) (buf : List Nat) (count : Nat) (ret : Int) :
    adxl345_data × Int :=
  let parsed : Option Nat :=
    if strncmp buf (c_str "off") 3 = 0 then some ('o').toNat
    else if strncmp buf (c_str "single") 6 = 0 then some ('s').toNat
    else if strncmp buf (c_str "double") 6 = 0 then some ('d').toNat
    else if strncmp buf (c_str "both") 4 = 0 then some ('b').toNat
    else none
  match parsed with
  | none => (s, -EINVAL)
  | some new_mode =>
    let int_enable : Nat :=
      if new_mode = ('s').toNat then ADXL345_INT_SINGLE_TAP
      else if new_mode = ('d').toNat then ADXL345_INT_DOUBLE_TAP
      else if new_mode = ('b').toNat then ADXL345_INT_SINGLE_TAP ||| ADXL345_INT_DOUBLE_TAP
      else 0
    let s1 := i2c_smbus_write_byte_data s ADXL345_INT_ENABLE int_enable ret
    if ret < 0 then (s1, ret)
    else ({ s1 with tap_mode := new_mode }, (count : Int))

/-- What `adxl345_probe` gets from its environment: the return value of the `DEVID` read,
the return value of each register write (by register and value), whether `devm_kzalloc`
succeeds, and the return values of `devm_request_threaded_irq`, `sysfs_create_group` and
`misc_register`. -/
structure probe_env where
  devid : Int
  wr : Nat → Nat → Int
  alloc_ok : Bool
  irq_ret : Int
  sysfs_ret : Int
  misc_ret : Int

/-- A register write of `adxl345_probe`: the new state and the return value. -/
def probe_write (e : probe_env) (s : adxl345_data) (reg value : Nat) : adxl345_data × Int :=
  (i2c_smbus_write_byte_data s reg value (e.wr reg value), e.wr reg value)

/-- The label `err_power_off` of `adxl345_probe` (lines 492-494). -/
def err_power_off (e : probe_env) (s : adxl345_data) (ret : Int) : adxl345_data × Int :=
  ((probe_write e s ADXL345_POWER_CTL ADXL345_SLEEP_MODE).1, ret)

/-- The function `adxl345_probe` (lines 379-495): the state of the bus and of the driver
data when it returns, and its return value. -/
def adxl345_probe (e : probe_env) : adxl345_data × Int :=
  let s0 : adxl345_data :=
    { regs := [], tap_axis := 0, tap_mode := 0, tap_count := 0, tap_event := 0, wait_busy := 0 }
  if e.devid % 256 ≠ (ADXL345_DEVID_VAL : Int) then (s0, -ENODEV)
  else if e.alloc_ok = false then (s0, -ENOMEM)
  else
    let w1 := probe_write e s0 ADXL345_DATA_FORMAT ADXL345_RANGE_4G
    if w1.2 < 0 then w1
    else
      let w2 := probe_write e w1.1 ADXL345_POWER_CTL ADXL345_MEASURE_MODE
      if w2.2 < 0 then w2
      else
        let t1 := probe_write e w2.1 ADXL345_THRESH_TAP 0x20
        let t2 := probe_write e t1.1 ADXL345_DUR 0x08
        let t3 := probe_write e t2.1 ADXL345_LATENT 0x32
        let t4 := probe_write e t3.1 ADXL345_WINDOW 0xFF
        let ret := Int.lor (Int.lor (Int.lor t1.2 t2.2) t3.2) t4.2
        if ret < 0 then err_power_off e t4.1 ret
        else
          let a := probe_write e t4.1 ADXL345_TAP_AXES
            (ADXL345_SUPRESS_BIT ||| ADXL345_TAP_AXIS_X ||| ADXL345_TAP_AXIS_Y |||
              ADXL345_TAP_AXIS_Z)
          if a.2 < 0 then err_power_off e a.1 a.2
          else
            let i1 := probe_write e a.1 ADXL345_INT_MAP 0
            let i2 := probe_write e i1.1 ADXL345_INT_ENABLE
              (ADXL345_INT_SINGLE_TAP ||| ADXL345_INT_DOUBLE_TAP)
            let ret := Int.lor i1.2 i2.2
            if ret < 0 then err_power_off e i2.1 ret
            else if e.irq_ret ≠ 0 then err_power_off e i2.1 e.irq_ret
            else
              let s1 : adxl345_data :=
                { i2.1 with tap_axis := ('z').toNat, tap_mode := ('o').toNat, tap_count := 0,
                            tap_event := 0, wait_busy := 0 }
              if e.sysfs_ret ≠ 0 then err_power_off e s1 e.sysfs_ret
              else if e.misc_ret ≠ 0 then
                err_power_off e (probe_write e s1 ADXL345_POWER_CTL ADXL345_SLEEP_MODE).1
                  e.misc_ret
              else (s1, 0)

/-- An environment in which the sensor answers with its identifier and every transfer,
allocation and registration succeeds. -/
def probe_env_ok : probe_env :=
  { devid := 0xE5, wr := fun _ _ => 0, alloc_ok := true, irq_ret := 0, sysfs_ret := 0,
    misc_ret := 0 }

/-- The mode text that corresponds to a value of the `INT_ENABLE` register: "off" with
0x00, "single" with 0x40, "double" with 0x20, "both" with 0x60. -/
def mode_text_of_int_enable (v : Nat) : Option (List Char) :=
  if v = 0x00 then some "off\n".toList
  else if v = 0x40 then some "single\n".toList
  else if v = 0x20 then some "double\n".toList
  else if v = 0x60 then some "both\n".toList
  else none

end Adxl345

/-! User-space UIO program (`src/uio_driver/ex4.c`). -/

namespace Ex4

def NB_HEX : Nat := 6
def NB_HEX_FIRST_REG : Nat := 4

/-- The table `hex_map`: the segment patterns of the letters A to Z. -/
def hex_map : List Nat :=
  [0x77, 0x7C, 0x39, 0x5E, 0x79, 0x71, 0x3D, 0x76, 0x06, 0x1E,
   0x75, 0x38, 0x37, 0x54, 0x5C, 0x73, 0x67, 0x50, 0x6D, 0x78,
   0x3E, 0x1C, 0x2A, 0x74, 0x6E, 0x5B]

/-- The program state: the array `displayed_char` and the variable `cursor` of `main`, the
two 32-bit display registers `*hex[0]` and `*hex[1]`, the 16-bit LED register, the edge
capture register, and the list of the indices at which `hex_map` has been read (kept for the
statements only). -/
structure state where
  displayed_char : List Nat
  cursor : Nat
  hex0 : Nat
  hex1 : Nat
  leds : Nat
  key_edge_capture : Nat
  hex_map_reads : List Nat
  deriving DecidableEq, Repr

/-- The function `update_display` (lines 82-112), called with `displayed_char` and a cursor
value. -/
def update_display (s : state) (cursor : Nat) : state :=
  let index_reg_hex : Nat := if cursor > NB_HEX_FIRST_REG - 1 then 1 else 0
  let shift : Nat :=
    (if index_reg_hex ≠ 0 then cursor + 256 - NB_HEX_FIRST_REG else cursor) % 256
  let c : Nat := s.displayed_char.getD cursor 0
  let index : Nat := (c + 256 - ('A').toNat) % 256
  let clear : Nat := 0xFFFFFFFF ^^^ ((0x7F <<< (8 * shift)) % 2 ^ 32)
  let lit : Nat := if c ≠ (' ').toNat then (hex_map.getD index 0 <<< (8 * shift)) % 2 ^ 32 else 0
  let reads : List Nat :=
    if c ≠ (' ').toNat then s.hex_map_reads ++ [index] else s.hex_map_reads
  let s1 : state :=
    if index_reg_hex = 0 then { s with hex0 := (s.hex0 &&& clear) ||| lit }
    else { s with hex1 := (s.hex1 &&& clear) ||| lit }
  { s1 with leds := (1 <<< cursor) % 2 ^ 16, hex_map_reads := reads }

/-- The expression assigned by the KEY0 branch (lines 140-142): decrement. -/
def key0_char (c : Nat) : Nat :=
  if c = ('A').toNat then (' ').toNat else if c = (' ').toNat then c else (c + 255) % 256

/-- The expression assigned by the KEY1 branch (lines 146-148): increment. -/
def key1_char (c : Nat) : Nat :=
  if c = (' ').toNat then ('A').toNat else if c = ('Z').toNat then c else (c + 1) % 256

/-- The function `handle_interrupt` (lines 133-165); `edge` is the value read from the edge
capture register. -/
def handle_interrupt (edge : Nat) (s : state) : state :=
  let key_val : Nat := (edge % 256) &&& 0x0F
  let dc1 : List Nat :=
    if key_val &&& 0x01 ≠ 0 then
      s.displayed_char.set s.cursor (key0_char (s.displayed_char.getD s.cursor 0))
    else s.displayed_char
  let dc2 : List Nat :=
    if key_val &&& 0x02 ≠ 0 then dc1.set s.cursor (key1_char (dc1.getD s.cursor 0)) else dc1
  let cur1 : Nat :=
    if key_val &&& 0x04 ≠ 0 then (if s.cursor = 5 then 0 else (s.cursor + 1) % 256)
    else s.cursor
  let cur2 : Nat :=
    if key_val &&& 0x08 ≠ 0 then (if cur1 = 0 then 5 else (cur1 + 255) % 256) else cur1
  let s1 := update_display { s with displayed_char := dc2, cursor := cur2 } cur2
  { s1 with key_edge_capture := 0xF }

/-- The initialisation loop of `main` (lines 215-219), from index `i`, for `n` more
iterations. -/
def main_init_loop : Nat → Nat → state → state
  | 0, _, s => s
  | n + 1, i, s =>
    main_init_loop n (i + 1)
      (update_display { s with displayed_char := s.displayed_char.set i ('A').toNat } i)

/-- The state of `main` when it enters its interrupt loop (lines 203-221): `junk` is the
content of the uninitialised array, `hex0`, `hex1` and `leds` the registers as found. -/
def main_init (junk : Fin 6 → Nat) (hex0 hex1 leds : Nat) : state :=
  let s0 : state :=
    { displayed_char := List.ofFn junk, cursor := 0, hex0 := hex0, hex1 := hex1, leds := leds,
      key_edge_capture := 0xF, hex_map_reads := [] }
  update_display (main_init_loop NB_HEX 0 s0) 0

/-- The interrupt loop of `main`: one `handle_interrupt` per interrupt, each with the value
found in the edge capture register. -/
def run_keys : List Nat → state → state
  | [], s => s
  | edge :: rest, s => run_keys rest (handle_interrupt edge s)

/-- A displayed character is a space or a capital letter. -/
def valid_char (c : Nat) : Prop := c = (' ').toNat ∨ (('A').toNat ≤ c ∧ c ≤ ('Z').toNat)

instance (c : Nat) : Decidable (valid_char c) := by
  unfold valid_char; infer_instance

/-- The seven segment bits of the digit `cursor` inside its display register. -/
def segment_mask (cursor : Nat) : Nat := 0x7F <<< (8 * (cursor % NB_HEX_FIRST_REG))

/-- The invariant of the interrupt loop: six displayed characters, each a space or a capital
letter, the cursor on one of the six digits, `hex_map` read inside its bounds only, and
32-bit display registers. -/
def state_ok (s : state) : Prop :=
  s.displayed_char.length = NB_HEX ∧ (∀ c ∈ s.displayed_char, valid_char c) ∧
    s.cursor < NB_HEX ∧ (∀ i ∈ s.hex_map_reads, i < 26) ∧ s.hex0 < 2 ^ 32 ∧ s.hex1 < 2 ^ 32

instance (s : state) : Decidable (state_ok s) := by
  unfold state_ok; infer_instance

end Ex4

/-! # Theorems -/

namespace Chaser

/-! ## Step timer: closed form of a started sequence -/

theorem firings_succ (n : Nat) (p : priv) :
    firings (n + 1) p = (firings n p).bind timer_expire := rfl

/-- State reached `k ≤ 10` expiries after the dispatcher started an UP sequence. -/
theorem firings_up (p : priv) (k : Nat) (hk : k ≤ 10) :
    firings k (chaser_thread_start direction.UP p) =
      some
        { led_base := p.led_base ++ (List.range k).map (fun i => 2 ^ i)
          sequence_fifo := p.sequence_fifo
          timer := some (if k = 0 then 0 else p.interval)
          sequence_info := { led_value := 2 ^ k, dir := direction.UP, finish_flag := 0 }
          interval := p.interval
          completed_sequences := p.completed_sequences } := by
  induction k with
  | zero => simp [firings, chaser_thread_start, mod_timer]
  | succ k ih =>
    have hk9 : k ≤ 9 := by omega
    rw [firings_succ, ih (by omega)]
    have h1 : 0 < 2 ^ k := Nat.pow_pos (by norm_num)
    have h2 : 2 ^ k ≤ 512 := by
      calc 2 ^ k ≤ 2 ^ 9 := Nat.pow_le_pow_right (by norm_num) hk9
        _ = 512 := by norm_num
    have h3 : 2 ^ k % 4294967296 = 2 ^ k := Nat.mod_eq_of_lt (by omega)
    have h4 : 2 ^ k * 2 % 65536 = 2 ^ (k + 1) := by
      rw [pow_succ]; exact Nat.mod_eq_of_lt (by omega)
    simp [timer_expire, chaser_timer, iowrite32, mod_timer, NUM_LEDS, h1, h2, h3,
      Nat.shiftLeft_eq, h4, List.range_succ]

/-- State reached `k ≤ 10` expiries after the dispatcher started a DOWN sequence. -/
theorem firings_down (p : priv) (k : Nat) (hk : k ≤ 10) :
    firings k (chaser_thread_start direction.DOWN p) =
      some
        { led_base := p.led_base ++ (List.range k).map (fun i => 512 / 2 ^ i)
          sequence_fifo := p.sequence_fifo
          timer := some (if k = 0 then 0 else p.interval)
          sequence_info := { led_value := 512 / 2 ^ k, dir := direction.DOWN, finish_flag := 0 }
          interval := p.interval
          completed_sequences := p.completed_sequences } := by
  induction k with
  | zero => simp [firings, chaser_thread_start, mod_timer, NUM_LEDS]
  | succ k ih =>
    have hk9 : k ≤ 9 := by omega
    rw [firings_succ, ih (by omega)]
    have h1 : 0 < 512 / 2 ^ k ∧ 512 / 2 ^ k ≤ 512 ∧ 512 / 2 ^ k % 4294967296 = 512 / 2 ^ k ∧
        512 / 2 ^ k / 2 % 65536 = 512 / 2 ^ (k + 1) := by
      interval_cases k <;> simp
    obtain ⟨h1, h2, h3, h4⟩ := h1
    simp [timer_expire, chaser_timer, iowrite32, mod_timer, NUM_LEDS, h1, h2, h3,
      Nat.shiftRight_eq_div_pow, h4, List.range_succ]

theorem firings_none_succ (n : Nat) (p : priv) (h : firings n p = none) :
    firings (n + 1) p = none := by
  rw [firings_succ, h]; rfl

theorem firings_none_add (n m : Nat) (p : priv) (h : firings n p = none) :
    firings (n + m) p = none := by
  induction m with
  | zero => exact h
  | succ m ih => exact firings_none_succ (n + m) p ih

/-- State reached by the eleventh expiry of an UP sequence: the completion. -/
theorem firings_up_eleven (p : priv) :
    firings 11 (chaser_thread_start direction.UP p) =
      some
        { led_base := p.led_base ++ [1, 2, 4, 8, 16, 32, 64, 128, 256, 512, 1024]
          sequence_fifo := p.sequence_fifo
          timer := none
          sequence_info := { led_value := 1024, dir := direction.UP, finish_flag := 1 }
          interval := p.interval
          completed_sequences := atomic_inc p.completed_sequences } := by
  rw [firings_succ, firings_up p 10 (by norm_num)]
  simp [timer_expire, chaser_timer, iowrite32, NUM_LEDS, List.range_succ]

/-- State reached by the eleventh expiry of a DOWN sequence: the completion. -/
theorem firings_down_eleven (p : priv) :
    firings 11 (chaser_thread_start direction.DOWN p) =
      some
        { led_base := p.led_base ++ [512, 256, 128, 64, 32, 16, 8, 4, 2, 1, 0]
          sequence_fifo := p.sequence_fifo
          timer := none
          sequence_info := { led_value := 0, dir := direction.DOWN, finish_flag := 1 }
          interval := p.interval
          completed_sequences := atomic_inc p.completed_sequences } := by
  rw [firings_succ, firings_down p 10 (by norm_num)]
  simp [timer_expire, chaser_timer, iowrite32, NUM_LEDS, List.range_succ]

theorem firings_up_twelve (p : priv) :
    firings 12 (chaser_thread_start direction.UP p) = none := by
  rw [firings_succ, firings_up_eleven]; rfl

theorem firings_down_twelve (p : priv) :
    firings 12 (chaser_thread_start direction.DOWN p) = none := by
  rw [firings_succ, firings_down_eleven]; rfl

theorem atomic_inc_ne (c : Int) : atomic_inc c ≠ c := by
  unfold atomic_inc; split <;> omega

/-! ## C1 - C3, C5: one sequence from its start to its completion -/

/-- C1: after `chaser_thread` starts an UP sequence (from any previous state), the first ten
expiries of the timer write 1, 2, 4, ..., 512 to the LED port, in this order, and each of
them re-arms the timer (with the stored interval) and leaves `finish_flag` at 0; the pattern
is then 1024, and the eleventh expiry sets `finish_flag` and does not re-arm, so that no
twelfth expiry happens. -/
theorem C1_up_sequence (p : priv) :
    (∀ k : Fin 10, ∃ q, firings (k.val + 1) (chaser_thread_start direction.UP p) = some q ∧
        q.led_base = p.led_base ++ [1, 2, 4, 8, 16, 32, 64, 128, 256, 512].take (k.val + 1) ∧
        q.timer = some p.interval ∧ q.sequence_info.finish_flag = 0) ∧
    (∃ q, firings 10 (chaser_thread_start direction.UP p) = some q ∧
        q.led_base = p.led_base ++ [1, 2, 4, 8, 16, 32, 64, 128, 256, 512] ∧
        q.sequence_info.led_value = 1024) ∧
    (∃ q, firings 11 (chaser_thread_start direction.UP p) = some q ∧
        q.led_base = p.led_base ++ [1, 2, 4, 8, 16, 32, 64, 128, 256, 512, 1024] ∧
        q.sequence_info.finish_flag = 1 ∧ q.timer = none) ∧
    firings 12 (chaser_thread_start direction.UP p) = none := by
  have h11 := firings_up_eleven p
  refine ⟨?_, ?_, ?_, ?_⟩
  · intro k
    refine ⟨_, firings_up p (k.val + 1) (by omega), ?_, by simp, rfl⟩
    have hk := k.isLt
    generalize k.val = n at hk
    interval_cases n <;> simp [List.range_succ]
  · exact ⟨_, firings_up p 10 (by norm_num), by simp [List.range_succ], by norm_num⟩
  · exact ⟨_, h11, rfl, rfl, rfl⟩
  · rw [firings_succ, h11]; rfl

/-- C2: after `chaser_thread` starts a DOWN sequence (from any previous state), the pattern
is 512 and the first ten expiries of the timer write 512, 256, ..., 2, 1 to the LED port, in
this order, each of them re-arming the timer and leaving `finish_flag` at 0; the pattern is
then 0, and the eleventh expiry sets `finish_flag` and does not re-arm, so that no twelfth
expiry happens. -/
theorem C2_down_sequence (p : priv) :
    (chaser_thread_start direction.DOWN p).sequence_info.led_value = 512 ∧
    (∀ k : Fin 10, ∃ q, firings (k.val + 1) (chaser_thread_start direction.DOWN p) = some q ∧
        q.led_base = p.led_base ++ [512, 256, 128, 64, 32, 16, 8, 4, 2, 1].take (k.val + 1) ∧
        q.timer = some p.interval ∧ q.sequence_info.finish_flag = 0) ∧
    (∃ q, firings 10 (chaser_thread_start direction.DOWN p) = some q ∧
        q.led_base = p.led_base ++ [512, 256, 128, 64, 32, 16, 8, 4, 2, 1] ∧
        q.sequence_info.led_value = 0) ∧
    (∃ q, firings 11 (chaser_thread_start direction.DOWN p) = some q ∧
        q.led_base = p.led_base ++ [512, 256, 128, 64, 32, 16, 8, 4, 2, 1, 0] ∧
        q.sequence_info.finish_flag = 1 ∧ q.timer = none) ∧
    firings 12 (chaser_thread_start direction.DOWN p) = none := by
  have h11 := firings_down_eleven p
  refine ⟨by simp [chaser_thread_start, mod_timer, NUM_LEDS], ?_, ?_, ?_, ?_⟩
  · intro k
    refine ⟨_, firings_down p (k.val + 1) (by omega), ?_, by simp, rfl⟩
    have hk := k.isLt
    generalize k.val = n at hk
    interval_cases n <;> simp [List.range_succ]
  · exact ⟨_, firings_down p 10 (by norm_num), by simp [List.range_succ], by norm_num⟩
  · exact ⟨_, h11, rfl, rfl, rfl⟩
  · rw [firings_succ, h11]; rfl

/-- C3: for a sequence of either direction started by `chaser_thread` from any state, the
counter `completed_sequences` still has its previous value before and after each of the ten
re-arming expiries (with `finish_flag` 0), the eleventh expiry sets `finish_flag` and
increments the counter once, and it leaves the timer unarmed, so that the sequence has no
further expiry that could increment it again. -/
theorem C3_completed_once (p : priv) (d : direction) :
    (∀ k : Fin 11, ∃ q, firings k.val (chaser_thread_start d p) = some q ∧
        q.completed_sequences = p.completed_sequences ∧ q.sequence_info.finish_flag = 0) ∧
    (∃ q, firings 11 (chaser_thread_start d p) = some q ∧
        q.completed_sequences = atomic_inc p.completed_sequences ∧
        q.completed_sequences ≠ p.completed_sequences ∧
        q.sequence_info.finish_flag = 1 ∧ q.timer = none) ∧
    (∀ n : Nat, firings (12 + n) (chaser_thread_start d p) = none) := by
  cases d with
  | UP =>
    exact ⟨fun k => ⟨_, firings_up p k.val (by omega), rfl, rfl⟩,
      ⟨_, firings_up_eleven p, rfl, atomic_inc_ne _, rfl, rfl⟩,
      fun n => firings_none_add 12 n _ (firings_up_twelve p)⟩
  | DOWN =>
    exact ⟨fun k => ⟨_, firings_down p k.val (by omega), rfl, rfl⟩,
      ⟨_, firings_down_eleven p, rfl, atomic_inc_ne _, rfl, rfl⟩,
      fun n => firings_none_add 12 n _ (firings_down_twelve p)⟩

/-- C5: when `chaser_thread` pops a command (the four bytes at the head of the queue are
the representation of `d`), whatever the previous Sequence State, the new Sequence State is
direction UP with pattern 1 for the command UP and direction DOWN with pattern 512 (bit 9)
for the command DOWN, `finish_flag` is 0, the timer is armed with a delay of 0, and the
command has left the queue. -/
theorem C5_thread_start (p : priv) (d : direction) (rest : List Nat)
    (h : p.sequence_fifo.data = d.bytes ++ rest) :
    (chaser_thread_iter p).2 = some d ∧
    (chaser_thread_iter p).1.sequence_info =
      { led_value := (match d with
          | direction.UP => 1
          | direction.DOWN => 512),
        dir := d, finish_flag := 0 } ∧
    (chaser_thread_iter p).1.timer = some 0 ∧
    (chaser_thread_iter p).1.sequence_fifo.data = rest := by
  cases d <;>
    simp [chaser_thread_iter, kfifo_out, kfifo_len, h, direction.bytes, direction.toNat,
      sizeof_direction, chaser_thread_start, mod_timer, direction.ofRaw, le32, NUM_LEDS]

theorem C5_thread_start_witness :
    (chaser_write chaser_probe (cmd_text direction.DOWN) 5).1.sequence_fifo.data =
      direction.DOWN.bytes ++ [] ∧
    (chaser_thread_iter (chaser_write chaser_probe (cmd_text direction.DOWN) 5).1).2 =
      some direction.DOWN ∧
    (chaser_thread_iter (chaser_write chaser_probe (cmd_text direction.DOWN) 5).1).1.sequence_info =
      { led_value := 512, dir := direction.DOWN, finish_flag := 0 } ∧
    (chaser_thread_iter (chaser_write chaser_probe (cmd_text direction.DOWN) 5).1).1.timer =
      some 0 ∧
    (chaser_thread_iter
      (chaser_write chaser_probe (cmd_text direction.DOWN) 5).1).1.sequence_fifo.data = [] :=
  ⟨by decide, C5_thread_start _ direction.DOWN [] (by decide)⟩

/-! ## C4: the pattern while a sequence is active -/

theorem chaser_write_sequence_info (p : priv) (buf : List Nat) (count : Nat) :
    (chaser_write p buf count).1.sequence_info = p.sequence_info := by
  unfold chaser_write
  split
  · rfl
  · simp only []
    split <;> rfl

theorem interval_store_sequence_info (p : priv) (buf : List Nat) (count : Nat) :
    (interval_store p buf count).1.sequence_info = p.sequence_info := by
  unfold interval_store
  split
  · rfl
  · split <;> rfl

theorem sequence_show_sequence_info (p : priv) :
    (sequence_show p).1.sequence_info = p.sequence_info := by
  unfold sequence_show
  simp only []
  split_ifs <;> rfl

theorem chaser_thread_start_pattern (d : direction) (p : priv) :
    (chaser_thread_start d p).sequence_info.led_value ∈
      [0, 1, 2, 4, 8, 16, 32, 64, 128, 256, 512, 1024] := by
  cases d <;> simp [chaser_thread_start, mod_timer, NUM_LEDS]

theorem chaser_timer_pattern (p : priv)
    (h : p.sequence_info.led_value ∈ [0, 1, 2, 4, 8, 16, 32, 64, 128, 256, 512, 1024]) :
    (chaser_timer p).sequence_info.led_value ∈
      [0, 1, 2, 4, 8, 16, 32, 64, 128, 256, 512, 1024] := by
  obtain ⟨lb, ff, t, ⟨v, d, f⟩, iv, cs⟩ := p
  simp only [List.mem_cons, List.mem_singleton, List.not_mem_nil, or_false] at h
  cases d <;> rcases h with h | h | h | h | h | h | h | h | h | h | h | h <;> subst h <;>
    simp [chaser_timer, iowrite32, mod_timer, NUM_LEDS]

/-- In every reachable state the pattern is 0 or one of the single bits 0 to 10. -/
theorem Reachable_pattern (p : priv) (h : Reachable p) :
    p.sequence_info.led_value ∈ [0, 1, 2, 4, 8, 16, 32, 64, 128, 256, 512, 1024] := by
  induction h with
  | probe => simp [chaser_probe, iowrite32]
  | write p buf count _ ih => rw [chaser_write_sequence_info]; exact ih
  | thread p _ ih =>
    unfold chaser_thread_iter
    simp only []
    split
    · exact ih
    · exact chaser_thread_start_pattern _ _
  | expire p q _ he ih =>
    unfold timer_expire at he
    split at he
    · cases he
    · cases he
      exact chaser_timer_pattern _ ih
  | store p buf count _ ih => rw [interval_store_sequence_info]; exact ih
  | display p _ ih => rw [sequence_show_sequence_info]; exact ih

theorem Reachable_firings (n : Nat) (p q : priv) (hp : Reachable p)
    (h : firings n p = some q) : Reachable q := by
  induction n generalizing q with
  | zero => cases h; exact hp
  | succ n ih =>
    rw [firings_succ] at h
    cases hf : firings n p with
    | none => rw [hf] at h; cases h
    | some r =>
      rw [hf] at h
      exact Reachable.expire r q (ih r hf) h

/-- C4 (as stated, refuted): ten expiries after the dispatcher started a DOWN sequence on a
freshly probed device, the driver is in the reachable state `down_sequence_tenth`, where the
sequence is still active (`finish_flag` is 0) and the pattern is 0: no bit is set. -/
theorem C4_counterexample :
    firings 10
        (chaser_thread_iter (chaser_write chaser_probe (cmd_text direction.DOWN) 5).1).1 =
      some down_sequence_tenth ∧
    Reachable down_sequence_tenth ∧
    down_sequence_tenth.sequence_info.finish_flag = 0 ∧
    down_sequence_tenth.sequence_info.led_value = 0 ∧
    bitCount down_sequence_tenth.sequence_info.led_value ≠ 1 := by
  have h : firings 10
      (chaser_thread_iter (chaser_write chaser_probe (cmd_text direction.DOWN) 5).1).1 =
      some down_sequence_tenth := by decide
  exact ⟨h, Reachable_firings 10 _ _
    (Reachable.thread _ (Reachable.write _ _ _ Reachable.probe)) h, rfl, rfl, by decide⟩

/-- C4 (amended): in every state reachable from the probed driver, whenever the sequence is
active (`finish_flag` is 0) the pattern has at most one bit set: it is a single bit of
position 0 to 10, or it is 0. -/
theorem C4_pattern_active (p : priv) (h : Reachable p)
    (_hactive : p.sequence_info.finish_flag = 0) :
    (bitCount p.sequence_info.led_value = 1 ∨ p.sequence_info.led_value = 0) ∧
    bitCount p.sequence_info.led_value ≤ 1 ∧ p.sequence_info.led_value ≤ 1024 := by
  have hm := Reachable_pattern p h
  generalize p.sequence_info.led_value = v at hm
  simp only [List.mem_cons, List.mem_singleton, List.not_mem_nil, or_false] at hm
  rcases hm with h | h | h | h | h | h | h | h | h | h | h | h <;> subst h <;> decide

theorem C4_pattern_active_witness :
    Reachable (chaser_thread_iter (chaser_write chaser_probe (cmd_text direction.UP) 3).1).1 ∧
    (chaser_thread_iter
      (chaser_write chaser_probe (cmd_text direction.UP) 3).1).1.sequence_info.finish_flag = 0 ∧
    ((bitCount (chaser_thread_iter
        (chaser_write chaser_probe (cmd_text direction.UP) 3).1).1.sequence_info.led_value = 1 ∨
      (chaser_thread_iter
        (chaser_write chaser_probe (cmd_text direction.UP) 3).1).1.sequence_info.led_value = 0) ∧
    bitCount (chaser_thread_iter
        (chaser_write chaser_probe (cmd_text direction.UP) 3).1).1.sequence_info.led_value ≤ 1 ∧
    (chaser_thread_iter
        (chaser_write chaser_probe (cmd_text direction.UP) 3).1).1.sequence_info.led_value
      ≤ 1024) :=
  ⟨Reachable.thread _ (Reachable.write _ _ _ Reachable.probe), by decide,
    C4_pattern_active _ (Reachable.thread _ (Reachable.write _ _ _ Reachable.probe))
      (by decide)⟩

/-! ## The command queue holds whole commands, at most sixteen -/

theorem direction_bytes_length (d : direction) : d.bytes.length = 4 := by
  cases d <;> rfl

theorem ofRaw_le32_bytes (d : direction) : direction.ofRaw (le32 d.bytes) = d := by
  cases d <;> decide

theorem kfifo_in_room (f : kfifo) (d : direction) (hf : kfifo_wf f)
    (hlen : f.data.length < 64) :
    kfifo_in f d.bytes = ({ f with data := f.data ++ d.bytes }, 4) := by
  obtain ⟨hs, _, hm⟩ := hf
  simp only [MAX_SEQUENCES, sizeof_direction] at hs hm
  have hmin : min d.bytes.length (kfifo_unused f) = 4 := by
    rw [direction_bytes_length]; unfold kfifo_unused kfifo_len; omega
  have htake : d.bytes.take 4 = d.bytes := by cases d <;> rfl
  simp only [kfifo_in, hmin, htake]

theorem kfifo_in_full (f : kfifo) (d : direction) (hf : kfifo_wf f)
    (hlen : ¬ f.data.length < 64) :
    kfifo_in f d.bytes = (f, 0) := by
  obtain ⟨hs, hle, _⟩ := hf
  simp only [MAX_SEQUENCES, sizeof_direction] at hs
  have hmin : min d.bytes.length (kfifo_unused f) = 0 := by
    rw [direction_bytes_length]; unfold kfifo_unused kfifo_len; omega
  simp [kfifo_in, hmin]

theorem kfifo_out_empty (f : kfifo) (hd : f.data = []) :
    kfifo_out f sizeof_direction = (f, []) := by
  obtain ⟨s, data⟩ := f
  simp only at hd
  subst hd
  simp [kfifo_out, kfifo_len]

theorem kfifo_out_cons (f : kfifo) (b0 b1 b2 b3 : Nat) (rest : List Nat)
    (hd : f.data = b0 :: b1 :: b2 :: b3 :: rest) :
    kfifo_out f sizeof_direction = ({ f with data := rest }, [b0, b1, b2, b3]) := by
  simp [kfifo_out, kfifo_len, hd, sizeof_direction]

/-- A well-formed queue content is empty or starts with four bytes, followed by a
well-formed content. -/
theorem wf_data_cases (data : List Nat) (hm : data.length % sizeof_direction = 0) :
    data = [] ∨ ∃ b0 b1 b2 b3 rest, data = b0 :: b1 :: b2 :: b3 :: rest ∧
      rest.length % sizeof_direction = 0 := by
  simp only [sizeof_direction] at hm ⊢
  match data, hm with
  | [], _ => exact Or.inl rfl
  | [_], h => simp at h
  | [_, _], h => simp at h
  | [_, _, _], h => simp at h
  | b0 :: b1 :: b2 :: b3 :: rest, h =>
    refine Or.inr ⟨b0, b1, b2, b3, rest, rfl, ?_⟩
    simp only [List.length_cons] at h
    omega

theorem chaser_write_wf (p : priv) (buf : List Nat) (count : Nat)
    (hf : kfifo_wf p.sequence_fifo) : kfifo_wf (chaser_write p buf count).1.sequence_fifo := by
  unfold chaser_write
  split
  · exact hf
  · rename_i dir _
    by_cases hlen : p.sequence_fifo.data.length < 64
    · rw [kfifo_in_room _ dir hf hlen]
      obtain ⟨hs, hle, hm⟩ := hf
      simp only [MAX_SEQUENCES, sizeof_direction] at hs hm
      simp [kfifo_wf, MAX_SEQUENCES, sizeof_direction, direction_bytes_length]
      omega
    · rw [kfifo_in_full _ dir hf hlen]
      simpa [sizeof_direction] using hf

theorem chaser_thread_iter_empty (p : priv) (hd : p.sequence_fifo.data = []) :
    chaser_thread_iter p = (p, none) := by
  unfold chaser_thread_iter
  rw [kfifo_out_empty _ hd]
  simp [sizeof_direction]

theorem chaser_thread_iter_cons (p : priv) (b0 b1 b2 b3 : Nat) (rest : List Nat)
    (hd : p.sequence_fifo.data = b0 :: b1 :: b2 :: b3 :: rest) :
    chaser_thread_iter p =
      (chaser_thread_start (direction.ofRaw (le32 [b0, b1, b2, b3]))
          { p with sequence_fifo := { p.sequence_fifo with data := rest } },
        some (direction.ofRaw (le32 [b0, b1, b2, b3]))) := by
  unfold chaser_thread_iter
  rw [kfifo_out_cons _ b0 b1 b2 b3 rest hd]
  simp [sizeof_direction]

theorem chaser_thread_start_fifo (d : direction) (p : priv) :
    (chaser_thread_start d p).sequence_fifo = p.sequence_fifo := rfl

theorem chaser_thread_iter_wf (p : priv) (hf : kfifo_wf p.sequence_fifo) :
    kfifo_wf (chaser_thread_iter p).1.sequence_fifo := by
  obtain ⟨hs, hle, hm⟩ := hf
  rcases wf_data_cases _ hm with hd | ⟨b0, b1, b2, b3, rest, hd, hr⟩
  · rw [chaser_thread_iter_empty p hd]
    exact ⟨hs, hle, hm⟩
  · rw [chaser_thread_iter_cons p b0 b1 b2 b3 rest hd]
    rw [hd] at hle
    simp only [List.length_cons] at hle
    refine ⟨hs, ?_, hr⟩
    simp only [chaser_thread_start_fifo]
    omega

theorem sysfs_emit_at_append (buf : List Char) (pos : Nat) (text : List Char)
    (hpos : buf.length = pos) (hroom : pos + text.length < PAGE_SIZE) :
    sysfs_emit_at buf pos text = (buf ++ text, text.length) := by
  unfold sysfs_emit_at
  have h1 : ¬ pos ≥ PAGE_SIZE := by omega
  have h2 : text.take (PAGE_SIZE - pos - 1) = text := List.take_of_length_le (by omega)
  have h3 : buf.take pos = buf := List.take_of_length_le (by omega)
  simp only [h1, ↓reduceIte, h2, h3]

theorem cmd_line_length_le (d : direction) : (cmd_line d).length ≤ 5 := by
  cases d <;> decide

/-- The listing loop prints the lines of the next `n` commands of the copied bytes. -/
theorem sequence_show_loop_spec (raw : List Nat) (n : Nat) :
    ∀ (i : Nat) (acc : List Char × Nat), raw.length % sizeof_direction = 0 →
      sizeof_direction * (i + n) ≤ raw.length → acc.1.length = acc.2 →
      acc.2 + 5 * n < PAGE_SIZE →
      sequence_show_loop raw n i acc =
        (acc.1 ++ ((pending_cmds (raw.drop (sizeof_direction * i))).take n).flatMap cmd_line,
          acc.2 +
            (((pending_cmds (raw.drop (sizeof_direction * i))).take n).flatMap cmd_line).length) := by
  induction n with
  | zero => intro i acc _ _ _ _; simp [sequence_show_loop]
  | succ n ih =>
    intro i acc hraw hi hacc hroom
    have hdl : (raw.drop (sizeof_direction * i)).length % sizeof_direction = 0 := by
      simp only [sizeof_direction, List.length_drop] at *
      omega
    rcases wf_data_cases _ hdl with hd | ⟨b0, b1, b2, b3, rest, hd, _⟩
    · have := congrArg List.length hd
      simp only [sizeof_direction, List.length_drop, List.length_nil] at this hi
      omega
    · have hrest : raw.drop (sizeof_direction * (i + 1)) = rest := by
        have : sizeof_direction * (i + 1) = sizeof_direction * i + 4 := by
          simp [sizeof_direction]; ring
        rw [this, ← List.drop_drop, hd]
        rfl
      have hent : entries_get raw i = le32 [b0, b1, b2, b3] := by
        unfold entries_get
        rw [hd]
        rfl
      have hline :
          (if entries_get raw i = direction.UP.toNat then
              sysfs_emit_at acc.1 acc.2 "up\n".toList
            else sysfs_emit_at acc.1 acc.2 "down\n".toList) =
            sysfs_emit_at acc.1 acc.2 (cmd_line (direction.ofRaw (le32 [b0, b1, b2, b3]))) := by
        rw [hent]
        unfold direction.ofRaw
        split <;> rfl
      have hlen := cmd_line_length_le (direction.ofRaw (le32 [b0, b1, b2, b3]))
      unfold sequence_show_loop
      simp only [hline]
      rw [sysfs_emit_at_append _ _ _ hacc (by omega)]
      rw [ih (i + 1) _ hraw (by simp only [sizeof_direction] at *; omega)
        (by simp [hacc]) (by simp only []; omega)]
      rw [hrest, hd]
      simp [pending_cmds, Nat.add_assoc]

theorem pending_cmds_length (n : Nat) :
    ∀ data : List Nat, data.length = sizeof_direction * n → (pending_cmds data).length = n := by
  induction n with
  | zero =>
    intro data h
    have : data = [] := List.length_eq_zero.mp (by simpa using h)
    subst this
    rfl
  | succ n ih =>
    intro data h
    rcases wf_data_cases data (by rw [h]; exact Nat.mul_mod_right _ _) with
      hd | ⟨b0, b1, b2, b3, rest, hd, _⟩
    · subst hd
      simp [sizeof_direction] at h
    · subst hd
      simp only [sizeof_direction, List.length_cons] at h
      simp only [pending_cmds, List.length_cons]
      rw [ih rest (by simp only [sizeof_direction]; omega)]

theorem kfifo_out_all (f : kfifo) (n : Nat) (h : n = f.data.length) :
    kfifo_out f n = ({ f with data := [] }, f.data) := by
  subst h
  simp [kfifo_out, kfifo_len]

theorem kfifo_in_all (f : kfifo) (buf : List Nat) (h : buf.length ≤ f.size) :
    kfifo_in { f with data := [] } buf = ({ f with data := buf }, buf.length) := by
  have hmin : min buf.length (kfifo_unused { f with data := [] }) = buf.length := by
    simp only [kfifo_unused, kfifo_len, List.length_nil]
    omega
  simp [kfifo_in, hmin]

/-- On a well-formed queue `sequence_show` changes nothing and prints the pending commands. -/
theorem sequence_show_wf (p : priv) (hf : kfifo_wf p.sequence_fifo) :
    sequence_show p =
      (p, (pending_cmds p.sequence_fifo.data).flatMap cmd_line,
        (((pending_cmds p.sequence_fifo.data).flatMap cmd_line).length : Int)) := by
  obtain ⟨hs, hle, hm⟩ := hf
  simp only [MAX_SEQUENCES, sizeof_direction] at hs hm
  have hnum : ¬ kfifo_len p.sequence_fifo / sizeof_direction > MAX_SEQUENCES := by
    simp only [kfifo_len, sizeof_direction, MAX_SEQUENCES]
    omega
  have hall : kfifo_len p.sequence_fifo / sizeof_direction * sizeof_direction =
      p.sequence_fifo.data.length := by
    simp only [kfifo_len, sizeof_direction]
    omega
  have hall2 : p.sequence_fifo.data.length =
      sizeof_direction * (kfifo_len p.sequence_fifo / sizeof_direction) := by
    rw [Nat.mul_comm]; exact hall.symm
  have hplen := pending_cmds_length _ _ hall2
  unfold sequence_show
  simp only [hnum, ↓reduceIte]
  split
  · rw [kfifo_out_all _ _ hall, kfifo_in_all _ _ hle]
    simp only [ne_eq, not_true_eq_false, ↓reduceIte]
    rw [sequence_show_loop_spec _ _ 0 ([], 0) (by simpa [sizeof_direction] using hm)
      (by rw [Nat.zero_add]; exact Nat.le_of_eq hall2.symm) rfl
      (by simp only [kfifo_len, sizeof_direction, PAGE_SIZE]; omega)]
    have htake : List.take (kfifo_len p.sequence_fifo / sizeof_direction)
        (pending_cmds p.sequence_fifo.data) = pending_cmds p.sequence_fifo.data :=
      List.take_of_length_le (Nat.le_of_eq hplen)
    simp [htake]
  · rename_i h0
    have hz : kfifo_len p.sequence_fifo / sizeof_direction = 0 := by omega
    have hd : p.sequence_fifo.data = [] := by
      apply List.length_eq_zero.mp
      simp only [kfifo_len, sizeof_direction] at hz
      omega
    rw [hz, hd]
    simp [sequence_show_loop, pending_cmds]

theorem sequence_show_keeps_wf (p : priv) (hf : kfifo_wf p.sequence_fifo) :
    kfifo_wf (sequence_show p).1.sequence_fifo := by
  rw [sequence_show_wf p hf]; exact hf

theorem interval_store_fifo (p : priv) (buf : List Nat) (count : Nat) :
    (interval_store p buf count).1.sequence_fifo = p.sequence_fifo := by
  unfold interval_store
  split
  · rfl
  · split <;> rfl

theorem chaser_timer_fifo (p : priv) : (chaser_timer p).sequence_fifo = p.sequence_fifo := by
  unfold chaser_timer
  simp only []
  split <;> rfl

/-- In every reachable state the queue is well formed. -/
theorem Reachable_wf (p : priv) (h : Reachable p) : kfifo_wf p.sequence_fifo := by
  induction h with
  | probe => decide
  | write p buf count _ ih => exact chaser_write_wf p buf count ih
  | thread p _ ih => exact chaser_thread_iter_wf p ih
  | expire p q _ he ih =>
    unfold timer_expire at he
    split at he
    · cases he
    · cases he
      rw [chaser_timer_fifo]
      exact ih
  | store p buf count _ ih => rw [interval_store_fifo]; exact ih
  | display p _ ih => exact sequence_show_keeps_wf p ih

theorem pending_cmds_append (n : Nat) :
    ∀ data more : List Nat, data.length = sizeof_direction * n →
      pending_cmds (data ++ more) = pending_cmds data ++ pending_cmds more := by
  induction n with
  | zero =>
    intro data more h
    have : data = [] := List.length_eq_zero.mp (by simpa using h)
    subst this
    rfl
  | succ n ih =>
    intro data more h
    rcases wf_data_cases data (by rw [h]; exact Nat.mul_mod_right _ _) with
      hd | ⟨b0, b1, b2, b3, rest, hd, _⟩
    · subst hd
      simp [sizeof_direction] at h
    · subst hd
      simp only [sizeof_direction, List.length_cons] at h
      have hr := ih rest more (by simp only [sizeof_direction]; omega)
      simp only [List.cons_append, pending_cmds]
      exact congrArg _ hr

theorem pending_cmds_bytes (d : direction) : pending_cmds d.bytes = [d] := by
  cases d <;> decide

theorem pending_cmds_snoc (data : List Nat) (d : direction)
    (hm : data.length % sizeof_direction = 0) :
    pending_cmds (data ++ d.bytes) = pending_cmds data ++ [d] := by
  have h : data.length = sizeof_direction * (data.length / sizeof_direction) := by
    simp only [sizeof_direction] at *
    omega
  rw [pending_cmds_append _ data d.bytes h, pending_cmds_bytes]

theorem chaser_write_room (p : priv) (buf : List Nat) (count : Nat) (d : direction)
    (hf : kfifo_wf p.sequence_fifo) (hv : chaser_write_parse buf count = .ok d)
    (hlen : p.sequence_fifo.data.length < 64) :
    chaser_write p buf count =
      ({ p with sequence_fifo := { p.sequence_fifo with data := p.sequence_fifo.data ++ d.bytes } },
        (count : Int)) := by
  unfold chaser_write
  rw [hv]
  simp only [kfifo_in_room _ d hf hlen, sizeof_direction, ne_eq, not_true_eq_false, ↓reduceIte]

theorem chaser_write_full (p : priv) (buf : List Nat) (count : Nat) (d : direction)
    (hf : kfifo_wf p.sequence_fifo) (hv : chaser_write_parse buf count = .ok d)
    (hlen : ¬ p.sequence_fifo.data.length < 64) :
    chaser_write p buf count = (p, -ENOSPC) := by
  unfold chaser_write
  rw [hv]
  simp [kfifo_in_full _ d hf hlen, sizeof_direction]

theorem chaser_write_error (p : priv) (buf : List Nat) (count : Nat) (e : Int)
    (hv : chaser_write_parse buf count = .error e) :
    chaser_write p buf count = (p, e) := by
  unfold chaser_write
  rw [hv]

/-! ## C6: capacity of the queue -/

/-- C6: in every reachable state at most 16 commands are pending; a `chaser_write` of a
valid command (one the write path recognises as `d`) returns the number of bytes written
exactly when fewer than 16 commands are pending, and then appends `d` at the tail of the
queue; when 16 commands are pending it returns `-ENOSPC` and leaves the state unchanged; the
number of pending commands after the write is again at most 16. -/
theorem C6_write_capacity (p : priv) (hp : Reachable p) (buf : List Nat) (count : Nat)
    (d : direction) (hv : chaser_write_parse buf count = .ok d) :
    queued p ≤ 16 ∧
    (queued p < 16 →
      (chaser_write p buf count).2 = (count : Int) ∧
      (chaser_write p buf count).1.sequence_fifo.data = p.sequence_fifo.data ++ d.bytes ∧
      pending_cmds (chaser_write p buf count).1.sequence_fifo.data =
        pending_cmds p.sequence_fifo.data ++ [d] ∧
      queued (chaser_write p buf count).1 = queued p + 1) ∧
    (queued p = 16 →
      (chaser_write p buf count).2 = -ENOSPC ∧ (chaser_write p buf count).1 = p) ∧
    ((chaser_write p buf count).2 = (count : Int) ↔ queued p < 16) ∧
    queued (chaser_write p buf count).1 ≤ 16 := by
  have hf := Reachable_wf p hp
  obtain ⟨hs, hle, hm⟩ := hf
  simp only [MAX_SEQUENCES, sizeof_direction] at hs hm
  have hq : queued p = p.sequence_fifo.data.length / 4 := rfl
  by_cases hlen : p.sequence_fifo.data.length < 64
  · have hw := chaser_write_room p buf count d (Reachable_wf p hp) hv hlen
    have hq2 : queued (chaser_write p buf count).1 = queued p + 1 := by
      rw [hw]
      simp only [queued, kfifo_len, sizeof_direction, List.length_append,
        direction_bytes_length]
      omega
    refine ⟨by omega, fun _ => ⟨by rw [hw], by rw [hw], ?_, hq2⟩, fun h => by omega,
      ⟨fun _ => by omega, fun _ => by rw [hw]⟩, by omega⟩
    rw [hw]
    exact pending_cmds_snoc _ d (by simpa [sizeof_direction] using hm)
  · have hw := chaser_write_full p buf count d (Reachable_wf p hp) hv hlen
    refine ⟨by omega, fun h => by omega, fun _ => ⟨by rw [hw], by rw [hw]⟩,
      ⟨fun h => ?_, fun h => by omega⟩, by rw [hw]; show queued p ≤ 16; omega⟩
    rw [hw] at h
    simp only [ENOSPC] at h
    omega

theorem C6_write_capacity_witness :
    Reachable chaser_probe ∧ chaser_write_parse (c_str "up\n") 3 = .ok direction.UP ∧
    (queued chaser_probe ≤ 16 ∧
    (queued chaser_probe < 16 →
      (chaser_write chaser_probe (c_str "up\n") 3).2 = ((3 : Nat) : Int) ∧
      (chaser_write chaser_probe (c_str "up\n") 3).1.sequence_fifo.data =
        chaser_probe.sequence_fifo.data ++ direction.UP.bytes ∧
      pending_cmds (chaser_write chaser_probe (c_str "up\n") 3).1.sequence_fifo.data =
        pending_cmds chaser_probe.sequence_fifo.data ++ [direction.UP] ∧
      queued (chaser_write chaser_probe (c_str "up\n") 3).1 = queued chaser_probe + 1) ∧
    (queued chaser_probe = 16 →
      (chaser_write chaser_probe (c_str "up\n") 3).2 = -ENOSPC ∧
      (chaser_write chaser_probe (c_str "up\n") 3).1 = chaser_probe) ∧
    ((chaser_write chaser_probe (c_str "up\n") 3).2 = ((3 : Nat) : Int) ↔
      queued chaser_probe < 16) ∧
    queued (chaser_write chaser_probe (c_str "up\n") 3).1 ≤ 16) :=
  ⟨Reachable.probe, rfl,
    C6_write_capacity chaser_probe Reachable.probe (c_str "up\n") 3 direction.UP rfl⟩

/-! ## C7: first in, first out -/

/-- Pops only: `n` pops return the first `n` pending commands and touch nothing else. -/
theorem run_dequeues (n : Nat) :
    ∀ r : queue_run, kfifo_wf r.state.sequence_fifo →
      (run_queue_ops (List.replicate n queue_op.dequeue) r).dequeued =
          r.dequeued ++ (pending_cmds r.state.sequence_fifo.data).take n ∧
      (run_queue_ops (List.replicate n queue_op.dequeue) r).accepted = r.accepted ∧
      (run_queue_ops (List.replicate n queue_op.dequeue) r).results = r.results := by
  induction n with
  | zero => intro r _; simp [run_queue_ops]
  | succ n ih =>
    intro r hf
    have hwf := chaser_thread_iter_wf r.state hf
    rw [List.replicate_succ]
    simp only [run_queue_ops]
    rcases wf_data_cases _ hf.2.2 with hd | ⟨b0, b1, b2, b3, rest, hd, _⟩
    · rw [chaser_thread_iter_empty _ hd] at hwf ⊢
      obtain ⟨h1, h2, h3⟩ := ih
        { results := r.results, accepted := r.accepted,
          dequeued := r.dequeued ++ (none : Option direction).toList, state := r.state } hwf
      refine ⟨?_, h2, h3⟩
      rw [h1, hd]
      simp [pending_cmds]
    · rw [chaser_thread_iter_cons _ b0 b1 b2 b3 rest hd] at hwf ⊢
      obtain ⟨h1, h2, h3⟩ := ih
        { results := r.results, accepted := r.accepted,
          dequeued := r.dequeued ++ (some (direction.ofRaw (le32 [b0, b1, b2, b3]))).toList,
          state := chaser_thread_start (direction.ofRaw (le32 [b0, b1, b2, b3]))
            { r.state with sequence_fifo := { r.state.sequence_fifo with data := rest } } } hwf
      refine ⟨?_, h2, h3⟩
      rw [h1, hd]
      simp [pending_cmds, chaser_thread_start_fifo]

/-- Sixteen pops return exactly the pending commands of a well-formed queue. -/
theorem drain_eq (p : priv) (hf : kfifo_wf p.sequence_fifo) :
    drain p = pending_cmds p.sequence_fifo.data := by
  unfold drain
  rw [(run_dequeues MAX_SEQUENCES
    { results := [], accepted := [], dequeued := [], state := p } hf).1]
  obtain ⟨hs, hle, hm⟩ := hf
  simp only [MAX_SEQUENCES, sizeof_direction] at hs hm ⊢
  have hl := pending_cmds_length (p.sequence_fifo.data.length / 4) p.sequence_fifo.data
    (by simp only [sizeof_direction]; omega)
  rw [List.nil_append]
  exact List.take_of_length_le (by omega)

/-- Invariant of a run: the accepted commands are the popped ones followed by the pending
ones, and the queue stays well formed. -/
theorem run_queue_ops_inv (ops : List queue_op) :
    ∀ r : queue_run, kfifo_wf r.state.sequence_fifo →
      r.accepted = r.dequeued ++ pending_cmds r.state.sequence_fifo.data →
      kfifo_wf (run_queue_ops ops r).state.sequence_fifo ∧
      (run_queue_ops ops r).accepted =
        (run_queue_ops ops r).dequeued ++
          pending_cmds (run_queue_ops ops r).state.sequence_fifo.data := by
  induction ops with
  | nil => intro r hf ha; exact ⟨hf, ha⟩
  | cons op ops ih =>
    intro r hf ha
    cases op with
    | enqueue buf count =>
      simp only [run_queue_ops]
      cases hv : chaser_write_parse buf count with
      | error e =>
        rw [chaser_write_error _ _ _ e hv]
        refine ih _ ?_ ?_
        · exact hf
        · exact ha
      | ok d =>
        by_cases hlen : r.state.sequence_fifo.data.length < 64
        · have hw := chaser_write_room r.state buf count d hf hv hlen
          have hwf := chaser_write_wf r.state buf count hf
          rw [hw] at hwf ⊢
          refine ih _ ?_ ?_
          · exact hwf
          · simp only [Int.natCast_nonneg, ↓reduceIte]
            rw [pending_cmds_snoc _ d hf.2.2, ha, List.append_assoc]
        · rw [chaser_write_full r.state buf count d hf hv hlen]
          refine ih _ ?_ ?_
          · exact hf
          · simpa [ENOSPC] using ha
    | dequeue =>
      simp only [run_queue_ops]
      have hwf := chaser_thread_iter_wf r.state hf
      rcases wf_data_cases _ hf.2.2 with hd | ⟨b0, b1, b2, b3, rest, hd, _⟩
      · rw [chaser_thread_iter_empty _ hd] at hwf ⊢
        refine ih _ ?_ ?_
        · exact hwf
        · simpa using ha
      · rw [chaser_thread_iter_cons _ b0 b1 b2 b3 rest hd] at hwf ⊢
        refine ih _ ?_ ?_
        · exact hwf
        · rw [ha, hd]
          simp [pending_cmds, chaser_thread_start_fifo]

theorem queue_run_start_wf : kfifo_wf queue_run_start.state.sequence_fifo := by decide

/-- C7: for every sequence of `chaser_write` calls (of any buffers) and dispatcher pops
performed after `chaser_probe`, the commands popped so far are the first of the accepted
commands, in the order of their acceptance, and the accepted commands not yet popped are
exactly those that further pops return, in order: no accepted command is lost, duplicated or
reordered.  A pop on an empty queue returns no command and leaves the state, hence the empty
queue, unchanged. -/
theorem C7_fifo_order (ops : List queue_op) :
    (run_queue_ops ops queue_run_start).dequeued <+:
      (run_queue_ops ops queue_run_start).accepted ∧
    (run_queue_ops ops queue_run_start).accepted =
      (run_queue_ops ops queue_run_start).dequeued ++
        drain (run_queue_ops ops queue_run_start).state ∧
    (∀ p : priv,
      chaser_thread_iter { p with sequence_fifo := { p.sequence_fifo with data := [] } } =
        ({ p with sequence_fifo := { p.sequence_fifo with data := [] } }, none)) := by
  obtain ⟨hwf, hacc⟩ := run_queue_ops_inv ops queue_run_start queue_run_start_wf rfl
  refine ⟨⟨_, hacc.symm⟩, ?_, fun p => chaser_thread_iter_empty _ rfl⟩
  rw [drain_eq _ hwf]
  exact hacc

/-! ## C8: a burst of writes -/

theorem chaser_write_parse_cmd_text (d : direction) :
    chaser_write_parse (cmd_text d) (cmd_text d).length = .ok d := by
  cases d <;> rfl

/-- Writes only, on a queue with room for `k` more commands: the first `k` commands are
accepted, every later write returns `-ENOSPC`. -/
theorem run_enqueue_all (cmds : List direction) :
    ∀ (r : queue_run) (k : Nat), kfifo_wf r.state.sequence_fifo →
      r.state.sequence_fifo.data.length + 4 * k = 64 →
      (run_queue_ops (enqueue_all cmds) r).results =
          r.results ++ (cmds.take k).map (fun d => ((cmd_text d).length : Int)) ++
            List.replicate (cmds.length - k) (-ENOSPC) ∧
      (run_queue_ops (enqueue_all cmds) r).accepted = r.accepted ++ cmds.take k ∧
      (run_queue_ops (enqueue_all cmds) r).dequeued = r.dequeued := by
  induction cmds with
  | nil => intro r k _ _; simp [enqueue_all, run_queue_ops]
  | cons d cmds ih =>
    intro r k hf hk
    have hv := chaser_write_parse_cmd_text d
    simp only [enqueue_all, List.map_cons, run_queue_ops]
    rw [hv]
    cases k with
    | zero =>
      have hlen : ¬ r.state.sequence_fifo.data.length < 64 := by omega
      rw [chaser_write_full r.state _ _ d hf hv hlen]
      obtain ⟨h1, h2, h3⟩ := ih
        { results := r.results ++ [-ENOSPC], accepted := r.accepted, dequeued := r.dequeued,
          state := r.state } 0 hf hk
      simp only [enqueue_all] at h1 h2 h3
      refine ⟨?_, ?_, ?_⟩
      · simp only [ENOSPC, Int.reduceNeg, Left.nonneg_neg_iff, Int.reduceLE, ↓reduceIte] at h1 ⊢
        rw [h1]
        simp [List.replicate_succ]
      · simp only [ENOSPC, Int.reduceNeg, Left.nonneg_neg_iff, Int.reduceLE, ↓reduceIte] at h2 ⊢
        rw [h2]
        simp
      · simp only [ENOSPC, Int.reduceNeg, Left.nonneg_neg_iff, Int.reduceLE, ↓reduceIte] at h3 ⊢
        rw [h3]
    | succ k =>
      have hlen : r.state.sequence_fifo.data.length < 64 := by omega
      have hw := chaser_write_room r.state _ _ d hf hv hlen
      have hwf := chaser_write_wf r.state (cmd_text d) (cmd_text d).length hf
      rw [hw] at hwf ⊢
      obtain ⟨h1, h2, h3⟩ := ih
        { results := r.results ++ [((cmd_text d).length : Int)],
          accepted := r.accepted ++ [d], dequeued := r.dequeued,
          state := { r.state with sequence_fifo :=
            { r.state.sequence_fifo with data := r.state.sequence_fifo.data ++ d.bytes } } }
        k hwf (by simp only [List.length_append, direction_bytes_length]; omega)
      simp only [enqueue_all] at h1 h2 h3
      refine ⟨?_, ?_, ?_⟩
      · simp only [Int.natCast_nonneg, ↓reduceIte]
        rw [h1]
        simp
      · simp only [Int.natCast_nonneg, ↓reduceIte]
        rw [h2]
        simp
      · simp only [Int.natCast_nonneg, ↓reduceIte]
        rw [h3]

theorem count_enospc_lengths (l : List direction) :
    (l.map (fun d => ((cmd_text d).length : Int))).count (-ENOSPC) = 0 := by
  induction l with
  | nil => rfl
  | cons d l ih =>
    rw [List.map_cons, List.count_cons, ih]
    cases d <;> decide

/-- C8 (as stated, refuted): with N = 2, the N + 1 = 3 writes of "up", "down", "up" into the
empty queue of a freshly probed device return 3, 5 and 3: no write returns `-ENOSPC`
(not exactly one), and three commands are accepted (not N = 2). -/
theorem C8_counterexample :
    2 ≤ 16 ∧
    (enqueue_all [direction.UP, direction.DOWN, direction.UP]).length = 2 + 1 ∧
    (run_queue_ops (enqueue_all [direction.UP, direction.DOWN, direction.UP])
      queue_run_start).results = [3, 5, 3] ∧
    (run_queue_ops (enqueue_all [direction.UP, direction.DOWN, direction.UP])
      queue_run_start).results.count (-ENOSPC) ≠ 1 ∧
    (run_queue_ops (enqueue_all [direction.UP, direction.DOWN, direction.UP])
      queue_run_start).accepted.length ≠ 2 := by
  decide

/-- C8 (amended): when any number M of valid commands is written in immediate succession
into the empty queue of a freshly probed device, the first min(M, 16) commands are accepted
and each of the M - min(M, 16) later writes returns `-ENOSPC`; the accepted commands are
afterwards popped in their original order.  For M = 17 (N = 16, the capacity) this is
exactly one `-ENOSPC` and 16 accepted commands; for M ≤ 16 no write returns `-ENOSPC`. -/
theorem C8_enqueue_burst (cmds : List direction) :
    (run_queue_ops (enqueue_all cmds) queue_run_start).accepted = cmds.take 16 ∧
    (run_queue_ops (enqueue_all cmds) queue_run_start).results.length = cmds.length ∧
    (run_queue_ops (enqueue_all cmds) queue_run_start).results.count (-ENOSPC) =
      cmds.length - 16 ∧
    drain (run_queue_ops (enqueue_all cmds) queue_run_start).state = cmds.take 16 := by
  obtain ⟨h1, h2, h3⟩ := run_enqueue_all cmds queue_run_start 16 queue_run_start_wf (by decide)
  obtain ⟨hwf, hacc⟩ :=
    run_queue_ops_inv (enqueue_all cmds) queue_run_start queue_run_start_wf rfl
  have h2a : (run_queue_ops (enqueue_all cmds) queue_run_start).accepted = cmds.take 16 := by
    rw [h2]; rfl
  refine ⟨h2a, ?_, ?_, ?_⟩
  · rw [h1]
    simp only [queue_run_start, List.nil_append, List.length_append, List.length_map,
      List.length_take, List.length_replicate]
    omega
  · rw [h1]
    simp only [queue_run_start, List.nil_append, List.count_append, count_enospc_lengths,
      List.count_replicate_self, Nat.zero_add]
  · rw [drain_eq _ hwf, ← h2a, hacc, h3]
    rfl

/-! ## C9: displaying the queue -/

/-- C9: in every reachable state `sequence_show` prints the pending commands (those that
the following pops return) in FIFO order, one line per command, "up" for UP and "down" for
DOWN, returns the length of this text, and leaves the driver state unchanged: the queue
holds the same commands in the same order, and the following pops return what they would
have returned without the call. -/
theorem C9_sequence_show (p : priv) (hp : Reachable p) :
    (sequence_show p).2.1 = (drain p).flatMap cmd_line ∧
    (sequence_show p).2.2 = ((sequence_show p).2.1.length : Int) ∧
    (sequence_show p).1 = p ∧
    drain (sequence_show p).1 = drain p ∧
    chaser_thread_iter (sequence_show p).1 = chaser_thread_iter p := by
  have hf := Reachable_wf p hp
  rw [sequence_show_wf p hf, drain_eq p hf]
  exact ⟨rfl, rfl, rfl, rfl, rfl⟩

theorem C9_sequence_show_witness :
    Reachable
      (chaser_write (chaser_write chaser_probe (c_str "up\n") 3).1 (c_str "down\n") 5).1 ∧
    ((sequence_show
        (chaser_write (chaser_write chaser_probe (c_str "up\n") 3).1 (c_str "down\n") 5).1).2.1 =
      (drain
        (chaser_write (chaser_write chaser_probe (c_str "up\n") 3).1
          (c_str "down\n") 5).1).flatMap cmd_line ∧
    (sequence_show
        (chaser_write (chaser_write chaser_probe (c_str "up\n") 3).1 (c_str "down\n") 5).1).2.2 =
      ((sequence_show
        (chaser_write (chaser_write chaser_probe (c_str "up\n") 3).1
          (c_str "down\n") 5).1).2.1.length : Int) ∧
    (sequence_show
        (chaser_write (chaser_write chaser_probe (c_str "up\n") 3).1 (c_str "down\n") 5).1).1 =
      (chaser_write (chaser_write chaser_probe (c_str "up\n") 3).1 (c_str "down\n") 5).1 ∧
    drain (sequence_show
        (chaser_write (chaser_write chaser_probe (c_str "up\n") 3).1 (c_str "down\n") 5).1).1 =
      drain (chaser_write (chaser_write chaser_probe (c_str "up\n") 3).1 (c_str "down\n") 5).1 ∧
    chaser_thread_iter (sequence_show
        (chaser_write (chaser_write chaser_probe (c_str "up\n") 3).1 (c_str "down\n") 5).1).1 =
      chaser_thread_iter
        (chaser_write (chaser_write chaser_probe (c_str "up\n") 3).1 (c_str "down\n") 5).1) :=
  ⟨Reachable.write _ _ _ (Reachable.write _ _ _ Reachable.probe),
    C9_sequence_show _ (Reachable.write _ _ _ (Reachable.write _ _ _ Reachable.probe))⟩

/-! ## C10: a zero interval is rejected -/

/-- C10: an `interval_store` whose input `kstrtouint` parses to 0 returns `-EINVAL` and
leaves the driver state, hence the stored interval, unchanged: `interval_show` returns the
same text and value before and after the call. -/
theorem C10_interval_zero (p : priv) (buf : List Nat) (count : Nat)
    (h : kstrtouint buf 0 = .ok 0) :
    (interval_store p buf count).2 = -EINVAL ∧
    (interval_store p buf count).1.interval = p.interval ∧
    (interval_store p buf count).1 = p ∧
    interval_show (interval_store p buf count).1 = interval_show p := by
  unfold interval_store
  rw [h]
  exact ⟨rfl, rfl, rfl, rfl⟩

theorem C10_interval_zero_witness :
    kstrtouint (c_str "0\n") 0 = .ok 0 ∧
    ((interval_store chaser_probe (c_str "0\n") 2).2 = -EINVAL ∧
    (interval_store chaser_probe (c_str "0\n") 2).1.interval = chaser_probe.interval ∧
    (interval_store chaser_probe (c_str "0\n") 2).1 = chaser_probe ∧
    interval_show (interval_store chaser_probe (c_str "0\n") 2).1 =
      interval_show chaser_probe) :=
  ⟨rfl, C10_interval_zero chaser_probe (c_str "0\n") 2 rfl⟩

end Chaser

namespace Chaser

/-! ## C11: the interval used by an arm -/

theorem timer_expire_arm (p q : priv) (h : timer_expire p = some q) :
    q.interval = p.interval ∧
    (q.timer = some p.interval ∨ (q.timer = none ∧ q.sequence_info.finish_flag = 1)) := by
  unfold timer_expire at h
  split at h
  · cases h
  · cases h
    unfold chaser_timer
    simp only [iowrite32, mod_timer]
    split
    · exact ⟨rfl, Or.inl rfl⟩
    · exact ⟨rfl, Or.inr ⟨rfl, rfl⟩⟩

theorem firings_interval (n : Nat) (p q : priv) (h : firings n p = some q) :
    q.interval = p.interval := by
  induction n generalizing q with
  | zero => cases h; rfl
  | succ n ih =>
    rw [firings_succ] at h
    cases hf : firings n p with
    | none => rw [hf] at h; cases h
    | some r =>
      rw [hf] at h
      rw [(timer_expire_arm r q h).1, ih r hf]

theorem firings_arm (n : Nat) (p q : priv) (h : firings (n + 1) p = some q) :
    q.timer = some p.interval ∨ (q.timer = none ∧ q.sequence_info.finish_flag = 1) := by
  rw [firings_succ] at h
  cases hf : firings n p with
  | none => rw [hf] at h; cases h
  | some r =>
    rw [hf] at h
    rw [← firings_interval n p r hf]
    exact (timer_expire_arm r q h).2

theorem interval_store_accept (p : priv) (buf : List Nat) (count v : Nat)
    (hv : kstrtouint buf 0 = .ok v) (hpos : 0 < v) :
    interval_store p buf count = ({ p with interval := v }, (count : Int)) := by
  unfold interval_store
  rw [hv]
  have : v ≠ 0 := by omega
  simp [this]

/-- C11: every expiry that re-arms the timer uses as delay the interval stored in the state
in which it fires.  An `interval_store` of a positive value `v` leaves the pending expiry
(the deadline armed by the earlier firing) as it is and stores `v`; from then on, as long as
no other store happens, every expiry that re-arms does so with the delay `v`. -/
theorem C11_interval_next_arm (p : priv) (buf : List Nat) (count v : Nat)
    (hv : kstrtouint buf 0 = .ok v) (hpos : 0 < v) :
    (∀ r q : priv, timer_expire r = some q → q.timer = some r.interval ∨ q.timer = none) ∧
    (interval_store p buf count).2 = (count : Int) ∧
    (interval_store p buf count).1.timer = p.timer ∧
    (interval_store p buf count).1.interval = v ∧
    (∀ (n : Nat) (q : priv), firings (n + 1) (interval_store p buf count).1 = some q →
      q.interval = v ∧ (q.timer = some v ∨ q.timer = none)) := by
  rw [interval_store_accept p buf count v hv hpos]
  refine ⟨fun r q h => ?_, rfl, rfl, rfl, fun n q h => ⟨?_, ?_⟩⟩
  · rcases (timer_expire_arm r q h).2 with h1 | h1
    · exact Or.inl h1
    · exact Or.inr h1.1
  · exact firings_interval (n + 1) _ q h
  · rcases firings_arm n _ q h with h1 | h1
    · exact Or.inl h1
    · exact Or.inr h1.1

theorem C11_interval_next_arm_witness :
    kstrtouint (c_str "250\n") 0 = .ok 250 ∧ 0 < 250 ∧
    firings 1 (interval_store (chaser_timer (chaser_thread_start direction.UP chaser_probe))
      (c_str "250\n") 4).1 =
      some
        { led_base := [0, 1, 2]
          sequence_fifo := { size := 64, data := [] }
          timer := some 250
          sequence_info := { led_value := 4, dir := direction.UP, finish_flag := 0 }
          interval := 250
          completed_sequences := 0 } ∧
    ((∀ r q : priv, timer_expire r = some q → q.timer = some r.interval ∨ q.timer = none) ∧
    (interval_store (chaser_timer (chaser_thread_start direction.UP chaser_probe))
      (c_str "250\n") 4).2 = ((4 : Nat) : Int) ∧
    (interval_store (chaser_timer (chaser_thread_start direction.UP chaser_probe))
      (c_str "250\n") 4).1.timer =
      (chaser_timer (chaser_thread_start direction.UP chaser_probe)).timer ∧
    (interval_store (chaser_timer (chaser_thread_start direction.UP chaser_probe))
      (c_str "250\n") 4).1.interval = 250 ∧
    (∀ (n : Nat) (q : priv),
      firings (n + 1) (interval_store (chaser_timer (chaser_thread_start direction.UP
        chaser_probe)) (c_str "250\n") 4).1 = some q →
      q.interval = 250 ∧ (q.timer = some 250 ∨ q.timer = none))) :=
  ⟨rfl, by decide, by decide,
    C11_interval_next_arm (chaser_timer (chaser_thread_start direction.UP chaser_probe))
      (c_str "250\n") 4 250 rfl (by decide)⟩

/-! ## C12: the LED reported by `current_led_show` -/

/-- C12 (as stated, refuted): ten expiries after the dispatcher started an UP sequence on a
freshly probed device, the driver is in the reachable state `up_sequence_tenth`, where the
sequence is active (`finish_flag` is 0) and the pattern is 1024: its one set bit has the
zero-based index 10, but `current_led_show` prints -1. -/
theorem C12_counterexample :
    firings 10
        (chaser_thread_iter (chaser_write chaser_probe (cmd_text direction.UP) 3).1).1 =
      some up_sequence_tenth ∧
    Reachable up_sequence_tenth ∧
    up_sequence_tenth.sequence_info.finish_flag = 0 ∧
    up_sequence_tenth.sequence_info.led_value = 2 ^ 10 ∧
    bitCount up_sequence_tenth.sequence_info.led_value = 1 ∧
    current_led up_sequence_tenth = -1 ∧
    current_led up_sequence_tenth ≠ 10 ∧
    current_led_show up_sequence_tenth = ("-1\n".toList, 3) := by
  have h : firings 10
      (chaser_thread_iter (chaser_write chaser_probe (cmd_text direction.UP) 3).1).1 =
      some up_sequence_tenth := by decide
  exact ⟨h, Reachable_firings 10 _ _
    (Reachable.thread _ (Reachable.write _ _ _ Reachable.probe)) h, rfl, rfl, by decide,
    by decide, by decide, by rfl⟩

/-- C12 (amended): in every reachable state, `current_led_show` reports -1 when the
sequence is inactive (`finish_flag` is not 0); when the sequence is active it reports the
zero-based index of the set bit of the pattern if this bit is one of the ten LED positions
0 to 9, and -1 for the two other patterns an active sequence can have, 1024 and 0. -/
theorem C12_current_led (p : priv) (h : Reachable p) :
    (p.sequence_info.finish_flag ≠ 0 → current_led p = -1) ∧
    (p.sequence_info.finish_flag = 0 →
      (∃ k : Nat, k < 10 ∧ p.sequence_info.led_value = 2 ^ k ∧ current_led p = (k : Int)) ∨
      ((p.sequence_info.led_value = 1024 ∨ p.sequence_info.led_value = 0) ∧
        current_led p = -1)) ∧
    current_led_show p = sysfs_emit ((toString (current_led p)).toList ++ [Char.ofNat 10]) := by
  have hm := Reachable_pattern p h
  refine ⟨fun hf => by simp [current_led, hf], fun hf => ?_, rfl⟩
  unfold current_led
  rw [if_pos hf]
  generalize p.sequence_info.led_value = v at hm
  simp only [List.mem_cons, List.mem_singleton, List.not_mem_nil, or_false] at hm
  rcases hm with h | h | h | h | h | h | h | h | h | h | h | h <;> subst h
  · exact Or.inr ⟨Or.inr rfl, by decide⟩
  · exact Or.inl ⟨0, by decide, by decide, by decide⟩
  · exact Or.inl ⟨1, by decide, by decide, by decide⟩
  · exact Or.inl ⟨2, by decide, by decide, by decide⟩
  · exact Or.inl ⟨3, by decide, by decide, by decide⟩
  · exact Or.inl ⟨4, by decide, by decide, by decide⟩
  · exact Or.inl ⟨5, by decide, by decide, by decide⟩
  · exact Or.inl ⟨6, by decide, by decide, by decide⟩
  · exact Or.inl ⟨7, by decide, by decide, by decide⟩
  · exact Or.inl ⟨8, by decide, by decide, by decide⟩
  · exact Or.inl ⟨9, by decide, by decide, by decide⟩
  · exact Or.inr ⟨Or.inl rfl, by decide⟩

theorem C12_current_led_witness :
    Reachable (chaser_thread_iter (chaser_write chaser_probe (cmd_text direction.DOWN) 5).1).1 ∧
    current_led (chaser_thread_iter
      (chaser_write chaser_probe (cmd_text direction.DOWN) 5).1).1 = 9 ∧
    (((chaser_thread_iter (chaser_write chaser_probe (cmd_text direction.DOWN)
        5).1).1.sequence_info.finish_flag ≠ 0 →
      current_led (chaser_thread_iter
        (chaser_write chaser_probe (cmd_text direction.DOWN) 5).1).1 = -1) ∧
    ((chaser_thread_iter (chaser_write chaser_probe (cmd_text direction.DOWN)
        5).1).1.sequence_info.finish_flag = 0 →
      (∃ k : Nat, k < 10 ∧
        (chaser_thread_iter (chaser_write chaser_probe (cmd_text direction.DOWN)
          5).1).1.sequence_info.led_value = 2 ^ k ∧
        current_led (chaser_thread_iter
          (chaser_write chaser_probe (cmd_text direction.DOWN) 5).1).1 = (k : Int)) ∨
      (((chaser_thread_iter (chaser_write chaser_probe (cmd_text direction.DOWN)
          5).1).1.sequence_info.led_value = 1024 ∨
        (chaser_thread_iter (chaser_write chaser_probe (cmd_text direction.DOWN)
          5).1).1.sequence_info.led_value = 0) ∧
        current_led (chaser_thread_iter
          (chaser_write chaser_probe (cmd_text direction.DOWN) 5).1).1 = -1)) ∧
    current_led_show
        (chaser_thread_iter (chaser_write chaser_probe (cmd_text direction.DOWN) 5).1).1 =
      sysfs_emit ((toString (current_led (chaser_thread_iter
        (chaser_write chaser_probe (cmd_text direction.DOWN) 5).1).1)).toList ++
          [Char.ofNat 10])) :=
  ⟨Reachable.thread _ (Reachable.write _ _ _ Reachable.probe), by decide,
    C12_current_led _ (Reachable.thread _ (Reachable.write _ _ _ Reachable.probe))⟩

/-! ## C15: the texts of the commands -/

/-- C15 (as stated, refuted): on a freshly probed device (empty queue), a `chaser_write` of
exactly the two bytes of "up" and one of exactly the four bytes of "down" both return
`-EINVAL` and enqueue nothing. -/
theorem C15_counterexample :
    chaser_write chaser_probe (c_str "up") 2 = (chaser_probe, -EINVAL) ∧
    chaser_write chaser_probe (c_str "down") 4 = (chaser_probe, -EINVAL) ∧
    queued (chaser_write chaser_probe (c_str "up") 2).1 = 0 ∧
    queued (chaser_write chaser_probe (c_str "down") 4).1 = 0 := by
  decide

/-- C15 (amended): in every reachable state with fewer than 16 pending commands,
`chaser_write` given exactly the three bytes of the line "up" (the token followed by a
newline) enqueues the command UP and returns 3, and given exactly the five bytes of the line
"down" enqueues the command DOWN and returns 5; given only the bytes of the bare token "up"
or "down" it returns `-EINVAL` and leaves the state unchanged. -/
theorem C15_command_texts (p : priv) (hp : Reachable p) (hroom : queued p < 16) :
    chaser_write p (c_str "up\n") 3 =
      ({ p with sequence_fifo :=
          { p.sequence_fifo with data := p.sequence_fifo.data ++ direction.UP.bytes } }, 3) ∧
    chaser_write p (c_str "down\n") 5 =
      ({ p with sequence_fifo :=
          { p.sequence_fifo with data := p.sequence_fifo.data ++ direction.DOWN.bytes } }, 5) ∧
    drain (chaser_write p (c_str "up\n") 3).1 = drain p ++ [direction.UP] ∧
    drain (chaser_write p (c_str "down\n") 5).1 = drain p ++ [direction.DOWN] ∧
    chaser_write p (c_str "up") 2 = (p, -EINVAL) ∧
    chaser_write p (c_str "down") 4 = (p, -EINVAL) := by
  have hf := Reachable_wf p hp
  have hlen : p.sequence_fifo.data.length < 64 := by
    have := hf.2.2
    simp only [queued, kfifo_len, sizeof_direction] at hroom this
    omega
  have hu := chaser_write_room p (c_str "up\n") 3 direction.UP hf rfl hlen
  have hd := chaser_write_room p (c_str "down\n") 5 direction.DOWN hf rfl hlen
  have hwu := chaser_write_wf p (c_str "up\n") 3 hf
  have hwd := chaser_write_wf p (c_str "down\n") 5 hf
  refine ⟨hu, hd, ?_, ?_, chaser_write_error p _ _ _ rfl, chaser_write_error p _ _ _ rfl⟩
  · rw [drain_eq _ hwu, drain_eq _ hf, hu]
    exact pending_cmds_snoc _ _ hf.2.2
  · rw [drain_eq _ hwd, drain_eq _ hf, hd]
    exact pending_cmds_snoc _ _ hf.2.2

theorem C15_command_texts_witness :
    Reachable chaser_probe ∧ queued chaser_probe < 16 ∧
    (chaser_write chaser_probe (c_str "up\n") 3 =
      ({ chaser_probe with sequence_fifo :=
          { chaser_probe.sequence_fifo with
            data := chaser_probe.sequence_fifo.data ++ direction.UP.bytes } }, 3) ∧
    chaser_write chaser_probe (c_str "down\n") 5 =
      ({ chaser_probe with sequence_fifo :=
          { chaser_probe.sequence_fifo with
            data := chaser_probe.sequence_fifo.data ++ direction.DOWN.bytes } }, 5) ∧
    drain (chaser_write chaser_probe (c_str "up\n") 3).1 =
      drain chaser_probe ++ [direction.UP] ∧
    drain (chaser_write chaser_probe (c_str "down\n") 5).1 =
      drain chaser_probe ++ [direction.DOWN] ∧
    chaser_write chaser_probe (c_str "up") 2 = (chaser_probe, -EINVAL) ∧
    chaser_write chaser_probe (c_str "down") 4 = (chaser_probe, -EINVAL)) :=
  ⟨Reachable.probe, by decide, C15_command_texts chaser_probe Reachable.probe (by decide)⟩

/-! ## C17: the interval is positive -/

theorem chaser_write_interval (p : priv) (buf : List Nat) (count : Nat) :
    (chaser_write p buf count).1.interval = p.interval := by
  unfold chaser_write
  split
  · rfl
  · simp only []
    split <;> rfl

theorem chaser_thread_iter_interval (p : priv) :
    (chaser_thread_iter p).1.interval = p.interval := by
  unfold chaser_thread_iter
  simp only []
  split <;> rfl

theorem sequence_show_interval (p : priv) : (sequence_show p).1.interval = p.interval := by
  unfold sequence_show
  simp only []
  split_ifs <;> rfl

theorem interval_store_positive (p : priv) (buf : List Nat) (count : Nat)
    (h : 0 < p.interval) : 0 < (interval_store p buf count).1.interval := by
  unfold interval_store
  split
  · exact h
  · split
    · exact h
    · simp only []
      omega

/-- C17: the interval stored by `chaser_probe` is 1000, and in every state reachable from
there (through interval stores, accepted or rejected, timer expiries and every other entry
point of the driver) the stored interval is strictly positive. -/
theorem C17_interval_positive (p : priv) (h : Reachable p) :
    chaser_probe.interval = 1000 ∧ 0 < p.interval := by
  refine ⟨rfl, ?_⟩
  induction h with
  | probe => decide
  | write p buf count _ ih => rw [chaser_write_interval]; exact ih
  | thread p _ ih => rw [chaser_thread_iter_interval]; exact ih
  | expire p q _ he ih => rw [(timer_expire_arm p q he).1]; exact ih
  | store p buf count _ ih => exact interval_store_positive p buf count ih
  | display p _ ih => rw [sequence_show_interval]; exact ih

theorem C17_interval_positive_witness :
    Reachable (interval_store (interval_store chaser_probe (c_str "0\n") 2).1
      (c_str "0x20\n") 5).1 ∧
    (interval_store (interval_store chaser_probe (c_str "0\n") 2).1
      (c_str "0x20\n") 5).1.interval = 32 ∧
    (chaser_probe.interval = 1000 ∧
      0 < (interval_store (interval_store chaser_probe (c_str "0\n") 2).1
        (c_str "0x20\n") 5).1.interval) :=
  ⟨Reachable.store _ _ _ (Reachable.store _ _ _ Reachable.probe), by decide,
    C17_interval_positive _ (Reachable.store _ _ _ (Reachable.store _ _ _ Reachable.probe))⟩

/-! ## C16: what the write path rejects -/

/-- The comparison `strcmp` of the terminated copy with a text without NUL byte is 0 exactly
when the copied bytes are the text, or are the text followed by a NUL byte (and then by
anything). -/
theorem strcmp_eq_zero_iff_nul (w : List Nat) :
    ∀ t : List Nat, (∀ b ∈ t, b ≠ 0) →
      (strcmp (w ++ [0]) t = 0 ↔ (w = t ∨ (t ++ [0]) <+: w)) := by
  induction w with
  | nil =>
    intro t ht
    cases t with
    | nil => simp [strcmp]
    | cons b bs =>
      have hb : b ≠ 0 := ht b (List.mem_cons_self _ _)
      have hb2 : ¬ (0 : Nat) = b := fun h => hb h.symm
      simp only [List.nil_append, strcmp, ne_eq, hb2, not_false_eq_true, ↓reduceIte,
        List.cons_append, List.prefix_nil, false_or]
      constructor
      · intro h
        omega
      · intro h
        rcases h with h | h <;> cases h
  | cons a as ih =>
    intro t ht
    cases t with
    | nil =>
      simp only [List.cons_append, strcmp, List.nil_append]
      constructor
      · intro h
        have ha : a = 0 := by omega
        rw [ha]
        exact Or.inr ⟨as, rfl⟩
      · intro h
        rcases h with h | ⟨r, hr⟩
        · cases h
        · injection hr with h1 h2
          omega
    | cons b bs =>
      have hb : b ≠ 0 := ht b (List.mem_cons_self _ _)
      have hbs : ∀ c ∈ bs, c ≠ 0 := fun c hc => ht c (List.mem_cons_of_mem _ hc)
      simp only [List.cons_append, strcmp, List.cons_prefix_cons, List.cons.injEq]
      by_cases hab : a = b
      · subst hab
        simp only [ne_eq, not_true_eq_false, ↓reduceIte, hb, true_and]
        exact ih bs hbs
      · have hba : ¬ b = a := fun h => hab h.symm
        simp only [ne_eq, hab, hba, not_false_eq_true, ↓reduceIte, false_and, or_self,
          iff_false]
        omega

/-- The recognition of the command text, for every readable buffer of at most 15 bytes. -/
theorem chaser_write_parse_any (buf : List Nat) (count : Nat) (hc : count ≤ 15)
    (hread : count ≤ buf.length) :
    chaser_write_parse buf count =
      if buf.take count = c_str "up\n" ∨ (c_str "up\n" ++ [0]) <+: buf.take count then
        .ok direction.UP
      else if buf.take count = c_str "down\n" ∨
          (c_str "down\n" ++ [0]) <+: buf.take count then .ok direction.DOWN
      else .error (-EINVAL) := by
  have h1 := strcmp_eq_zero_iff_nul (buf.take count) (c_str "up\n") (by decide)
  have h2 := strcmp_eq_zero_iff_nul (buf.take count) (c_str "down\n") (by decide)
  unfold chaser_write_parse copy_from_user
  have hc2 : ¬ count > 15 := by omega
  simp only [hc2, ↓reduceIte, hread, h1, h2]

/-- C16 (as stated, refuted): on a freshly probed device, the six written bytes "up",
newline, NUL, "zz" are not one of the two command texts, yet `chaser_write` enqueues the
command UP and returns 6; and a write of 3 bytes whose user buffer cannot be read returns
`-EFAULT`, not `-EINVAL`. -/
theorem C16_counterexample :
    c_str "up\n" ++ [0, 122, 122] ≠ c_str "up\n" ∧
    c_str "up\n" ++ [0, 122, 122] ≠ c_str "down\n" ∧
    chaser_write chaser_probe (c_str "up\n" ++ [0, 122, 122]) 6 =
      ({ chaser_probe with sequence_fifo := { size := 64, data := [0, 0, 0, 0] } }, 6) ∧
    drain (chaser_write chaser_probe (c_str "up\n" ++ [0, 122, 122]) 6).1 = [direction.UP] ∧
    chaser_write chaser_probe [] 3 = (chaser_probe, -EFAULT) := by
  decide

/-- C16 (amended): `chaser_write` returns `-EINVAL` and leaves the state unchanged for every
buffer longer than 15 bytes; when at most 15 bytes are written and they cannot be read from
user space it returns `-EFAULT` and leaves the state unchanged; for every other buffer,
NUL bytes included, that is neither one of the two command texts, "up" + newline (3 bytes)
or "down" + newline (5 bytes), nor one of them followed by a NUL byte, it returns `-EINVAL`
and leaves the state unchanged.  The two command texts are recognised as UP and DOWN, and
among the buffers that are not a command text followed by a NUL byte the state changes (a
command is enqueued) only when the bytes are readable and are exactly a command text. -/
theorem C16_write_rejects (p : priv) (buf : List Nat) (count : Nat) :
    (15 < count → chaser_write p buf count = (p, -EINVAL)) ∧
    (count ≤ 15 → buf.length < count → chaser_write p buf count = (p, -EFAULT)) ∧
    (count ≤ buf.length → buf.take count ≠ c_str "up\n" → buf.take count ≠ c_str "down\n" →
      ¬ (c_str "up\n" ++ [0]) <+: buf.take count →
      ¬ (c_str "down\n" ++ [0]) <+: buf.take count →
      chaser_write p buf count = (p, -EINVAL)) ∧
    (count ≤ buf.length → buf.take count = c_str "up\n" →
      chaser_write_parse buf count = .ok direction.UP) ∧
    (count ≤ buf.length → buf.take count = c_str "down\n" →
      chaser_write_parse buf count = .ok direction.DOWN) ∧
    ((chaser_write p buf count).1 ≠ p →
      ¬ (c_str "up\n" ++ [0]) <+: buf.take count →
      ¬ (c_str "down\n" ++ [0]) <+: buf.take count →
      count ≤ buf.length ∧
        (buf.take count = c_str "up\n" ∨ buf.take count = c_str "down\n")) := by
  have hbig : 15 < count → chaser_write p buf count = (p, -EINVAL) := by
    intro h
    apply chaser_write_error
    simp [chaser_write_parse, h]
  have hfault : count ≤ 15 → buf.length < count → chaser_write p buf count = (p, -EFAULT) := by
    intro h1 h2
    apply chaser_write_error
    have h3 : ¬ count > 15 := by omega
    have h4 : ¬ count ≤ buf.length := by omega
    simp [chaser_write_parse, copy_from_user, h3, h4]
  have hother : count ≤ buf.length → buf.take count ≠ c_str "up\n" →
      buf.take count ≠ c_str "down\n" →
      ¬ (c_str "up\n" ++ [0]) <+: buf.take count →
      ¬ (c_str "down\n" ++ [0]) <+: buf.take count →
      chaser_write p buf count = (p, -EINVAL) := by
    intro hr hu hd hu0 hd0
    by_cases hc : count ≤ 15
    · apply chaser_write_error
      rw [chaser_write_parse_any buf count hc hr]
      simp only [hu, hd, hu0, hd0, or_self, ↓reduceIte]
    · exact hbig (by omega)
  have hlen : ∀ t : List Nat, count ≤ buf.length → buf.take count = t → count = t.length := by
    intro t hr ht
    rw [← ht, List.length_take]
    omega
  refine ⟨hbig, hfault, hother, ?_, ?_, ?_⟩
  · intro hr hu
    have hc : count = 3 := hlen _ hr hu
    rw [chaser_write_parse_any buf count (by omega) hr]
    simp only [hu, true_or, ↓reduceIte]
  · intro hr hd
    have hc : count = 5 := hlen _ hr hd
    rw [chaser_write_parse_any buf count (by omega) hr, hd]
    rfl
  · intro hch hu0 hd0
    by_cases hr : count ≤ buf.length
    · refine ⟨hr, ?_⟩
      by_contra hno
      push_neg at hno
      exact hch (by rw [hother hr hno.1 hno.2 hu0 hd0])
    · exfalso
      by_cases hc : count ≤ 15
      · exact hch (by rw [hfault hc (by omega)])
      · exact hch (by rw [hbig (by omega)])

theorem C16_write_rejects_witness :
    chaser_write chaser_probe (c_str "left" ++ [0]) 5 = (chaser_probe, -EINVAL) ∧
    chaser_write chaser_probe (c_str "left\n") 5 = (chaser_probe, -EINVAL) ∧
    chaser_write chaser_probe (c_str "up\n") 16 = (chaser_probe, -EINVAL) ∧
    chaser_write chaser_probe (c_str "up") 3 = (chaser_probe, -EFAULT) :=
  ⟨(C16_write_rejects chaser_probe (c_str "left" ++ [0]) 5).2.2.1 (by decide) (by decide)
      (by decide) (by decide) (by decide),
    (C16_write_rejects chaser_probe (c_str "left\n") 5).2.2.1 (by decide) (by decide)
      (by decide) (by decide) (by decide),
    (C16_write_rejects chaser_probe (c_str "up\n") 16).1 (by decide),
    (C16_write_rejects chaser_probe (c_str "up") 3).2.1 (by decide) (by decide)⟩

/-! ## C13, C14: stop and teardown -/

theorem SysReach_thread_steps (n : Nat) (s t : sys) (hs : SysReach s)
    (h : thread_steps n s = some t) : SysReach t := by
  induction n generalizing t with
  | zero => cases h; exact hs
  | succ n ih =>
    simp only [thread_steps] at h
    cases hf : thread_steps n s with
    | none => rw [hf] at h; cases h
    | some r =>
      rw [hf] at h
      exact SysReach.thread r t (ih r hf) h

theorem SysReach_firings (n : Nat) (s t : sys) (hs : SysReach s)
    (h : sys_firings n s = some t) : SysReach t := by
  induction n generalizing t with
  | zero =>
    simp only [sys_firings, firings, Option.map_some'] at h
    cases h
    exact hs
  | succ n ih =>
    simp only [sys_firings, firings_succ] at h
    cases hf : firings n s.p with
    | none => rw [hf] at h; cases h
    | some r =>
      rw [hf] at h
      cases hq : timer_expire r with
      | none => simp [hq] at h
      | some q =>
        simp only [Option.some_bind, hq, Option.map_some', Option.some.injEq] at h
        have hr : SysReach { s with p := r } := ih _ (by simp [sys_firings, hf])
        have := SysReach.expire { s with p := r } q hr hq
        rw [← h]
        exact this

/-- C13 (the code at the failing input): `stop_requested` is the reachable state in which
the stop is requested while the UP sequence is in flight and the command DOWN is queued.
There the thread is blocked (it does not return on the stop request); after the eight
remaining expiries of the UP sequence its next two steps pop the command DOWN and initialise
its sequence (a second initialisation, timer armed with delay 0, queue now empty), with the
stop still requested; only after the eleven expiries of that sequence does the thread
return. -/
theorem C13_stop_in_flight :
    ((thread_steps 4 (sys_write direction.DOWN (sys_write direction.UP sys_probe))).bind
      (sys_firings 3)).map chaser_remove_begin = some stop_requested ∧
    SysReach stop_requested ∧
    stop_requested.should_stop = true ∧
    drain stop_requested.p = [direction.DOWN] ∧
    chaser_thread stop_requested = none ∧
    (sys_firings 8 stop_requested).bind (thread_steps 2) = some after_stop ∧
    SysReach after_stop ∧
    after_stop.inits = stop_requested.inits + 1 ∧
    drain after_stop.p = [] ∧
    ((sys_firings 11 after_stop).bind (thread_steps 3)).map (fun s => s.pc) =
      some thread_pc.exited := by
  have h1 : (thread_steps 4 (sys_write direction.DOWN (sys_write direction.UP sys_probe))) =
      some
        { p := (chaser_thread_iter (sys_write direction.DOWN
            (sys_write direction.UP sys_probe)).p).1
          pc := thread_pc.wait_finish, should_stop := false, inits := 1 } := by decide
  have h2 : sys_firings 3
      { p := (chaser_thread_iter (sys_write direction.DOWN
          (sys_write direction.UP sys_probe)).p).1
        pc := thread_pc.wait_finish, should_stop := false, inits := 1 } =
      some { stop_requested with
        p := { stop_requested.p with led_base := [0, 1, 2, 4] }, should_stop := false } := by
    decide
  have hr0 : SysReach (sys_write direction.DOWN (sys_write direction.UP sys_probe)) :=
    SysReach.write _ _ _ (SysReach.write _ _ _ SysReach.probe)
  have hr1 := SysReach_thread_steps 4 _ _ hr0 h1
  have hr2 := SysReach_firings 3 _ _ hr1 h2
  have hr3 : SysReach stop_requested := SysReach.remove_begin _ hr2
  have h3 : (sys_firings 8 stop_requested).bind (thread_steps 2) = some after_stop := by decide
  have hr4 : SysReach after_stop := by
    cases hf : sys_firings 8 stop_requested with
    | none => rw [hf] at h3; cases h3
    | some r =>
      rw [hf] at h3
      exact SysReach_thread_steps 2 _ _ (SysReach_firings 8 _ _ hr3 hf) h3
  refine ⟨?_, hr3, rfl, by decide, by decide, h3, hr4, rfl, by decide, by decide⟩
  rw [h1, Option.some_bind, h2]
  rfl

/-- C14 (the code at the failing input): `remove_begun` is the reachable state in which
`chaser_remove` has written 0 to the LED register and requested the stop while an UP
sequence is in flight: the timer is still armed and the thread has not returned, so
`chaser_remove` cannot finish there.  The eight remaining expiries then write 8, 16, ...,
512, 1024 to the register, after the all-off write; the thread returns, `chaser_remove`
finishes in `remove_done`, and the last value written to the register is 1024, not 0. -/
theorem C14_remove_in_flight :
    ((thread_steps 4 (sys_write direction.UP sys_probe)).bind (sys_firings 3)).map
      chaser_remove_begin = some remove_begun ∧
    SysReach remove_begun ∧
    remove_begun.p.led_base.getLast? = some 0 ∧
    remove_begun.p.timer = some 1000 ∧
    remove_begun.pc = thread_pc.wait_finish ∧
    chaser_remove_finish remove_begun = none ∧
    chaser_thread remove_begun = none ∧
    ((sys_firings 8 remove_begun).bind (thread_steps 3)).bind chaser_remove_finish =
      some remove_done ∧
    SysReach remove_done ∧
    remove_done.p.led_base = remove_begun.p.led_base ++ [8, 16, 32, 64, 128, 256, 512, 1024] ∧
    remove_done.p.led_base.getLast? = some 1024 := by
  have h1 : (thread_steps 4 (sys_write direction.UP sys_probe)) =
      some
        { p := (chaser_thread_iter (sys_write direction.UP sys_probe).p).1
          pc := thread_pc.wait_finish, should_stop := false, inits := 1 } := by decide
  have h2 : sys_firings 3
      { p := (chaser_thread_iter (sys_write direction.UP sys_probe).p).1
        pc := thread_pc.wait_finish, should_stop := false, inits := 1 } =
      some { remove_begun with
        p := { remove_begun.p with led_base := [0, 1, 2, 4] }, should_stop := false } := by
    decide
  have hr0 : SysReach (sys_write direction.UP sys_probe) := SysReach.write _ _ _ SysReach.probe
  have hr1 := SysReach_thread_steps 4 _ _ hr0 h1
  have hr2 := SysReach_firings 3 _ _ hr1 h2
  have hr3 : SysReach remove_begun := SysReach.remove_begin _ hr2
  have h3 : ((sys_firings 8 remove_begun).bind (thread_steps 3)).bind chaser_remove_finish =
      some remove_done := by decide
  have hr4 : SysReach remove_done := by
    cases hf : sys_firings 8 remove_begun with
    | none => rw [hf] at h3; cases h3
    | some r =>
      rw [hf, Option.some_bind] at h3
      cases ht : thread_steps 3 r with
      | none => rw [ht] at h3; cases h3
      | some t =>
        rw [ht, Option.some_bind] at h3
        exact SysReach.remove_finish t _
          (SysReach_thread_steps 3 _ _ (SysReach_firings 8 _ _ hr3 hf) ht) h3
  refine ⟨?_, hr3, rfl, rfl, rfl, by decide, by decide, h3, hr4, rfl, rfl⟩
  rw [h1, Option.some_bind, h2]
  rfl

/-! ## C18: a sequence is initialised only when the previous one is complete -/

theorem chaser_write_timer (p : priv) (buf : List Nat) (count : Nat) :
    (chaser_write p buf count).1.timer = p.timer := by
  unfold chaser_write
  split
  · rfl
  · simp only []
    split <;> rfl

theorem interval_store_timer (p : priv) (buf : List Nat) (count : Nat) :
    (interval_store p buf count).1.timer = p.timer := by
  unfold interval_store
  split
  · rfl
  · split <;> rfl

theorem sequence_show_timer (p : priv) : (sequence_show p).1.timer = p.timer := by
  unfold sequence_show
  simp only []
  split_ifs <;> rfl

/-- What one pass of the inner loop does to the Sequence State and the timer. -/
theorem chaser_thread_iter_cases (p : priv) :
    ((chaser_thread_iter p).2 = none ∧
      (chaser_thread_iter p).1.sequence_info = p.sequence_info ∧
      (chaser_thread_iter p).1.timer = p.timer) ∨
    ((chaser_thread_iter p).2 ≠ none ∧
      (chaser_thread_iter p).1.sequence_info.finish_flag = 0 ∧
      (chaser_thread_iter p).1.timer = some 0) := by
  unfold chaser_thread_iter
  simp only []
  split
  · exact Or.inl ⟨rfl, rfl, rfl⟩
  · refine Or.inr ⟨by simp, ?_, rfl⟩
    simp only [chaser_thread_start, mod_timer]

/-- What one timer expiry does to `finish_flag` and the timer. -/
theorem timer_expire_cases (p q : priv) (h : timer_expire p = some q) :
    (q.sequence_info.finish_flag = p.sequence_info.finish_flag ∧ q.timer ≠ none) ∨
    (q.sequence_info.finish_flag = 1 ∧ q.timer = none) := by
  unfold timer_expire at h
  split at h
  · cases h
  · cases h
    unfold chaser_timer
    simp only [iowrite32, mod_timer]
    split
    · exact Or.inl ⟨rfl, by simp⟩
    · exact Or.inr ⟨rfl, rfl⟩

/-- Invariant of the system: `finish_flag` is 0 or 1; while the thread waits for the end of
a sequence the timer is unarmed as soon as `finish_flag` is set; at every other control
point the timer is unarmed and, once a sequence has been initialised, `finish_flag` is 1. -/
theorem SysReach_inv (s : sys) (h : SysReach s) :
    (s.p.sequence_info.finish_flag = 0 ∨ s.p.sequence_info.finish_flag = 1) ∧
    (s.pc = thread_pc.wait_finish → s.p.sequence_info.finish_flag ≠ 0 → s.p.timer = none) ∧
    (s.pc ≠ thread_pc.wait_finish →
      s.p.timer = none ∧ (0 < s.inits → s.p.sequence_info.finish_flag = 1)) := by
  induction h with
  | probe => decide
  | thread s t _ hstep ih =>
    obtain ⟨hflag, hwait, hother⟩ := ih
    unfold chaser_thread at hstep
    split at hstep
    · rename_i hpc
      have ho := hother (by rw [hpc]; decide)
      split at hstep <;> cases hstep <;> exact ⟨hflag, by simp, fun _ => ho⟩
    · rename_i hpc
      have ho := hother (by rw [hpc]; decide)
      split at hstep
      · cases hstep
        exact ⟨hflag, by simp, fun _ => ho⟩
      · cases hstep
    · rename_i hpc
      have ho := hother (by rw [hpc]; decide)
      split at hstep <;> cases hstep <;> exact ⟨hflag, by simp, fun _ => ho⟩
    · rename_i hpc
      have ho := hother (by rw [hpc]; decide)
      rcases chaser_thread_iter_cases s.p with ⟨h2, hsi, htm⟩ | ⟨h2, hff, htm⟩
      · split at hstep
        · rename_i p1 heq
          cases hstep
          have hp1 : p1 = (chaser_thread_iter s.p).1 := by rw [heq]
          subst hp1
          refine ⟨by simp only [hsi]; exact hflag, by simp, fun _ => ?_⟩
          simp only [hsi, htm]
          exact ho
        · rename_i p1 d heq
          rw [heq] at h2
          cases h2
      · split at hstep
        · rename_i p1 heq
          rw [heq] at h2
          exact absurd rfl h2
        · rename_i p1 d heq
          cases hstep
          have hp1 : p1 = (chaser_thread_iter s.p).1 := by rw [heq]
          subst hp1
          refine ⟨Or.inl hff, fun _ hne => absurd hff hne, by simp⟩
    · rename_i hpc
      split at hstep
      · rename_i hne
        cases hstep
        have htm := hwait hpc hne
        refine ⟨hflag, by simp, fun _ => ⟨htm, fun _ => ?_⟩⟩
        rcases hflag with h0 | h1
        · exact absurd h0 hne
        · exact h1
      · cases hstep
    · cases hstep
  | expire s q _ he ih =>
    obtain ⟨hflag, hwait, hother⟩ := ih
    have hpend : s.p.timer ≠ none := by
      unfold timer_expire at he
      split at he
      · cases he
      · rename_i d hd
        rw [hd]
        simp
    have hpc : s.pc = thread_pc.wait_finish := by
      by_contra hne
      exact hpend (hother hne).1
    rcases timer_expire_cases s.p q he with ⟨hf, ht⟩ | ⟨hf, ht⟩
    · refine ⟨by simp only [hf]; exact hflag, fun _ hne => ?_, fun hne => absurd hpc hne⟩
      simp only [hf] at hne
      exact absurd (hwait hpc hne) hpend
    · exact ⟨Or.inr hf, fun _ _ => ht, fun hne => absurd hpc hne⟩
  | write s buf count _ ih =>
    simp only [chaser_write_sequence_info, chaser_write_timer]
    exact ih
  | store s buf count _ ih =>
    simp only [interval_store_sequence_info, interval_store_timer]
    exact ih
  | display s _ ih =>
    simp only [sequence_show_sequence_info, sequence_show_timer]
    exact ih
  | remove_begin s _ ih => exact ih
  | remove_finish s t _ hfin ih =>
    obtain ⟨hflag, _, hother⟩ := ih
    unfold chaser_remove_finish at hfin
    split at hfin
    · rename_i hpc
      cases hfin
      have ho := hother (by rw [hpc]; decide)
      exact ⟨hflag, fun _ _ => rfl, fun _ => ⟨rfl, ho.2⟩⟩
    · cases hfin

/-- C18: in every reachable state of the system, an expiry of the timer can be pending only
while the thread waits for the end of the sequence it started, and there, while the
sequence is active, the thread is blocked.  Whenever a step of `chaser_thread` initialises a
Sequence State, no expiry of an earlier sequence is pending and, if this is not the first
initialisation, the completion firing of the previous sequence has set `finish_flag`; the
only pending expiry afterwards is the one this initialisation arms. -/
theorem C18_init_after_completion (s : sys) (hs : SysReach s) :
    (s.p.timer ≠ none → s.pc = thread_pc.wait_finish) ∧
    (s.pc = thread_pc.wait_finish → s.p.sequence_info.finish_flag = 0 →
      chaser_thread s = none) ∧
    (∀ t : sys, chaser_thread s = some t → t.inits = s.inits + 1 →
      s.pc = thread_pc.pop ∧ s.p.timer = none ∧
      (0 < s.inits → s.p.sequence_info.finish_flag = 1) ∧
      t.p.sequence_info.finish_flag = 0 ∧ t.p.timer = some 0 ∧
      t.pc = thread_pc.wait_finish) := by
  obtain ⟨hflag, hwait, hother⟩ := SysReach_inv s hs
  refine ⟨fun hp => ?_, fun hpc hf => ?_, fun t hstep hinit => ?_⟩
  · by_contra hne
    exact hp (hother hne).1
  · unfold chaser_thread
    rw [hpc]
    simp [hf]
  · have hpc : s.pc = thread_pc.pop := by
      unfold chaser_thread at hstep
      split at hstep
      · split at hstep <;> cases hstep <;> simp at hinit
      · split at hstep
        · cases hstep; simp at hinit
        · cases hstep
      · split at hstep <;> cases hstep <;> simp at hinit
      · assumption
      · split at hstep
        · cases hstep; simp at hinit
        · cases hstep
      · cases hstep
    have ho := hother (by rw [hpc]; decide)
    unfold chaser_thread at hstep
    rw [hpc] at hstep
    simp only [] at hstep
    rcases chaser_thread_iter_cases s.p with ⟨h2, _, _⟩ | ⟨h2, hff, htm⟩
    · split at hstep
      · cases hstep; simp at hinit
      · rename_i p1 d heq
        rw [heq] at h2
        cases h2
    · split at hstep
      · rename_i p1 heq
        rw [heq] at h2
        exact absurd rfl h2
      · rename_i p1 d heq
        cases hstep
        have hp1 : p1 = (chaser_thread_iter s.p).1 := by rw [heq]
        subst hp1
        exact ⟨hpc, ho.1, ho.2, hff, htm, rfl⟩

theorem C18_init_after_completion_witness :
    SysReach
      { p := (chaser_write chaser_probe (cmd_text direction.UP) 3).1
        pc := thread_pc.pop, should_stop := false, inits := 0 } ∧
    chaser_thread
      { p := (chaser_write chaser_probe (cmd_text direction.UP) 3).1
        pc := thread_pc.pop, should_stop := false, inits := 0 } =
      some
        { p := chaser_thread_start direction.UP chaser_probe
          pc := thread_pc.wait_finish, should_stop := false, inits := 1 } ∧
    (∀ t : sys,
      chaser_thread
        { p := (chaser_write chaser_probe (cmd_text direction.UP) 3).1
          pc := thread_pc.pop, should_stop := false, inits := 0 } = some t →
      t.inits = 0 + 1 →
      t.p.sequence_info.finish_flag = 0 ∧ t.p.timer = some 0) :=
  ⟨SysReach_thread_steps 3 (sys_write direction.UP sys_probe) _
      (SysReach.write _ _ _ SysReach.probe) (by decide),
    by decide,
    fun t ht hi =>
      have h := (C18_init_after_completion _
        (SysReach_thread_steps 3 (sys_write direction.UP sys_probe) _
          (SysReach.write _ _ _ SysReach.probe) (by decide))).2.2 t ht hi
      ⟨h.2.2.2.1, h.2.2.2.2.1⟩⟩

/-! ## C19: locks held at the same time -/

/-- C19 (as stated, refuted): in the state in which the dispatcher has just started an UP
sequence, `chaser_timer` takes `interval_lock` while it holds `seq_lock`: it holds two of
the three locks at the same time. -/
theorem C19_counterexample :
    chaser_timer_locks (chaser_thread_start direction.UP chaser_probe) =
      [lock_event.acquire lock.seq_lock, lock_event.acquire lock.interval_lock,
        lock_event.release lock.interval_lock, lock_event.release lock.seq_lock] ∧
    held_sets [] (chaser_timer_locks (chaser_thread_start direction.UP chaser_probe)) =
      [[lock.seq_lock], [lock.interval_lock, lock.seq_lock], [lock.seq_lock], []] ∧
    max_held (chaser_timer_locks (chaser_thread_start direction.UP chaser_probe)) = 2 := by
  decide

/-- C19 (amended): `chaser_thread`, `chaser_write` and the sysfs handlers hold at most one
of the three locks at every point (they never take a lock while holding another).
`chaser_timer` holds at most two: on its re-arming branch it takes `interval_lock` while
holding `seq_lock`, and this is the only nesting in the driver, so `fifo_lock` is never
held together with another lock and `seq_lock` is never taken while another lock is held. -/
theorem C19_lock_nesting (p : priv) (buf : List Nat) (count : Nat) :
    max_held (chaser_thread_locks p) ≤ 1 ∧ nestings [] (chaser_thread_locks p) = [] ∧
    max_held (chaser_write_locks buf count) ≤ 1 ∧
    nestings [] (chaser_write_locks buf count) = [] ∧
    max_held interval_show_locks ≤ 1 ∧ nestings [] interval_show_locks = [] ∧
    max_held (interval_store_locks buf) ≤ 1 ∧ nestings [] (interval_store_locks buf) = [] ∧
    max_held current_led_show_locks ≤ 1 ∧ nestings [] current_led_show_locks = [] ∧
    max_held completed_sequences_show_locks ≤ 1 ∧
    nestings [] completed_sequences_show_locks = [] ∧
    max_held queued_sequences_show_locks ≤ 1 ∧ nestings [] queued_sequences_show_locks = [] ∧
    max_held sequence_show_locks ≤ 1 ∧ nestings [] sequence_show_locks = [] ∧
    max_held (chaser_timer_locks p) ≤ 2 ∧
    (nestings [] (chaser_timer_locks p) = [] ∨
      nestings [] (chaser_timer_locks p) = [(lock.seq_lock, lock.interval_lock)]) := by
  have hthread : max_held (chaser_thread_locks p) ≤ 1 ∧
      nestings [] (chaser_thread_locks p) = [] := by
    unfold chaser_thread_locks
    split <;> exact ⟨by decide, by decide⟩
  have hwrite : max_held (chaser_write_locks buf count) ≤ 1 ∧
      nestings [] (chaser_write_locks buf count) = [] := by
    unfold chaser_write_locks
    split <;> exact ⟨by decide, by decide⟩
  have hstore : max_held (interval_store_locks buf) ≤ 1 ∧
      nestings [] (interval_store_locks buf) = [] := by
    unfold interval_store_locks
    split
    · exact ⟨by decide, by decide⟩
    · split <;> exact ⟨by decide, by decide⟩
  have htimer : max_held (chaser_timer_locks p) ≤ 2 ∧
      (nestings [] (chaser_timer_locks p) = [] ∨
        nestings [] (chaser_timer_locks p) = [(lock.seq_lock, lock.interval_lock)]) := by
    unfold chaser_timer_locks
    split
    · exact ⟨by decide, Or.inr (by decide)⟩
    · exact ⟨by decide, Or.inl (by decide)⟩
  exact ⟨hthread.1, hthread.2, hwrite.1, hwrite.2, by decide, by decide, hstore.1, hstore.2,
    by decide, by decide, by decide, by decide, by decide, by decide, by decide, by decide,
    htimer.1, htimer.2⟩

end Chaser

namespace Accumulate

/-! ## C20: the accumulator in ADD mode -/

theorem u64_of_bytes_u64_bytes (v : Nat) : u64_of_bytes (u64_bytes v) = v % 2 ^ 64 := by
  simp only [u64_of_bytes, u64_bytes, List.getD_cons_zero, List.getD_cons_succ]
  omega

theorem u64_bytes_length (v : Nat) : (u64_bytes v).length = 8 := rfl

/-- A successful write in ADD mode. -/
theorem accumulate_write_add (s : state) (buf : List Nat) (pos : Nat)
    (hop : s.operation = OP_ADD) (hlen : sizeof_value ≤ buf.length) :
    accumulate_write s buf sizeof_value pos =
      ({ s with accumulate_value :=
          (s.accumulate_value + u64_of_bytes (buf.take sizeof_value)) % 2 ^ 64 }, 0,
        (sizeof_value : Int)) := by
  unfold accumulate_write copy_from_user
  simp [hlen, hop]

theorem write_value_add (v : Nat) (x : session) (hop : x.dev.operation = OP_ADD) :
    write_value v x =
      { dev := { x.dev with accumulate_value := (x.dev.accumulate_value + v) % 2 ^ 64 },
        pos := 0 } := by
  unfold write_value
  rw [accumulate_write_add x.dev (u64_bytes v) x.pos hop
    (by rw [u64_bytes_length]; decide)]
  have ht : (u64_bytes v).take sizeof_value = u64_bytes v := rfl
  simp only [ht, u64_of_bytes_u64_bytes, Nat.add_mod_mod]

/-- The writes of `v :: vs` in ADD mode add their sum to the accumulator. -/
theorem write_values_add (vs : List Nat) :
    ∀ (v : Nat) (x : session), x.dev.operation = OP_ADD →
      write_values (v :: vs) x =
        { dev := { x.dev with
            accumulate_value := (x.dev.accumulate_value + (v :: vs).sum) % 2 ^ 64 },
          pos := 0 } := by
  induction vs with
  | nil =>
    intro v x hop
    simp only [write_values, write_value_add v x hop, List.sum_cons, List.sum_nil,
      Nat.add_zero]
  | cons w ws ih =>
    intro v x hop
    rw [write_values, write_value_add v x hop]
    have h := ih w
      { dev := { x.dev with accumulate_value := (x.dev.accumulate_value + v) % 2 ^ 64 },
        pos := 0 } hop
    rw [h]
    simp only [List.sum_cons, Nat.mod_add_mod, Nat.add_assoc]

/-- C20: in ADD mode every successful 8-byte `accumulate_write` of a value `v` replaces the
accumulator `a` by `(a + v) mod 2^64` (and returns 8, with the file position at 0); hence
after `ACCUMULATE_CMD_RESET` in ADD mode, writing `v1 .. vn` (n at least 1) and reading
returns `(v1 + ... + vn) mod 2^64`; the addition test of the test program (writes of 5, 3
and 10) reads 18 whatever the state of the device at `open`. -/
theorem C20_add_mode (s : state) (hop : s.operation = OP_ADD) :
    (∀ (buf : List Nat) (pos : Nat), sizeof_value ≤ buf.length →
      accumulate_write s buf sizeof_value pos =
        ({ s with accumulate_value :=
            (s.accumulate_value + u64_of_bytes (buf.take sizeof_value)) % 2 ^ 64 }, 0,
          (sizeof_value : Int))) ∧
    (∀ (v : Nat) (vs : List Nat) (pos : Nat),
      (read_value (write_values (v :: vs)
        (do_ioctl ACCUMULATE_CMD_RESET 0 { dev := s, pos := pos }))).2 =
        some ((v :: vs).sum % 2 ^ 64)) ∧
    (∀ dev : state, (test_addition dev).2 = some 18) := by
  refine ⟨fun buf pos hlen => accumulate_write_add s buf pos hop hlen, fun v vs pos => ?_,
    fun dev => ?_⟩
  · have hreset : do_ioctl ACCUMULATE_CMD_RESET 0 { dev := s, pos := pos } =
        { dev := { s with accumulate_value := 0 }, pos := pos } := by
      simp [do_ioctl, accumulate_ioctl]
    rw [hreset, write_values_add vs v _ hop]
    simp only [read_value, accumulate_read, copy_to_user, sizeof_value, Nat.zero_add]
    simp [u64_bytes_length, u64_of_bytes_u64_bytes]
  · have hop2 : do_ioctl test_accumulate.ACCUMULATE_CMD_RESET 0
        (do_ioctl test_accumulate.ACCUMULATE_CMD_CHANGE_OP OP_ADD { dev := dev, pos := 0 }) =
        { dev := { accumulate_value := 0, operation := OP_ADD }, pos := 0 } := by
      simp [do_ioctl, accumulate_ioctl, ACCUMULATE_CMD_RESET, ACCUMULATE_CMD_CHANGE_OP, _IO,
        _IOW, _IOC, _IOC_NONE, _IOC_WRITE, ACCUMULATE_IOC_MAGIC, sizeof_int, OP_ADD,
        OP_MULTIPLY, test_accumulate.ACCUMULATE_CMD_RESET,
        test_accumulate.ACCUMULATE_CMD_CHANGE_OP]
    unfold test_addition
    simp only [hop2]
    decide

theorem C20_add_mode_witness :
    ({ accumulate_value := 7, operation := 0 } : state).operation = OP_ADD ∧
    accumulate_write { accumulate_value := 7, operation := 0 } (u64_bytes 5) 8 8 =
      ({ accumulate_value := 12, operation := 0 }, 0, 8) ∧
    ((∀ (buf : List Nat) (pos : Nat), sizeof_value ≤ buf.length →
      accumulate_write { accumulate_value := 7, operation := 0 } buf sizeof_value pos =
        ({ ({ accumulate_value := 7, operation := 0 } : state) with accumulate_value :=
            (({ accumulate_value := 7, operation := 0 } : state).accumulate_value +
              u64_of_bytes (buf.take sizeof_value)) % 2 ^ 64 }, 0,
          (sizeof_value : Int))) ∧
    (∀ (v : Nat) (vs : List Nat) (pos : Nat),
      (read_value (write_values (v :: vs)
        (do_ioctl ACCUMULATE_CMD_RESET 0
          { dev := { accumulate_value := 7, operation := 0 }, pos := pos }))).2 =
        some ((v :: vs).sum % 2 ^ 64)) ∧
    (∀ dev : state, (test_addition dev).2 = some 18)) :=
  ⟨rfl, by decide, C20_add_mode { accumulate_value := 7, operation := 0 } rfl⟩

/-! ## C21: the accumulator in MULTIPLY mode -/

/-- A successful write in MULTIPLY mode. -/
theorem accumulate_write_mul (s : state) (buf : List Nat) (pos : Nat)
    (hop : s.operation = OP_MULTIPLY) (hlen : sizeof_value ≤ buf.length) :
    accumulate_write s buf sizeof_value pos =
      ({ s with accumulate_value :=
          (s.accumulate_value * u64_of_bytes (buf.take sizeof_value)) % 2 ^ 64 }, 0,
        (sizeof_value : Int)) := by
  unfold accumulate_write copy_from_user
  simp [hlen, hop, OP_MULTIPLY, OP_ADD]

theorem write_value_mul (v : Nat) (x : session) (hop : x.dev.operation = OP_MULTIPLY) :
    write_value v x =
      { dev := { x.dev with accumulate_value := (x.dev.accumulate_value * v) % 2 ^ 64 },
        pos := 0 } := by
  unfold write_value
  rw [accumulate_write_mul x.dev (u64_bytes v) x.pos hop
    (by rw [u64_bytes_length]; decide)]
  have ht : (u64_bytes v).take sizeof_value = u64_bytes v := rfl
  simp only [ht, u64_of_bytes_u64_bytes, Nat.mul_mod_mod]

/-- The writes of `vs` in MULTIPLY mode, from position 0, multiply the accumulator by their
product. -/
theorem write_values_mul (vs : List Nat) :
    ∀ x : session, x.dev.operation = OP_MULTIPLY → x.pos = 0 →
      x.dev.accumulate_value < 2 ^ 64 →
      write_values vs x =
        { dev := { x.dev with
            accumulate_value := (x.dev.accumulate_value * vs.prod) % 2 ^ 64 },
          pos := 0 } := by
  induction vs with
  | nil =>
    intro x _ hpos hlt
    obtain ⟨⟨a, op⟩, pos⟩ := x
    simp only at hpos hlt
    subst hpos
    simp only [write_values, List.prod_nil, Nat.mul_one]
    rw [Nat.mod_eq_of_lt hlt]
  | cons v vs ih =>
    intro x hop _ _
    rw [write_values, write_value_mul v x hop]
    have h := ih
      { dev := { x.dev with accumulate_value := (x.dev.accumulate_value * v) % 2 ^ 64 },
        pos := 0 } hop rfl (Nat.mod_lt _ (by norm_num))
    rw [h]
    simp only [List.prod_cons, Nat.mod_mul_mod, Nat.mul_assoc]

/-- C21: in MULTIPLY mode every successful 8-byte `accumulate_write` of a value `v` replaces
the accumulator `a` by `(a * v) mod 2^64` (and returns 8, with the file position at 0);
hence after `ACCUMULATE_CMD_RESET`, one write of 1 in ADD mode, the change to `OP_MULTIPLY`
and the writes of `v1 .. vn`, a read returns `(v1 * ... * vn) mod 2^64`; the test program
(writes of 5, 3 and 10 in each mode) reads 18 and then 150, whatever the state of the device
at `open`. -/
theorem C21_multiply_mode (s : state) (hop : s.operation = OP_MULTIPLY) :
    (∀ (buf : List Nat) (pos : Nat), sizeof_value ≤ buf.length →
      accumulate_write s buf sizeof_value pos =
        ({ s with accumulate_value :=
            (s.accumulate_value * u64_of_bytes (buf.take sizeof_value)) % 2 ^ 64 }, 0,
          (sizeof_value : Int))) ∧
    (∀ (t : state) (vs : List Nat) (pos : Nat), t.operation = OP_ADD →
      (read_value (write_values vs
        (do_ioctl ACCUMULATE_CMD_CHANGE_OP OP_MULTIPLY
          (write_value 1 (do_ioctl ACCUMULATE_CMD_RESET 0 { dev := t, pos := pos }))))).2 =
        some (vs.prod % 2 ^ 64)) ∧
    (∀ dev : state, test_main dev = (some 18, some 150)) := by
  refine ⟨fun buf pos hlen => accumulate_write_mul s buf pos hop hlen, fun t vs pos ht => ?_,
    fun dev => ?_⟩
  · have hreset : do_ioctl ACCUMULATE_CMD_RESET 0 { dev := t, pos := pos } =
        { dev := { t with accumulate_value := 0 }, pos := pos } := by
      simp [do_ioctl, accumulate_ioctl]
    have hone : write_value 1 { dev := { t with accumulate_value := 0 }, pos := pos } =
        { dev := { t with accumulate_value := 1 }, pos := 0 } := by
      rw [write_value_add 1 _ ht]
      rfl
    have hchg : do_ioctl ACCUMULATE_CMD_CHANGE_OP OP_MULTIPLY
        { dev := { t with accumulate_value := 1 }, pos := 0 } =
        { dev := { accumulate_value := 1, operation := OP_MULTIPLY }, pos := 0 } := by
      simp [do_ioctl, accumulate_ioctl, ACCUMULATE_CMD_RESET, ACCUMULATE_CMD_CHANGE_OP, _IO,
        _IOW, _IOC, _IOC_NONE, _IOC_WRITE, ACCUMULATE_IOC_MAGIC, sizeof_int, OP_ADD,
        OP_MULTIPLY]
    rw [hreset, hone, hchg, write_values_mul vs _ rfl rfl (by norm_num)]
    simp only [read_value, accumulate_read, copy_to_user, sizeof_value, Nat.one_mul]
    simp [u64_bytes_length, u64_of_bytes_u64_bytes]
  · have hop2 : do_ioctl test_accumulate.ACCUMULATE_CMD_RESET 0
        (do_ioctl test_accumulate.ACCUMULATE_CMD_CHANGE_OP OP_ADD { dev := dev, pos := 0 }) =
        { dev := { accumulate_value := 0, operation := OP_ADD }, pos := 0 } := by
      simp [do_ioctl, accumulate_ioctl, ACCUMULATE_CMD_RESET, ACCUMULATE_CMD_CHANGE_OP, _IO,
        _IOW, _IOC, _IOC_NONE, _IOC_WRITE, ACCUMULATE_IOC_MAGIC, sizeof_int, OP_ADD,
        OP_MULTIPLY, test_accumulate.ACCUMULATE_CMD_RESET,
        test_accumulate.ACCUMULATE_CMD_CHANGE_OP]
    unfold test_main test_addition
    simp only [hop2]
    decide

theorem C21_multiply_mode_witness :
    ({ accumulate_value := 7, operation := 1 } : state).operation = OP_MULTIPLY ∧
    accumulate_write { accumulate_value := 7, operation := 1 } (u64_bytes 5) 8 8 =
      ({ accumulate_value := 35, operation := 1 }, 0, 8) ∧
    ((∀ (buf : List Nat) (pos : Nat), sizeof_value ≤ buf.length →
      accumulate_write { accumulate_value := 7, operation := 1 } buf sizeof_value pos =
        ({ ({ accumulate_value := 7, operation := 1 } : state) with accumulate_value :=
            (({ accumulate_value := 7, operation := 1 } : state).accumulate_value *
              u64_of_bytes (buf.take sizeof_value)) % 2 ^ 64 }, 0,
          (sizeof_value : Int))) ∧
    (∀ (t : state) (vs : List Nat) (pos : Nat), t.operation = OP_ADD →
      (read_value (write_values vs
        (do_ioctl ACCUMULATE_CMD_CHANGE_OP OP_MULTIPLY
          (write_value 1 (do_ioctl ACCUMULATE_CMD_RESET 0 { dev := t, pos := pos }))))).2 =
        some (vs.prod % 2 ^ 64)) ∧
    (∀ dev : state, test_main dev = (some 18, some 150))) :=
  ⟨rfl, by decide, C21_multiply_mode { accumulate_value := 7, operation := 1 } rfl⟩

/-! ## C22: the ioctl numbers -/

/-- C22: the ioctl numbers defined by the driver header, `_IO('+', 0)` and
`_IOW('+', 1, int)`, are 11008 and 1074014977, the constants hard-coded in the test
program; the second one is made of the direction "write" (1) in bits 30-31, the size 4 in
bits 16-29, the type 0x2B in bits 8-15 and the number 1 in bits 0-7. -/
theorem C22_ioctl_numbers :
    ACCUMULATE_CMD_RESET = test_accumulate.ACCUMULATE_CMD_RESET ∧
    ACCUMULATE_CMD_CHANGE_OP = test_accumulate.ACCUMULATE_CMD_CHANGE_OP ∧
    ACCUMULATE_CMD_RESET = 11008 ∧
    ACCUMULATE_CMD_CHANGE_OP = 1074014977 ∧
    ACCUMULATE_IOC_MAGIC = 0x2B ∧
    ACCUMULATE_CMD_RESET = 0x2B * 2 ^ 8 ∧
    ACCUMULATE_CMD_CHANGE_OP = 1 * 2 ^ 30 + 4 * 2 ^ 16 + 0x2B * 2 ^ 8 + 1 ∧
    ACCUMULATE_CMD_CHANGE_OP / 2 ^ 30 = _IOC_WRITE ∧
    ACCUMULATE_CMD_CHANGE_OP / 2 ^ 16 % 2 ^ 14 = sizeof_int ∧
    ACCUMULATE_CMD_CHANGE_OP / 2 ^ 8 % 2 ^ 8 = ACCUMULATE_IOC_MAGIC ∧
    ACCUMULATE_CMD_CHANGE_OP % 2 ^ 8 = 1 := by
  decide

/-! ## C23: reads and the file position -/

/-- C23: after a successful `accumulate_write` (return value 8) the file position is 0,
whatever it was before; an `accumulate_read` with a count of at least 8 (into a writable
buffer) that follows it returns the 8 bytes of the current accumulator and sets the position
to 8; a further read at that position returns 0 bytes and leaves the position at 8. -/
theorem C23_read_position (s : state) (buf : List Nat) (pos count room : Nat)
    (hw : (accumulate_write s buf sizeof_value pos).2.2 = (sizeof_value : Int))
    (hc : sizeof_value ≤ count) (hr : sizeof_value ≤ room) :
    (accumulate_write s buf sizeof_value pos).2.1 = 0 ∧
    accumulate_read (accumulate_write s buf sizeof_value pos).1 room count
        (accumulate_write s buf sizeof_value pos).2.1 =
      (some (u64_bytes (accumulate_write s buf sizeof_value pos).1.accumulate_value),
        sizeof_value, (sizeof_value : Int)) ∧
    u64_of_bytes (u64_bytes (accumulate_write s buf sizeof_value pos).1.accumulate_value) =
      (accumulate_write s buf sizeof_value pos).1.accumulate_value ∧
    accumulate_read (accumulate_write s buf sizeof_value pos).1 room count sizeof_value =
      (none, sizeof_value, 0) := by
  have hpos : (accumulate_write s buf sizeof_value pos).2.1 = 0 ∧
      (accumulate_write s buf sizeof_value pos).1.accumulate_value < 2 ^ 64 := by
    unfold accumulate_write at hw ⊢
    simp only [ne_eq, not_true_eq_false, ↓reduceIte] at hw ⊢
    split at hw
    · simp [EFAULT, sizeof_value] at hw
    · rename_i data hcopy
      split
      · exact ⟨rfl, Nat.mod_lt _ (by norm_num)⟩
      · rename_i hadd
        simp only [hadd, ↓reduceIte] at hw
        split
        · exact ⟨rfl, Nat.mod_lt _ (by norm_num)⟩
        · rename_i hmul
          simp [hmul, EINVAL, sizeof_value] at hw
  obtain ⟨h0, hlt⟩ := hpos
  have hroom : (u64_bytes (accumulate_write s buf sizeof_value pos).1.accumulate_value).length
      ≤ room := by
    rw [u64_bytes_length]
    simpa [sizeof_value] using hr
  have hcnt : ¬ count < sizeof_value := by omega
  refine ⟨h0, ?_, ?_, ?_⟩
  · rw [h0]
    simp only [sizeof_value] at hcnt hroom
    simp [accumulate_read, copy_to_user, hroom, hcnt, sizeof_value]
  · rw [u64_of_bytes_u64_bytes, Nat.mod_eq_of_lt hlt]
  · simp [accumulate_read]

theorem C23_read_position_witness :
    (accumulate_write { accumulate_value := 8, operation := 0 } (u64_bytes 10) sizeof_value
      8).2.2 = (sizeof_value : Int) ∧ sizeof_value ≤ 8 ∧ sizeof_value ≤ 8 ∧
    ((accumulate_write { accumulate_value := 8, operation := 0 } (u64_bytes 10) sizeof_value
      8).2.1 = 0 ∧
    accumulate_read
        (accumulate_write { accumulate_value := 8, operation := 0 } (u64_bytes 10)
          sizeof_value 8).1 8 8
        (accumulate_write { accumulate_value := 8, operation := 0 } (u64_bytes 10)
          sizeof_value 8).2.1 =
      (some (u64_bytes (accumulate_write { accumulate_value := 8, operation := 0 }
        (u64_bytes 10) sizeof_value 8).1.accumulate_value), sizeof_value,
        (sizeof_value : Int)) ∧
    u64_of_bytes (u64_bytes (accumulate_write { accumulate_value := 8, operation := 0 }
        (u64_bytes 10) sizeof_value 8).1.accumulate_value) =
      (accumulate_write { accumulate_value := 8, operation := 0 } (u64_bytes 10)
        sizeof_value 8).1.accumulate_value ∧
    accumulate_read
        (accumulate_write { accumulate_value := 8, operation := 0 } (u64_bytes 10)
          sizeof_value 8).1 8 8 sizeof_value =
      (none, sizeof_value, 0)) :=
  ⟨by decide, by decide, by decide,
    C23_read_position { accumulate_value := 8, operation := 0 } (u64_bytes 10) 8 8 8
      (by decide) (by decide) (by decide)⟩

end Accumulate

namespace Parrot

/-! ## C24, C25: the parrot buffer -/

theorem krealloc_length (data : List Nat) (n : Nat) (fresh : Nat → Nat) :
    (krealloc data n fresh).length = n := by
  unfold krealloc
  simp only [List.length_take, List.length_append, List.length_map, List.length_range]
  omega

theorem parrot_write_einval (b : dev_buffer) (buf : List Nat) (count pos : Nat)
    (alloc : Option (Nat → Nat)) (h : pos > 1024 ∨ pos + count > 1024) :
    parrot_write b buf count pos alloc = (b, pos, -EINVAL) := by
  unfold parrot_write
  have hg : pos > 1024 ∨ count > 1024 - pos := by omega
  simp only [hg, ↓reduceIte]

/-- A write that passes the capacity check, whose allocation (if any) and copy succeed. -/
theorem parrot_write_ok (b : dev_buffer) (buf : List Nat) (count pos : Nat)
    (alloc : Option (Nat → Nat)) (hwf : buffer_wf b) (h : pos + count ≤ 1024)
    (halloc : pos + count ≤ b.capacity ∨ alloc.isSome = true) (hbuf : count ≤ buf.length) :
    ∃ d1 : List Nat, d1.length = max b.capacity (pos + count) ∧
      parrot_write b buf count pos alloc =
        ({ data := d1.take pos ++ buf.take count ++ d1.drop (pos + count),
           capacity := max b.capacity (pos + count),
           size := max b.size (pos + count) }, pos + count, (count : Int)) := by
  obtain ⟨hlen, hsize⟩ := hwf
  have hg : ¬ (pos > 1024 ∨ count > 1024 - pos) := by omega
  unfold parrot_write
  simp only [hg, ↓reduceIte, hbuf]
  by_cases hcap : pos + count > b.capacity
  · have hsome : alloc.isSome = true := by
      rcases halloc with h1 | h1
      · omega
      · exact h1
    obtain ⟨fresh, hf⟩ := Option.isSome_iff_exists.mp hsome
    subst hf
    refine ⟨krealloc b.data (pos + count) fresh, ?_, ?_⟩
    · rw [krealloc_length]; omega
    · simp only [hcap, ↓reduceIte, Option.map_some']
      have h1 : max b.capacity (pos + count) = pos + count := by omega
      have h2 : max b.size (pos + count) = pos + count := by omega
      have h3 : b.size < pos + count := by omega
      simp only [h1, h2, h3, ↓reduceIte]
  · refine ⟨b.data, ?_, ?_⟩
    · omega
    · simp only [hcap, ↓reduceIte]
      have h1 : max b.capacity (pos + count) = b.capacity := by omega
      by_cases h3 : b.size < pos + count
      · have h2 : max b.size (pos + count) = pos + count := by omega
        simp only [h1, h2, h3, ↓reduceIte]
      · have h2 : max b.size (pos + count) = b.size := by omega
        simp only [h1, h2, h3, ↓reduceIte]

theorem parrot_write_wf (b : dev_buffer) (buf : List Nat) (count pos : Nat)
    (alloc : Option (Nat → Nat)) (hwf : buffer_wf b) (h : pos + count ≤ 1024)
    (halloc : pos + count ≤ b.capacity ∨ alloc.isSome = true) (hbuf : count ≤ buf.length) :
    buffer_wf (parrot_write b buf count pos alloc).1 := by
  obtain ⟨d1, hd1, hw⟩ := parrot_write_ok b buf count pos alloc hwf h halloc hbuf
  rw [hw]
  obtain ⟨hlen, hsize⟩ := hwf
  unfold buffer_wf
  simp only [List.length_append, List.length_take, List.length_drop]
  omega

/-- The allocation step of `parrot_write`: the buffer it copies into keeps the old bytes at
the front, and is as long as the larger of the old capacity and the required one. -/
theorem parrot_grown (b : dev_buffer) (req : Nat) (alloc : Option (Nat → Nat))
    (hwf : buffer_wf b) :
    (req > b.capacity ∧ alloc = none) ∨
    ∃ d1 : List Nat, b.data <+: d1 ∧ d1.length = max b.capacity req ∧
      (if req > b.capacity then
          alloc.map (fun fresh =>
            ({ b with data := krealloc b.data req fresh, capacity := req } : dev_buffer))
        else some b) =
      some { data := d1, capacity := max b.capacity req, size := b.size } := by
  obtain ⟨hlen, hsize⟩ := hwf
  by_cases hcap : req > b.capacity
  · cases alloc with
    | none => exact Or.inl ⟨hcap, rfl⟩
    | some fresh =>
      right
      refine ⟨krealloc b.data req fresh, ?_, ?_, ?_⟩
      · unfold krealloc
        rw [List.take_of_length_le (by
          simp only [List.length_append, List.length_map, List.length_range]; omega)]
        exact List.prefix_append _ _
      · rw [krealloc_length]; omega
      · have h1 : max b.capacity req = req := by omega
        simp only [hcap, ↓reduceIte, Option.map_some', h1]
  · right
    refine ⟨b.data, List.prefix_refl _, by omega, ?_⟩
    have h1 : max b.capacity req = b.capacity := by omega
    simp only [hcap, ↓reduceIte, h1]

/-- The four outcomes of `parrot_write`. -/
theorem parrot_write_cases (b : dev_buffer) (buf : List Nat) (count pos : Nat)
    (alloc : Option (Nat → Nat)) (hwf : buffer_wf b) :
    ((pos > 1024 ∨ pos + count > 1024) ∧
      parrot_write b buf count pos alloc = (b, pos, -EINVAL)) ∨
    (pos + count ≤ 1024 ∧ pos + count > b.capacity ∧ alloc = none ∧
      parrot_write b buf count pos alloc = (b, pos, -ENOMEM)) ∨
    (pos + count ≤ 1024 ∧ buf.length < count ∧
      ∃ d1 : List Nat, b.data <+: d1 ∧ d1.length = max b.capacity (pos + count) ∧
        parrot_write b buf count pos alloc =
          ({ data := d1.take pos ++ buf ++ List.replicate (count - buf.length) 0 ++
               d1.drop (pos + count),
             capacity := max b.capacity (pos + count), size := b.size }, pos, -EFAULT)) ∨
    (pos + count ≤ 1024 ∧ count ≤ buf.length ∧
      ∃ d1 : List Nat, b.data <+: d1 ∧ d1.length = max b.capacity (pos + count) ∧
        parrot_write b buf count pos alloc =
          ({ data := d1.take pos ++ buf.take count ++ d1.drop (pos + count),
             capacity := max b.capacity (pos + count),
             size := max b.size (pos + count) }, pos + count, (count : Int))) := by
  by_cases hb : pos > 1024 ∨ pos + count > 1024
  · exact Or.inl ⟨hb, parrot_write_einval b buf count pos alloc hb⟩
  · right
    have hle : pos + count ≤ 1024 := by omega
    have hg : ¬ (pos > 1024 ∨ count > 1024 - pos) := by omega
    rcases parrot_grown b (pos + count) alloc hwf with ⟨hcap, hnone⟩ | ⟨d1, hpre, hd1, hgrow⟩
    · left
      refine ⟨hle, hcap, hnone, ?_⟩
      unfold parrot_write
      simp only [hg, ↓reduceIte, hcap, hnone, Option.map_none']
    · right
      unfold parrot_write
      simp only [hg, ↓reduceIte]
      rw [hgrow]
      by_cases hbuf : count ≤ buf.length
      · right
        refine ⟨hle, hbuf, d1, hpre, hd1, ?_⟩
        simp only [hbuf, ↓reduceIte]
        by_cases h3 : b.size < pos + count
        · have h2 : max b.size (pos + count) = pos + count := by omega
          simp only [h2, h3, ↓reduceIte]
        · have h2 : max b.size (pos + count) = b.size := by omega
          simp only [h2, h3, ↓reduceIte]
      · left
        refine ⟨hle, by omega, d1, hpre, hd1, ?_⟩
        simp only [hbuf, ↓reduceIte]

/-- C24 (as stated, refuted): after "1 2 3" has been written at position 0, a write of 3
bytes at position 0 from a user buffer of which only the first byte (9) is readable fails
with `-EFAULT`, and the stored bytes 1, 2, 3 have become 9, 0, 0: a failing write has
changed the buffer content. -/
theorem C24_counterexample :
    parrot_write (parrot_init (fun _ => 0)) [1, 2, 3] 3 0 none =
      ({ data := [1, 2, 3, 0, 0, 0, 0, 0], capacity := 8, size := 3 }, 3, 3) ∧
    parrot_write { data := [1, 2, 3, 0, 0, 0, 0, 0], capacity := 8, size := 3 } [9] 3 0 none =
      ({ data := [9, 0, 0, 0, 0, 0, 0, 0], capacity := 8, size := 3 }, 0, -EFAULT) ∧
    (parrot_read { data := [1, 2, 3, 0, 0, 0, 0, 0], capacity := 8, size := 3 }
      (some 3) 3 0).1 = [1, 2, 3] ∧
    (parrot_read (parrot_write { data := [1, 2, 3, 0, 0, 0, 0, 0], capacity := 8, size := 3 }
      [9] 3 0 none).1 (some 3) 3 0).1 = [9, 0, 0] := by
  decide

/-- C24 (amended): `parrot_write` at position `pos` with `count` bytes returns `-EINVAL`
exactly when `pos > 1024` or `pos + count > 1024`.  A write that fails with `-EINVAL` or
`-ENOMEM` leaves the buffer (content, capacity, data size) and the file position unchanged;
a write that fails with `-EFAULT` leaves the data size and the file position unchanged and
keeps every byte before `pos` and from `pos + count` on, but the buffer may have grown and
the bytes at `pos .. pos + count - 1` may be overwritten.  Otherwise, when the allocation
(if one is needed) and the copy succeed, it returns `count`, advances the position by
`count` and sets the data size to the maximum of the old size and `pos + count`.  The return
value is one of these four, and the buffer stays well formed. -/
theorem C24_write_bounds (b : dev_buffer) (buf : List Nat) (count pos : Nat)
    (alloc : Option (Nat → Nat)) (hwf : buffer_wf b) :
    ((parrot_write b buf count pos alloc).2.2 = -EINVAL ↔
      (pos > 1024 ∨ pos + count > 1024)) ∧
    (((parrot_write b buf count pos alloc).2.2 = -EINVAL ∨
        (parrot_write b buf count pos alloc).2.2 = -ENOMEM) →
      (parrot_write b buf count pos alloc).1 = b ∧
      (parrot_write b buf count pos alloc).2.1 = pos) ∧
    ((parrot_write b buf count pos alloc).2.2 = -EFAULT →
      (parrot_write b buf count pos alloc).1.size = b.size ∧
      (parrot_write b buf count pos alloc).2.1 = pos ∧
      ∃ d1 : List Nat, b.data <+: d1 ∧
        (parrot_write b buf count pos alloc).1.data.take pos = d1.take pos ∧
        (parrot_write b buf count pos alloc).1.data.drop (pos + count) =
          d1.drop (pos + count)) ∧
    (pos + count ≤ 1024 → (pos + count ≤ b.capacity ∨ alloc.isSome = true) →
      count ≤ buf.length →
      (parrot_write b buf count pos alloc).2.2 = (count : Int) ∧
      (parrot_write b buf count pos alloc).2.1 = pos + count ∧
      (parrot_write b buf count pos alloc).1.size = max b.size (pos + count) ∧
      buffer_wf (parrot_write b buf count pos alloc).1) ∧
    ((parrot_write b buf count pos alloc).2.2 = -EINVAL ∨
      (parrot_write b buf count pos alloc).2.2 = -ENOMEM ∨
      (parrot_write b buf count pos alloc).2.2 = -EFAULT ∨
      (parrot_write b buf count pos alloc).2.2 = (count : Int)) ∧
    buffer_wf (parrot_write b buf count pos alloc).1 := by
  have hcnt : (0 : Int) ≤ (count : Int) := Int.ofNat_nonneg _
  have e1 : (EINVAL : Int) = 22 := rfl
  have e2 : (ENOMEM : Int) = 12 := rfl
  have e3 : (EFAULT : Int) = 14 := rfl
  have hwf0 := hwf
  obtain ⟨hlen, hsize⟩ := hwf0
  rcases parrot_write_cases b buf count pos alloc hwf with
    ⟨hb, hw⟩ | ⟨hle, hcap, hnone, hw⟩ | ⟨hle, hbuf, d1, hpre, hd1, hw⟩ |
    ⟨hle, hbuf, d1, hpre, hd1, hw⟩
  · rw [hw]
    refine ⟨⟨fun _ => hb, fun _ => rfl⟩, fun _ => ⟨rfl, rfl⟩, fun h => ?_, fun h => ?_,
      Or.inl rfl, hwf⟩
    · simp only [e1, e3] at h; omega
    · omega
  · rw [hw]
    refine ⟨⟨fun h => ?_, fun h => ?_⟩, fun _ => ⟨rfl, rfl⟩, fun h => ?_, fun _ h _ => ?_,
      Or.inr (Or.inl rfl), hwf⟩
    · simp only [e1, e2] at h; omega
    · omega
    · simp only [e2, e3] at h; omega
    · rw [hnone] at h
      rcases h with h | h
      · omega
      · cases h
  · have hA : (d1.take pos).length = pos := by rw [List.length_take]; omega
    have hM : (d1.take pos ++ buf ++ List.replicate (count - buf.length) 0).length =
        pos + count := by
      simp only [List.length_append, hA, List.length_replicate]; omega
    rw [hw]
    refine ⟨⟨fun h => ?_, fun h => ?_⟩, fun h => ?_, fun _ => ⟨rfl, rfl, d1, hpre, ?_, ?_⟩,
      fun _ _ h => ?_, Or.inr (Or.inr (Or.inl rfl)), ?_⟩
    · simp only [e1, e3] at h; omega
    · omega
    · simp only [e1, e2, e3] at h; omega
    · show List.take pos (d1.take pos ++ buf ++ List.replicate (count - buf.length) 0 ++
        d1.drop (pos + count)) = d1.take pos
      rw [List.append_assoc, List.append_assoc, List.take_left' hA]
    · show List.drop (pos + count) (d1.take pos ++ buf ++
        List.replicate (count - buf.length) 0 ++ d1.drop (pos + count)) = d1.drop (pos + count)
      rw [List.drop_left' hM]
    · omega
    · unfold buffer_wf
      simp only [List.length_append, hM, List.length_drop]
      omega
  · have hA : (d1.take pos).length = pos := by rw [List.length_take]; omega
    have hM : (d1.take pos ++ buf.take count).length = pos + count := by
      simp only [List.length_append, hA, List.length_take]; omega
    have hwf2 : buffer_wf
        { data := d1.take pos ++ buf.take count ++ d1.drop (pos + count),
          capacity := max b.capacity (pos + count), size := max b.size (pos + count) } := by
      unfold buffer_wf
      simp only [List.length_append, hM, List.length_drop]
      omega
    rw [hw]
    refine ⟨⟨fun h => ?_, fun h => ?_⟩, fun h => ?_, fun h => ?_,
      fun _ _ _ => ⟨rfl, rfl, rfl, hwf2⟩, Or.inr (Or.inr (Or.inr rfl)), hwf2⟩
    · simp only [e1] at h; omega
    · omega
    · simp only [e1, e2] at h; omega
    · simp only [e3] at h; omega

theorem C24_write_bounds_witness :
    buffer_wf (parrot_init (fun _ => 170)) ∧
    parrot_write (parrot_init (fun _ => 170)) [1, 2, 3] 3 1022 (some (fun _ => 187)) =
      (parrot_init (fun _ => 170), 1022, -EINVAL) ∧
    (parrot_write (parrot_init (fun _ => 170)) [1, 2, 3] 3 10 (some (fun _ => 187))).2 =
      (13, 3) ∧
    (parrot_write (parrot_init (fun _ => 170)) [1, 2, 3] 3 10 none).2 = (10, -ENOMEM) ∧
    (parrot_write (parrot_init (fun _ => 170)) [1] 3 10 (some (fun _ => 187))).2 =
      (10, -EFAULT) ∧
    buffer_wf (parrot_write (parrot_init (fun _ => 170)) [1] 3 10 (some (fun _ => 187))).1 :=
  ⟨by decide, by decide, by decide, by decide, by decide,
    (C24_write_bounds (parrot_init (fun _ => 170)) [1] 3 10 (some (fun _ => 187))
      (by decide)).2.2.2.2.2⟩

/-- C25: after a successful `parrot_write` of the bytes `d` at position `p`, a
`parrot_read` of `len(d)` bytes at position `p` (into a user buffer with room for them)
returns exactly the bytes `d`, `len(d)` of them, and advances the position to `p + len(d)`;
in general a read at position `pos` into a user buffer with enough room returns
`min(count, size - pos)` bytes, those of the buffer from `pos` on, and advances the position
by as much, which is 0 bytes when `pos >= size`. -/
theorem C25_read_back (b : dev_buffer) (d : List Nat) (p room : Nat)
    (alloc : Option (Nat → Nat)) (hwf : buffer_wf b) (h : p + d.length ≤ 1024)
    (halloc : p + d.length ≤ b.capacity ∨ alloc.isSome = true) (hroom : d.length ≤ room) :
    (parrot_write b d d.length p alloc).2.2 = (d.length : Int) ∧
    parrot_read (parrot_write b d d.length p alloc).1 (some room) d.length p =
      (d, p + d.length, (d.length : Int)) ∧
    (∀ (c : dev_buffer) (r count pos : Nat), buffer_wf c → min count (c.size - pos) ≤ r →
      parrot_read c (some r) count pos =
        ((c.data.drop pos).take (min count (c.size - pos)), pos + min count (c.size - pos),
          ((min count (c.size - pos) : Nat) : Int)) ∧
      ((c.data.drop pos).take (min count (c.size - pos))).length = min count (c.size - pos) ∧
      (pos ≥ c.size → parrot_read c (some r) count pos = ([], pos, 0))) := by
  have hgen : ∀ (c : dev_buffer) (r count pos : Nat), buffer_wf c →
      min count (c.size - pos) ≤ r →
      parrot_read c (some r) count pos =
        ((c.data.drop pos).take (min count (c.size - pos)), pos + min count (c.size - pos),
          ((min count (c.size - pos) : Nat) : Int)) := by
    intro c r count pos _ hr
    unfold parrot_read
    by_cases hc : count = 0
    · subst hc
      simp
    · by_cases hp : pos ≥ c.size
      · have h0 : c.size - pos = 0 := by omega
        simp [hc, hp, h0]
      · simp only [hc, ↓reduceIte, hp, hr]
  obtain ⟨d1, hd1, hw⟩ := parrot_write_ok b d d.length p alloc hwf h halloc (Nat.le_refl _)
  have hwf2 := parrot_write_wf b d d.length p alloc hwf h halloc (Nat.le_refl _)
  refine ⟨by rw [hw], ?_, fun c r count pos hc hr => ⟨hgen c r count pos hc hr, ?_, ?_⟩⟩
  · have hmin : min d.length ((parrot_write b d d.length p alloc).1.size - p) = d.length := by
      rw [hw]
      simp only []
      omega
    rw [hgen _ room d.length p hwf2 (by rw [hmin]; exact hroom), hmin, hw]
    simp only [List.take_length, Prod.mk.injEq, and_true]
    have hp : (List.take p d1).length = p := by
      rw [List.length_take]
      omega
    rw [List.append_assoc, List.drop_append_eq_append_drop, hp, Nat.sub_self, List.drop_zero,
      List.drop_of_length_le (Nat.le_of_eq hp), List.nil_append, List.take_append_eq_append_take,
      List.take_length, Nat.sub_self, List.take_zero, List.append_nil]
  · obtain ⟨hlen, hsize⟩ := hc
    rw [List.length_take, List.length_drop]
    omega
  · intro hp
    unfold parrot_read
    by_cases hcz : count = 0
    · simp [hcz]
    · simp [hcz, hp]

theorem C25_read_back_witness :
    buffer_wf (parrot_init (fun _ => 170)) ∧ 10 + [1, 2, 3].length ≤ 1024 ∧
    (10 + [1, 2, 3].length ≤ (parrot_init (fun _ => 170)).capacity ∨
      (some (fun _ => 187) : Option (Nat → Nat)).isSome = true) ∧
    [1, 2, 3].length ≤ 3 ∧
    parrot_read
        (parrot_write (parrot_init (fun _ => 170)) [1, 2, 3] [1, 2, 3].length 10
          (some (fun _ => 187))).1 (some 3) [1, 2, 3].length 10 =
      ([1, 2, 3], 10 + [1, 2, 3].length, (([1, 2, 3] : List Nat).length : Int)) :=
  ⟨by decide, by decide, by decide, by decide,
    (C25_read_back (parrot_init (fun _ => 170)) [1, 2, 3] 10 3 (some (fun _ => 187))
      (by decide) (by decide) (by decide) (by decide)).2.1⟩

end Parrot

namespace Chaser

/-! ## C26: one firing of the timer -/

/-- C26: for every Sequence State (the pattern being a 16-bit value), one firing of
`chaser_timer` writes the stored pattern to the port and decides on that same value.  If
`0 < pattern <= 512` it re-arms the timer (with the stored interval) and replaces the
pattern by `pattern << 1` for UP and `pattern >> 1` for DOWN, leaving the direction,
`finish_flag` and the counter unchanged; otherwise it leaves the pattern and the direction
unchanged, sets `finish_flag`, increments the counter and does not arm the timer, so that no
expiry is pending after it.  Hence `finish_flag` and the counter never change at a firing
whose written pattern is in the valid range. -/
theorem C26_timer_step (p : priv) (hv : p.sequence_info.led_value < 2 ^ 16) :
    (chaser_timer p).led_base = p.led_base ++ [p.sequence_info.led_value] ∧
    ((0 < p.sequence_info.led_value ∧ p.sequence_info.led_value ≤ 512) →
      (chaser_timer p).timer = some p.interval ∧
      (chaser_timer p).sequence_info =
        { led_value :=
            if p.sequence_info.dir = direction.UP then p.sequence_info.led_value <<< 1
            else p.sequence_info.led_value >>> 1,
          dir := p.sequence_info.dir, finish_flag := p.sequence_info.finish_flag } ∧
      (chaser_timer p).sequence_info.led_value =
        (if p.sequence_info.dir = direction.UP then 2 * p.sequence_info.led_value
         else p.sequence_info.led_value / 2) ∧
      (chaser_timer p).completed_sequences = p.completed_sequences) ∧
    (¬ (0 < p.sequence_info.led_value ∧ p.sequence_info.led_value ≤ 512) →
      (chaser_timer p).sequence_info = { p.sequence_info with finish_flag := 1 } ∧
      (chaser_timer p).completed_sequences = atomic_inc p.completed_sequences ∧
      (chaser_timer p).timer = p.timer ∧
      (∀ q : priv, timer_expire p = some q → q.timer = none)) ∧
    (((chaser_timer p).sequence_info.finish_flag ≠ p.sequence_info.finish_flag ∨
        (chaser_timer p).completed_sequences ≠ p.completed_sequences) →
      ¬ (0 < p.sequence_info.led_value ∧ p.sequence_info.led_value ≤ 512)) := by
  obtain ⟨lb, ff, t, ⟨v, d, f⟩, iv, cs⟩ := p
  simp only at hv
  have hmod : v % 2 ^ 32 = v := Nat.mod_eq_of_lt (by omega)
  have hvalid : (0 < v ∧ v ≤ 512) → ∀ t : Option Nat,
      chaser_timer ⟨lb, ff, t, ⟨v, d, f⟩, iv, cs⟩ =
        ⟨lb ++ [v], ff, some iv,
          ⟨if d = direction.UP then v <<< 1 else v >>> 1, d, f⟩, iv, cs⟩ := by
    intro h t
    have h1 : v <<< 1 % 2 ^ 16 = v <<< 1 := by
      rw [Nat.shiftLeft_eq]
      exact Nat.mod_eq_of_lt (by omega)
    have h2 : v >>> 1 % 2 ^ 16 = v >>> 1 := by
      rw [Nat.shiftRight_eq_div_pow]
      exact Nat.mod_eq_of_lt (by omega)
    unfold chaser_timer
    simp only [iowrite32, mod_timer, NUM_LEDS, hmod]
    have h3 : 0 < v ∧ v ≤ 1 <<< (10 - 1) := by
      simp only [Nat.shiftLeft_eq]
      omega
    rw [if_pos h3]
    cases d
    · simp only [↓reduceIte, h1]
    · simp only [reduceCtorEq, ↓reduceIte, h2]
  have hdone : ¬ (0 < v ∧ v ≤ 512) → ∀ t : Option Nat,
      chaser_timer ⟨lb, ff, t, ⟨v, d, f⟩, iv, cs⟩ =
        ⟨lb ++ [v], ff, t, ⟨v, d, 1⟩, iv, atomic_inc cs⟩ := by
    intro h t
    unfold chaser_timer
    simp only [iowrite32, mod_timer, NUM_LEDS, hmod]
    have h3 : ¬ (0 < v ∧ v ≤ 1 <<< (10 - 1)) := by
      simp only [Nat.shiftLeft_eq]
      omega
    rw [if_neg h3]
  by_cases h : 0 < v ∧ v ≤ 512
  · rw [hvalid h t]
    refine ⟨rfl, fun _ => ⟨rfl, rfl, ?_, rfl⟩, fun hn => absurd h hn, fun hc => ?_⟩
    · simp only []
      split
      · rw [Nat.shiftLeft_eq]; omega
      · rw [Nat.shiftRight_eq_div_pow, Nat.pow_one]
    · rcases hc with hc | hc <;> exact absurd rfl hc
  · rw [hdone h t]
    refine ⟨rfl, fun hy => absurd hy h, fun _ => ⟨rfl, rfl, rfl, fun q hq => ?_⟩, fun _ => h⟩
    unfold timer_expire at hq
    simp only [] at hq
    split at hq
    · cases hq
    · cases hq
      rw [hdone h none]

theorem C26_timer_step_witness :
    (chaser_thread_start direction.UP chaser_probe).sequence_info.led_value < 2 ^ 16 ∧
    chaser_timer (chaser_thread_start direction.UP chaser_probe) =
      { led_base := [0, 1]
        sequence_fifo := { size := 64, data := [] }
        timer := some 1000
        sequence_info := { led_value := 2, dir := direction.UP, finish_flag := 0 }
        interval := 1000
        completed_sequences := 0 } ∧
    (chaser_timer (chaser_thread_start direction.UP chaser_probe)).led_base =
      (chaser_thread_start direction.UP chaser_probe).led_base ++
        [(chaser_thread_start direction.UP chaser_probe).sequence_info.led_value] :=
  ⟨by decide, by decide,
    (C26_timer_step (chaser_thread_start direction.UP chaser_probe) (by decide)).1⟩

/-! ## C27: the values written to the port during a sequence -/

/-- C27 (as stated, refuted): the eleventh firing of an UP sequence started on a freshly
probed device writes 1024 to the LED port, which is not smaller than 2^10. -/
theorem C27_counterexample :
    firings 11 (chaser_thread_start direction.UP chaser_probe) =
      some
        { led_base := [0, 1, 2, 4, 8, 16, 32, 64, 128, 256, 512, 1024]
          sequence_fifo := { size := 64, data := [] }
          timer := none
          sequence_info := { led_value := 1024, dir := direction.UP, finish_flag := 1 }
          interval := 1000
          completed_sequences := 1 } ∧
    chaser_probe.led_base = [0] ∧
    ¬ ((1024 : Nat) < 2 ^ 10) := by
  decide

/-- C27 (amended): during a sequence started by `chaser_thread` (either direction, from any
state), every value written by the ten re-arming firings is a non-zero value smaller than
2^10; the eleventh firing, which completes the sequence, writes the terminal pattern, 1024
(2^10) for UP and 0 for DOWN, and no further firing follows.  Every value written during a
sequence is therefore at most 2^10. -/
theorem C27_written_values (p : priv) (d : direction) :
    (∀ k : Fin 11, ∃ (q : priv) (ws : List Nat),
      firings k.val (chaser_thread_start d p) = some q ∧
      q.led_base = p.led_base ++ ws ∧ ws.length = k.val ∧
      ∀ w ∈ ws, 0 < w ∧ w < 2 ^ 10) ∧
    (∃ (q : priv) (ws : List Nat),
      firings 11 (chaser_thread_start d p) = some q ∧
      q.led_base = p.led_base ++ ws ++
        [match d with
          | direction.UP => 1024
          | direction.DOWN => 0] ∧
      ws.length = 10 ∧ ∀ w ∈ ws, 0 < w ∧ w < 2 ^ 10) ∧
    firings 12 (chaser_thread_start d p) = none := by
  have hup : ∀ k : Nat, k ≤ 10 → ∀ w ∈ (List.range k).map (fun i => 2 ^ i),
      0 < w ∧ w < 2 ^ 10 := by
    intro k hk w hw
    simp only [List.mem_map, List.mem_range] at hw
    obtain ⟨i, hi, rfl⟩ := hw
    exact ⟨Nat.pow_pos (by norm_num), Nat.pow_lt_pow_right (by norm_num) (by omega)⟩
  have hdown : ∀ k : Nat, k ≤ 10 → ∀ w ∈ (List.range k).map (fun i => 512 / 2 ^ i),
      0 < w ∧ w < 2 ^ 10 := by
    intro k hk w hw
    simp only [List.mem_map, List.mem_range] at hw
    obtain ⟨i, hi, rfl⟩ := hw
    have hi9 : i ≤ 9 := by omega
    interval_cases i <;> simp
  cases d with
  | UP =>
    refine ⟨fun k => ⟨_, _, firings_up p k.val (by omega), rfl, by simp,
      hup k.val (by omega)⟩, ⟨_, (List.range 10).map (fun i => 2 ^ i),
      firings_up_eleven p, ?_, by simp, hup 10 (by omega)⟩, firings_up_twelve p⟩
    simp [List.range_succ]
  | DOWN =>
    refine ⟨fun k => ⟨_, _, firings_down p k.val (by omega), rfl, by simp,
      hdown k.val (by omega)⟩, ⟨_, (List.range 10).map (fun i => 512 / 2 ^ i),
      firings_down_eleven p, ?_, by simp, hdown 10 (by omega)⟩, firings_down_twelve p⟩
    simp [List.range_succ]

end Chaser

namespace Adxl345

/-! ## C28: the text of an acceleration read -/

set_option maxRecDepth 100000 in
theorem fmt_u_length_le : ∀ q : Fin 256, (fmt_u q.val).length ≤ 3 := by decide

set_option maxRecDepth 100000 in
theorem fmt_03u_digits : ∀ r : Fin 1000,
    fmt_03u r.val =
      [Nat.digitChar (r.val / 100), Nat.digitChar (r.val % 100 / 10),
        Nat.digitChar (r.val % 10)] := by
  decide

/-- The registers of one axis give the signed value of the documentation, and the absolute
value in mg is at most 255590. -/
theorem axis_mg_spec (lo hi : Nat) (hlo : lo < 256) (hhi : hi < 256) :
    axis_mg lo hi =
      ((if Int.tdiv ((if lo + 256 * hi < 32768 then ((lo + 256 * hi : Nat) : Int)
            else ((lo + 256 * hi : Nat) : Int) - 65536) * 78) 10 < 0 then '-' else '+'),
        (Int.tdiv ((if lo + 256 * hi < 32768 then ((lo + 256 * hi : Nat) : Int)
            else ((lo + 256 * hi : Nat) : Int) - 65536) * 78) 10).natAbs) ∧
    (axis_mg lo hi).2 ≤ 255590 := by
  have hor : (hi <<< 8) ||| lo = lo + 256 * hi := by
    have h := Nat.mul_add_lt_is_or (show lo < 2 ^ 8 from hlo) hi
    rw [Nat.shiftLeft_eq, Nat.mul_comm hi (2 ^ 8), ← h]
    omega
  have hmod : (lo + 256 * hi) % 65536 = lo + 256 * hi := Nat.mod_eq_of_lt (by omega)
  have hraw : s16 ((hi <<< 8) ||| lo) =
      (if lo + 256 * hi < 32768 then ((lo + 256 * hi : Nat) : Int)
        else ((lo + 256 * hi : Nat) : Int) - 65536) := by
    unfold s16
    rw [hor, hmod]
  have habs : ∀ m : Int, (if m < 0 then -m else m).toNat = m.natAbs := by
    intro m
    split <;> omega
  have hpair : axis_mg lo hi =
      ((if Int.tdiv ((if lo + 256 * hi < 32768 then ((lo + 256 * hi : Nat) : Int)
            else ((lo + 256 * hi : Nat) : Int) - 65536) * 78) 10 < 0 then '-' else '+'),
        (Int.tdiv ((if lo + 256 * hi < 32768 then ((lo + 256 * hi : Nat) : Int)
            else ((lo + 256 * hi : Nat) : Int) - 65536) * 78) 10).natAbs) := by
    unfold axis_mg
    simp only [hraw, habs]
  refine ⟨hpair, ?_⟩
  rw [hpair]
  simp only [Int.natAbs_tdiv, Int.natAbs_mul]
  have hb : (if lo + 256 * hi < 32768 then ((lo + 256 * hi : Nat) : Int)
      else ((lo + 256 * hi : Nat) : Int) - 65536).natAbs ≤ 32768 := by
    split <;> omega
  have h78 : (78 : Int).natAbs = 78 := rfl
  have h10 : (10 : Int).natAbs = 10 := rfl
  rw [h78, h10]
  show _ / 10 ≤ 255590
  omega

/-- The text of one axis printed by the driver is the text of the documentation, and has at
most 8 characters. -/
theorem axis_text_eq (lo hi : Nat) (hlo : lo < 256) (hhi : hi < 256) :
    [(axis_mg lo hi).1] ++ fmt_u ((axis_mg lo hi).2 / 1000) ++ ['.'] ++
        fmt_03u ((axis_mg lo hi).2 % 1000) = axis_text_spec lo hi ∧
    (axis_text_spec lo hi).length ≤ 8 := by
  obtain ⟨hpair, hbound⟩ := axis_mg_spec lo hi hlo hhi
  have hq : (axis_mg lo hi).2 / 1000 < 256 := by omega
  have hr : (axis_mg lo hi).2 % 1000 < 1000 := Nat.mod_lt _ (by norm_num)
  have hd := fmt_03u_digits ⟨(axis_mg lo hi).2 % 1000, hr⟩
  have hl := fmt_u_length_le ⟨(axis_mg lo hi).2 / 1000, hq⟩
  simp only [] at hd hl
  have h1 : (axis_mg lo hi).2 % 1000 % 100 = (axis_mg lo hi).2 % 100 := by omega
  have h2 : (axis_mg lo hi).2 % 1000 % 10 = (axis_mg lo hi).2 % 10 := by omega
  rw [h1, h2] at hd
  have heq : [(axis_mg lo hi).1] ++ fmt_u ((axis_mg lo hi).2 / 1000) ++ ['.'] ++
      fmt_03u ((axis_mg lo hi).2 % 1000) = axis_text_spec lo hi := by
    rw [hd]
    unfold axis_text_spec fmt_u
    rw [hpair]
  refine ⟨heq, ?_⟩
  rw [← heq, hd]
  simp only [List.length_append, List.length_cons, List.length_nil]
  omega

theorem format_line_eq (b0 b1 b2 b3 b4 b5 : Nat) (h0 : b0 < 256) (h1 : b1 < 256)
    (h2 : b2 < 256) (h3 : b3 < 256) (h4 : b4 < 256) (h5 : b5 < 256) :
    format_line [b0, b1, b2, b3, b4, b5] =
      "X = ".toList ++ axis_text_spec b0 b1 ++ "; Y = ".toList ++ axis_text_spec b2 b3 ++
        "; Z = ".toList ++ axis_text_spec b4 b5 ++ [Char.ofNat 10] := by
  rw [← (axis_text_eq b0 b1 h0 h1).1, ← (axis_text_eq b2 b3 h2 h3).1,
    ← (axis_text_eq b4 b5 h4 h5).1]
  unfold format_line
  simp only [List.getD_cons_zero, List.getD_cons_succ, List.append_assoc]

theorem format_line_length (b0 b1 b2 b3 b4 b5 : Nat) (h0 : b0 < 256) (h1 : b1 < 256)
    (h2 : b2 < 256) (h3 : b3 < 256) (h4 : b4 < 256) (h5 : b5 < 256) :
    0 < (format_line [b0, b1, b2, b3, b4, b5]).length ∧
    (format_line [b0, b1, b2, b3, b4, b5]).length ≤ 41 := by
  rw [format_line_eq b0 b1 b2 b3 b4 b5 h0 h1 h2 h3 h4 h5]
  have hx := (axis_text_eq b0 b1 h0 h1).2
  have hy := (axis_text_eq b2 b3 h2 h3).2
  have hz := (axis_text_eq b4 b5 h4 h5).2
  have e1 : "X = ".toList.length = 4 := rfl
  have e2 : "; Y = ".toList.length = 6 := rfl
  have e3 : "; Z = ".toList.length = 6 := rfl
  simp only [List.length_append, List.length_cons, List.length_nil, e1, e2, e3]
  omega

/-- A line shorter than the buffer never takes the truncation branch. -/
theorem adxl345_read_not_truncated (regs : List Nat) (ret : Int) (room : Option Nat)
    (count ppos : Nat) (hno : ¬ (format_line regs).length ≥ 50) :
    (adxl345_read ret regs room count ppos).2.2.2 = false := by
  generalize hL : format_line regs = L at hno
  unfold adxl345_read
  rw [hL]
  cases room with
  | none => rfl
  | some r =>
    dsimp only [snprintf]
    by_cases h1 : count = 0
    · rw [if_pos h1]
    · rw [if_neg h1]
      by_cases h2 : ret ≠ 6
      · rw [if_pos h2]
      · rw [if_neg h2, if_neg hno]
        have hd : decide (L.length ≥ 50) = false := decide_eq_false hno
        rw [hd]
        split_ifs <;> rfl

/-- A read at position 0 with room for the whole line returns the line. -/
theorem adxl345_read_full (regs : List Nat) (room count : Nat)
    (hpos : 0 < (format_line regs).length) (hlen : (format_line regs).length ≤ 41)
    (hc : (format_line regs).length ≤ count) (hr : (format_line regs).length ≤ room) :
    adxl345_read 6 regs (some room) count 0 =
      (format_line regs, (format_line regs).length, ((format_line regs).length : Int),
        false) := by
  generalize hL : format_line regs = L at hpos hlen hc hr
  unfold adxl345_read
  rw [hL]
  have hno : ¬ L.length ≥ 50 := by omega
  have hc0 : ¬ count = 0 := by omega
  have hp : ¬ 0 ≥ L.length := by omega
  have h6 : ¬ ((6 : Int) ≠ 6) := by simp
  have htake : List.take (50 - 1) L = L := List.take_of_length_le (by omega)
  have hd : decide (L.length ≥ 50) = false := decide_eq_false hno
  have hcount : (if count > L.length - 0 then L.length - 0 else count) = L.length := by
    split <;> omega
  dsimp only [snprintf]
  rw [if_neg hc0, if_neg h6, if_neg hno, if_neg hp, hd, hcount, if_pos hr, htake,
    List.drop_zero, List.take_length, Nat.zero_add]

/-- C28: for every block of six data registers, `adxl345_read` prints "X = ", "; Y = " and
"; Z = " each followed by the text of the axis: with `raw` the little-endian signed 16-bit
value of the register pair and `m = raw * 78 / 10` (truncated toward zero), the sign '-' if
`m < 0` and '+' otherwise, then `|m| / 1000`, a dot and `|m| mod 1000` on three digits; the
line ends with a newline and has at most 49 characters (at most 41), so the truncation
branch is never taken, and a read at position 0 of at least the length of the line, into a
buffer with room for it, returns all of it. -/
theorem C28_read_format (b0 b1 b2 b3 b4 b5 : Nat) (h0 : b0 < 256) (h1 : b1 < 256)
    (h2 : b2 < 256) (h3 : b3 < 256) (h4 : b4 < 256) (h5 : b5 < 256) :
    format_line [b0, b1, b2, b3, b4, b5] =
      "X = ".toList ++ axis_text_spec b0 b1 ++ "; Y = ".toList ++ axis_text_spec b2 b3 ++
        "; Z = ".toList ++ axis_text_spec b4 b5 ++ [Char.ofNat 10] ∧
    (format_line [b0, b1, b2, b3, b4, b5]).length ≤ 49 ∧
    (∀ (ret : Int) (room : Option Nat) (count ppos : Nat),
      (adxl345_read ret [b0, b1, b2, b3, b4, b5] room count ppos).2.2.2 = false) ∧
    (∀ spare more : Nat,
      adxl345_read 6 [b0, b1, b2, b3, b4, b5]
          (some ((format_line [b0, b1, b2, b3, b4, b5]).length + spare))
          ((format_line [b0, b1, b2, b3, b4, b5]).length + more) 0 =
        (format_line [b0, b1, b2, b3, b4, b5], (format_line [b0, b1, b2, b3, b4, b5]).length,
          ((format_line [b0, b1, b2, b3, b4, b5]).length : Int), false)) := by
  obtain ⟨hpos, hlen⟩ := format_line_length b0 b1 b2 b3 b4 b5 h0 h1 h2 h3 h4 h5
  have hno : ¬ (format_line [b0, b1, b2, b3, b4, b5]).length ≥ 50 := by omega
  refine ⟨format_line_eq b0 b1 b2 b3 b4 b5 h0 h1 h2 h3 h4 h5, by omega, ?_, ?_⟩
  · intro ret room count ppos
    exact adxl345_read_not_truncated _ ret room count ppos hno
  · intro spare more
    exact adxl345_read_full _ _ _ hpos hlen (Nat.le_add_right _ _) (Nat.le_add_right _ _)

theorem C28_read_format_witness :
    (0xFF : Nat) < 256 ∧ (0x80 : Nat) < 256 ∧ (0x7F : Nat) < 256 ∧ (0 : Nat) < 256 ∧
    format_line [0xFF, 0xFF, 0, 0x80, 0xFF, 0x7F] =
      "X = -0.007; Y = -255.590; Z = +255.582\n".toList ∧
    (format_line [0xFF, 0xFF, 0, 0x80, 0xFF, 0x7F]).length ≤ 49 :=
  ⟨by decide, by decide, by decide, by decide, by rfl,
    (C28_read_format 0xFF 0xFF 0 0x80 0xFF 0x7F (by decide) (by decide) (by decide)
      (by decide) (by decide) (by decide)).2.1⟩

end Adxl345


namespace Adxl345

/-! ## C29: cached tap mode and the INT_ENABLE register -/

theorem last_written_append_same (s : adxl345_data) (reg v : Nat) (m : Nat) :
    last_written { s with regs := s.regs ++ [(reg, v)], tap_mode := m } reg = some v := by
  simp [last_written, List.filter_append]

/-- Either `tap_mode_store` fails and leaves the state as it was, or it returns `count` and
the text of `tap_mode_show` is the one of the value last written to `INT_ENABLE`. -/
theorem tap_mode_store_cases (s : adxl345_data) (buf : List Nat) (count : Nat) (ret : Int) :
    ((tap_mode_store s buf count ret).1 = s ∧ (tap_mode_store s buf count ret).2 < 0) ∨
    ((tap_mode_store s buf count ret).2 = (count : Int) ∧
      ∃ v, last_written (tap_mode_store s buf count ret).1 ADXL345_INT_ENABLE = some v ∧
        mode_text_of_int_enable v = some (tap_mode_show (tap_mode_store s buf count ret).1).1) := by
  have hneg : -(EINVAL : Int) < 0 := by decide
  unfold tap_mode_store
  by_cases hret : ret < 0
  · left
    split_ifs
    all_goals first
      | exact ⟨rfl, hneg⟩
      | (refine ⟨?_, hret⟩
         simp only [i2c_smbus_write_byte_data, if_pos hret])
  · split_ifs
    all_goals first
      | (left; exact ⟨rfl, hneg⟩)
      | (right
         refine ⟨rfl, ?_⟩
         simp only [i2c_smbus_write_byte_data, if_neg hret]
         exact ⟨_, last_written_append_same s _ _ _, rfl⟩)

/-- C29: after a successful `adxl345_probe` the value last written to `INT_ENABLE` is 0x60,
whose mode is "both", but `tap_mode_show` reports "off": the cached mode does not
correspond to the register.  `tap_mode_store` keeps the correspondence: it either fails,
leaving the cached mode and the register writes as they were, or returns `count` with the
reported mode being the one of the value last written to `INT_ENABLE`. -/
theorem C29_probe_mode_mismatch :
    (adxl345_probe probe_env_ok).2 = 0 ∧
    last_written (adxl345_probe probe_env_ok).1 ADXL345_INT_ENABLE = some 0x60 ∧
    mode_text_of_int_enable 0x60 = some "both\n".toList ∧
    (tap_mode_show (adxl345_probe probe_env_ok).1).1 = "off\n".toList ∧
    mode_text_of_int_enable 0x60 ≠ some (tap_mode_show (adxl345_probe probe_env_ok).1).1 ∧
    (∀ (s : adxl345_data) (buf : List Nat) (count : Nat) (ret : Int),
      ((tap_mode_store s buf count ret).1 = s ∧ (tap_mode_store s buf count ret).2 < 0) ∨
      ((tap_mode_store s buf count ret).2 = (count : Int) ∧
        ∃ v, last_written (tap_mode_store s buf count ret).1 ADXL345_INT_ENABLE = some v ∧
          mode_text_of_int_enable v =
            some (tap_mode_show (tap_mode_store s buf count ret).1).1)) :=
  ⟨by rfl, by rfl, by rfl, by rfl, by decide, tap_mode_store_cases⟩

end Adxl345

namespace Ex4

/-! ## C30: characters, cursor and display registers of ex4 -/

theorem hex_map_getD_lt (i : Nat) : hex_map.getD i 0 < 128 := by
  by_cases h : i < 26
  · exact (by decide : ∀ j : Fin 26, hex_map.getD j.val 0 < 128) ⟨i, h⟩
  · rw [List.getD_eq_default _ _ (by simpa [hex_map] using h)]
    decide

set_option maxRecDepth 100000 in
theorem lit_and_clear : ∀ (v : Fin 128) (k : Fin 4),
    ((v.val <<< (8 * k.val)) % 2 ^ 32) &&&
      (0xFFFFFFFF ^^^ ((0x7F <<< (8 * k.val)) % 2 ^ 32)) = 0 := by
  decide

theorem frame_algebra (h m l : Nat) (hl : l &&& m = 0) : ((h &&& m) ||| l) &&& m = h &&& m := by
  rw [Nat.and_distrib_right, Nat.and_assoc, Nat.and_self, hl, Nat.or_zero]

theorem update_display_fields (s : state) (cur : Nat) :
    (update_display s cur).displayed_char = s.displayed_char ∧
    (update_display s cur).cursor = s.cursor ∧
    (update_display s cur).key_edge_capture = s.key_edge_capture ∧
    (update_display s cur).leds = (1 <<< cur) % 2 ^ 16 := by
  unfold update_display
  refine ⟨?_, ?_, ?_, rfl⟩ <;> (dsimp only; split_ifs <;> rfl)

theorem update_display_reads (s : state) (cur : Nat)
    (hv : valid_char (s.displayed_char.getD cur 0)) (hr : ∀ i ∈ s.hex_map_reads, i < 26) :
    ∀ i ∈ (update_display s cur).hex_map_reads, i < 26 := by
  have hA : ('A').toNat = 65 := rfl
  have hZ : ('Z').toNat = 90 := rfl
  have hS : (' ').toNat = 32 := rfl
  unfold valid_char at hv
  rw [hA, hZ, hS] at hv
  unfold update_display
  dsimp only
  rw [hA, hS]
  intro i hi
  split_ifs at hi with h1
  · rcases List.mem_append.mp hi with h | h
    · exact hr i h
    · rw [List.mem_singleton] at h
      omega
  · exact hr i hi

theorem lit_clear_zero (v k : Nat) (hv : v < 128) (hk : k < 4) :
    ((v <<< (8 * k)) % 2 ^ 32) &&& (0xFFFFFFFF ^^^ ((0x7F <<< (8 * k)) % 2 ^ 32)) = 0 :=
  lit_and_clear ⟨v, hv⟩ ⟨k, hk⟩

/-- The display register written by `update_display`, for the digit at `shift`. -/
theorem update_display_regs (s : state) (cur : Nat) (hc : cur < 6) :
    ∃ l, l &&& (0xFFFFFFFF ^^^ ((0x7F <<< (8 * (cur % 4))) % 2 ^ 32)) = 0 ∧ l < 2 ^ 32 ∧
      ((cur < 4 ∧ (update_display s cur).hex1 = s.hex1 ∧
          (update_display s cur).hex0 =
            (s.hex0 &&& (0xFFFFFFFF ^^^ ((0x7F <<< (8 * (cur % 4))) % 2 ^ 32))) ||| l) ∨
       (4 ≤ cur ∧ (update_display s cur).hex0 = s.hex0 ∧
          (update_display s cur).hex1 =
            (s.hex1 &&& (0xFFFFFFFF ^^^ ((0x7F <<< (8 * (cur % 4))) % 2 ^ 32))) ||| l)) := by
  have hlit : ∀ k, k < 4 → ∀ c : Nat, ∃ l,
      l = (if c ≠ (' ').toNat then
        (hex_map.getD ((c + 256 - ('A').toNat) % 256) 0 <<< (8 * k)) % 2 ^ 32 else 0) ∧
      l &&& (0xFFFFFFFF ^^^ ((0x7F <<< (8 * k)) % 2 ^ 32)) = 0 ∧ l < 2 ^ 32 := by
    intro k hk c
    refine ⟨_, rfl, ?_, ?_⟩
    · split_ifs
      · exact lit_clear_zero _ k (hex_map_getD_lt _) hk
      · exact Nat.zero_and _
    · split_ifs
      · exact Nat.mod_lt _ (by norm_num)
      · norm_num
  by_cases h4 : cur < 4
  · obtain ⟨l, hl, hz, hlt⟩ := hlit cur h4 (s.displayed_char.getD cur 0)
    have hm : cur % 4 = cur := Nat.mod_eq_of_lt h4
    have hi : ¬ cur > NB_HEX_FIRST_REG - 1 := by simp only [NB_HEX_FIRST_REG]; omega
    have hs : cur % 256 = cur := by omega
    refine ⟨l, by rw [hm]; exact hz, hlt, Or.inl ⟨h4, ?_, ?_⟩⟩
    · unfold update_display
      simp only [if_neg hi, ↓reduceIte]
    · unfold update_display
      simp only [if_neg hi, ↓reduceIte, ne_eq, not_true_eq_false, hs, hm]
      rw [hl]
  · obtain ⟨l, hl, hz, hlt⟩ := hlit (cur - 4) (by omega) (s.displayed_char.getD cur 0)
    have hm : cur % 4 = cur - 4 := by omega
    have hi : cur > NB_HEX_FIRST_REG - 1 := by simp only [NB_HEX_FIRST_REG]; omega
    have hs : (cur + 256 - NB_HEX_FIRST_REG) % 256 = cur - 4 := by
      simp only [NB_HEX_FIRST_REG]; omega
    refine ⟨l, by rw [hm]; exact hz, hlt, Or.inr ⟨by omega, ?_, ?_⟩⟩
    · unfold update_display
      simp only [if_pos hi, ↓reduceIte, one_ne_zero]
    · unfold update_display
      simp only [if_pos hi, ↓reduceIte, ne_eq, one_ne_zero, not_false_eq_true, hs, hm]
      rw [hl]

theorem update_display_ok (s : state) (cur : Nat) (hc : cur < 6)
    (hv : valid_char (s.displayed_char.getD cur 0)) (hr : ∀ i ∈ s.hex_map_reads, i < 26)
    (h0 : s.hex0 < 2 ^ 32) (h1 : s.hex1 < 2 ^ 32) :
    (update_display s cur).displayed_char = s.displayed_char ∧
    (update_display s cur).cursor = s.cursor ∧
    (∀ i ∈ (update_display s cur).hex_map_reads, i < 26) ∧
    (update_display s cur).hex0 < 2 ^ 32 ∧ (update_display s cur).hex1 < 2 ^ 32 := by
  obtain ⟨hd, hcur, _, _⟩ := update_display_fields s cur
  refine ⟨hd, hcur, update_display_reads s cur hv hr, ?_⟩
  obtain ⟨l, _, hlt, h | h⟩ := update_display_regs s cur hc
  · obtain ⟨_, e1, e0⟩ := h
    rw [e1, e0]
    exact ⟨Nat.or_lt_two_pow (Nat.lt_of_le_of_lt Nat.and_le_left h0) hlt, h1⟩
  · obtain ⟨_, e0, e1⟩ := h
    rw [e1, e0]
    exact ⟨h0, Nat.or_lt_two_pow (Nat.lt_of_le_of_lt Nat.and_le_left h1) hlt⟩

theorem key0_char_valid (c : Nat) (h : valid_char c) : valid_char (key0_char c) := by
  have hA : ('A').toNat = 65 := rfl
  have hZ : ('Z').toNat = 90 := rfl
  have hS : (' ').toNat = 32 := rfl
  simp only [valid_char, key0_char, hA, hZ, hS] at h ⊢
  split_ifs <;> omega

theorem key1_char_valid (c : Nat) (h : valid_char c) : valid_char (key1_char c) := by
  have hA : ('A').toNat = 65 := rfl
  have hZ : ('Z').toNat = 90 := rfl
  have hS : (' ').toNat = 32 := rfl
  simp only [valid_char, key1_char, hA, hZ, hS] at h ⊢
  split_ifs <;> omega

theorem getD_valid (l : List Nat) (i : Nat) (hl : ∀ c ∈ l, valid_char c) (hi : i < l.length) :
    valid_char (l.getD i 0) := by
  rw [List.getD_eq_getElem l 0 hi]
  exact hl _ (List.getElem_mem _)

theorem set_valid (l : List Nat) (i v : Nat) (hl : ∀ c ∈ l, valid_char c)
    (hv : valid_char v) : ∀ c ∈ l.set i v, valid_char c := by
  intro c hc
  rcases List.mem_or_eq_of_mem_set hc with h | h
  · exact hl c h
  · rw [h]; exact hv

/-- The characters and the cursor that `handle_interrupt` hands to `update_display`. -/
theorem handle_interrupt_ok (edge : Nat) (s : state) (h : state_ok s) :
    state_ok (handle_interrupt edge s) := by
  obtain ⟨hlen, hval, hcur, hr, h0, h1⟩ := h
  simp only [NB_HEX] at hlen hcur
  have hdc1 : ∀ b : Prop, ∀ _ : Decidable b,
      ((if b then s.displayed_char.set s.cursor (key0_char (s.displayed_char.getD s.cursor 0))
        else s.displayed_char).length = 6 ∧
      ∀ c ∈ (if b then
          s.displayed_char.set s.cursor (key0_char (s.displayed_char.getD s.cursor 0))
        else s.displayed_char), valid_char c) := by
    intro b _
    split_ifs
    · exact ⟨by rw [List.length_set]; exact hlen,
        set_valid _ _ _ hval (key0_char_valid _ (getD_valid _ _ hval (by omega)))⟩
    · exact ⟨hlen, hval⟩
  have hdc2 : ∀ (l : List Nat), l.length = 6 → (∀ c ∈ l, valid_char c) →
      ∀ b : Prop, ∀ _ : Decidable b,
      ((if b then l.set s.cursor (key1_char (l.getD s.cursor 0)) else l).length = 6 ∧
      ∀ c ∈ (if b then l.set s.cursor (key1_char (l.getD s.cursor 0)) else l),
        valid_char c) := by
    intro l hl hv b _
    split_ifs
    · exact ⟨by rw [List.length_set]; exact hl,
        set_valid _ _ _ hv (key1_char_valid _ (getD_valid _ _ hv (by omega)))⟩
    · exact ⟨hl, hv⟩
  have hcur2 : ∀ (b1 b2 : Prop) (_ : Decidable b1) (_ : Decidable b2),
      (if b2 then
          (if (if b1 then (if s.cursor = 5 then 0 else (s.cursor + 1) % 256) else s.cursor) = 0
            then 5
            else ((if b1 then (if s.cursor = 5 then 0 else (s.cursor + 1) % 256)
              else s.cursor) + 255) % 256)
        else (if b1 then (if s.cursor = 5 then 0 else (s.cursor + 1) % 256)
          else s.cursor)) < 6 := by
    intro b1 b2 _ _
    split_ifs <;> omega
  unfold handle_interrupt
  dsimp only
  obtain ⟨hl1, hv1⟩ := hdc1 (edge % 256 &&& 0x0F &&& 0x01 ≠ 0) inferInstance
  obtain ⟨hl2, hv2⟩ := hdc2 _ hl1 hv1 (edge % 256 &&& 0x0F &&& 0x02 ≠ 0) inferInstance
  have hc2 := hcur2 (edge % 256 &&& 0x0F &&& 0x04 ≠ 0) (edge % 256 &&& 0x0F &&& 0x08 ≠ 0)
    inferInstance inferInstance
  obtain ⟨ed, ec, er, e0, e1⟩ := update_display_ok
    { s with
      displayed_char :=
        (if edge % 256 &&& 0x0F &&& 0x02 ≠ 0 then
          (if edge % 256 &&& 0x0F &&& 0x01 ≠ 0 then
            s.displayed_char.set s.cursor (key0_char (s.displayed_char.getD s.cursor 0))
          else s.displayed_char).set s.cursor
            (key1_char ((if edge % 256 &&& 0x0F &&& 0x01 ≠ 0 then
              s.displayed_char.set s.cursor (key0_char (s.displayed_char.getD s.cursor 0))
            else s.displayed_char).getD s.cursor 0))
        else
          (if edge % 256 &&& 0x0F &&& 0x01 ≠ 0 then
            s.displayed_char.set s.cursor (key0_char (s.displayed_char.getD s.cursor 0))
          else s.displayed_char)),
      cursor :=
        (if edge % 256 &&& 0x0F &&& 0x08 ≠ 0 then
          (if (if edge % 256 &&& 0x0F &&& 0x04 ≠ 0 then
              (if s.cursor = 5 then 0 else (s.cursor + 1) % 256) else s.cursor) = 0
            then 5
            else ((if edge % 256 &&& 0x0F &&& 0x04 ≠ 0 then
              (if s.cursor = 5 then 0 else (s.cursor + 1) % 256) else s.cursor) + 255) % 256)
        else (if edge % 256 &&& 0x0F &&& 0x04 ≠ 0 then
          (if s.cursor = 5 then 0 else (s.cursor + 1) % 256) else s.cursor)) }
    _ hc2 (getD_valid _ _ hv2 (by rw [hl2]; exact hc2)) hr h0 h1
  refine ⟨?_, ?_, ?_, er, e0, e1⟩
  · show (update_display _ _).displayed_char.length = NB_HEX
    rw [ed]; exact hl2
  · show ∀ c ∈ (update_display _ _).displayed_char, valid_char c
    rw [ed]; exact hv2
  · show (update_display _ _).cursor < NB_HEX
    rw [ec]; exact hc2

theorem main_init_loop_ok : ∀ (n i : Nat) (s : state), i + n = 6 →
    s.displayed_char.length = 6 → (∀ j, j < i → s.displayed_char.getD j 0 = 65) →
    (∀ k ∈ s.hex_map_reads, k < 26) → s.hex0 < 2 ^ 32 → s.hex1 < 2 ^ 32 → s.cursor = 0 →
    (main_init_loop n i s).displayed_char.length = 6 ∧
    (∀ j, j < 6 → (main_init_loop n i s).displayed_char.getD j 0 = 65) ∧
    (∀ k ∈ (main_init_loop n i s).hex_map_reads, k < 26) ∧
    (main_init_loop n i s).hex0 < 2 ^ 32 ∧ (main_init_loop n i s).hex1 < 2 ^ 32 ∧
    (main_init_loop n i s).cursor = 0 := by
  intro n
  induction n with
  | zero =>
    intro i s hin hl hj hr h0 h1 hc
    have hi : i = 6 := by omega
    subst hi
    exact ⟨hl, hj, hr, h0, h1, hc⟩
  | succ n ih =>
    intro i s hin hl hj hr h0 h1 hc
    have hA : ('A').toNat = 65 := rfl
    have hget : (s.displayed_char.set i 65).getD i 0 = 65 := by
      rw [List.getD_eq_getElem _ 0 (by rw [List.length_set]; omega)]
      exact List.getElem_set_self _
    obtain ⟨ed, ec, er, e0, e1⟩ := update_display_ok
      { s with displayed_char := s.displayed_char.set i 65 } i (by omega)
      (by show valid_char ((s.displayed_char.set i 65).getD i 0)
          rw [hget]; decide) hr h0 h1
    unfold main_init_loop
    rw [hA]
    refine ih (i + 1) _ (by omega) ?_ ?_ er e0 e1 ?_
    · rw [ed]
      show (s.displayed_char.set i 65).length = 6
      rw [List.length_set]; exact hl
    · intro j hjlt
      rw [ed]
      show (s.displayed_char.set i 65).getD j 0 = 65
      by_cases hji : j = i
      · rw [hji]; exact hget
      · have hj1 := hj j (by omega)
        rw [List.getD_eq_getElem?_getD] at hj1 ⊢
        rw [List.getElem?_set_ne (by omega)]
        exact hj1
    · rw [ec]; exact hc

theorem main_init_ok (junk : Fin 6 → Nat) (hex0 hex1 leds : Nat) (h0 : hex0 < 2 ^ 32)
    (h1 : hex1 < 2 ^ 32) :
    (main_init junk hex0 hex1 leds).displayed_char = List.replicate 6 65 ∧
    (main_init junk hex0 hex1 leds).cursor = 0 ∧ state_ok (main_init junk hex0 hex1 leds) := by
  obtain ⟨hl, hj, hr, e0, e1, hc⟩ := main_init_loop_ok 6 0
    { displayed_char := List.ofFn junk, cursor := 0, hex0 := hex0, hex1 := hex1, leds := leds,
      key_edge_capture := 0xF, hex_map_reads := [] }
    rfl (by simp) (by intro j hj; omega) (by simp) h0 h1 rfl
  have hA : valid_char 65 := by decide
  obtain ⟨ed, ec, er, f0, f1⟩ := update_display_ok _ 0 (by norm_num)
    (by rw [hj 0 (by norm_num)]; exact hA) hr e0 e1
  have hrep : (main_init junk hex0 hex1 leds).displayed_char = List.replicate 6 65 := by
    unfold main_init
    simp only [NB_HEX]
    rw [ed]
    apply List.ext_getElem
    · rw [hl]; rfl
    · intro n h1 h2
      have := hj n (by omega)
      rw [List.getD_eq_getElem _ 0 h1] at this
      rw [this, List.getElem_replicate]
  have hcur : (main_init junk hex0 hex1 leds).cursor = 0 := by
    unfold main_init
    simp only [NB_HEX]
    rw [ec]; exact hc
  refine ⟨hrep, hcur, ?_, ?_, ?_, ?_, ?_, ?_⟩
  · rw [hrep]; rfl
  · rw [hrep]
    intro c hc
    rw [List.eq_of_mem_replicate hc]; exact hA
  · rw [hcur]; decide
  · exact er
  · exact f0
  · exact f1

theorem run_keys_ok : ∀ (keys : List Nat) (s : state), state_ok s → state_ok (run_keys keys s) := by
  intro keys
  induction keys with
  | nil => intro s h; exact h
  | cons e rest ih => intro s h; exact ih _ (handle_interrupt_ok e s h)

theorem segment_mask_mod : ∀ k : Fin 4, (0x7F <<< (8 * k.val)) % 2 ^ 32 = 0x7F <<< (8 * k.val) := by
  decide

theorem one_shift_mod : ∀ k : Fin 6, (1 <<< k.val) % 2 ^ 16 = 1 <<< k.val := by
  decide

/-- An `update_display` on the digit under the cursor, followed by the reset of the edge
capture register, leaves the other display register as it was, changes no bit of the
selected register outside the seven segment bits of the digit, and lights the LED of the
cursor. -/
theorem update_display_frame (s s1 : state) (cur : Nat) (h6 : (update_display s1 cur).cursor < 6)
    (hsc : s1.cursor = cur) (e0 : s1.hex0 = s.hex0) (e1 : s1.hex1 = s.hex1)
    (t : state) (ht : t = { update_display s1 cur with key_edge_capture := 0xF }) :
    ((t.cursor < 4 ∧ t.hex1 = s.hex1 ∧
        t.hex0 &&& (0xFFFFFFFF ^^^ segment_mask t.cursor) =
          s.hex0 &&& (0xFFFFFFFF ^^^ segment_mask t.cursor)) ∨
      (4 ≤ t.cursor ∧ t.hex0 = s.hex0 ∧
        t.hex1 &&& (0xFFFFFFFF ^^^ segment_mask t.cursor) =
          s.hex1 &&& (0xFFFFFFFF ^^^ segment_mask t.cursor))) ∧
    t.leds = 1 <<< t.cursor := by
  obtain ⟨_, hcur, _, hleds⟩ := update_display_fields s1 cur
  have hc : cur < 6 := by rw [hcur, hsc] at h6; exact h6
  have htc : t.cursor = cur := by rw [ht]; show (update_display s1 cur).cursor = cur; rw [hcur, hsc]
  have ht0 : t.hex0 = (update_display s1 cur).hex0 := by rw [ht]
  have ht1 : t.hex1 = (update_display s1 cur).hex1 := by rw [ht]
  have htl : t.leds = (update_display s1 cur).leds := by rw [ht]
  have hmask : segment_mask cur = (0x7F <<< (8 * (cur % 4))) % 2 ^ 32 :=
    (segment_mask_mod ⟨cur % 4, Nat.mod_lt _ (by norm_num)⟩).symm
  rw [htc, ht0, ht1, htl, hleds, one_shift_mod ⟨cur, hc⟩, hmask]
  refine ⟨?_, rfl⟩
  obtain ⟨l, hz, _, h | h⟩ := update_display_regs s1 cur hc
  · obtain ⟨h4, f1, f0⟩ := h
    left
    refine ⟨h4, by rw [f1, e1], ?_⟩
    rw [f0, e0]
    exact frame_algebra _ _ _ hz
  · obtain ⟨h4, f0, f1⟩ := h
    right
    refine ⟨h4, by rw [f0, e0], ?_⟩
    rw [f1, e1]
    exact frame_algebra _ _ _ hz

theorem handle_interrupt_frame (edge : Nat) (s : state) (h : state_ok s) :
    (((handle_interrupt edge s).cursor < 4 ∧ (handle_interrupt edge s).hex1 = s.hex1 ∧
        (handle_interrupt edge s).hex0 &&&
            (0xFFFFFFFF ^^^ segment_mask (handle_interrupt edge s).cursor) =
          s.hex0 &&& (0xFFFFFFFF ^^^ segment_mask (handle_interrupt edge s).cursor)) ∨
      (4 ≤ (handle_interrupt edge s).cursor ∧ (handle_interrupt edge s).hex0 = s.hex0 ∧
        (handle_interrupt edge s).hex1 &&&
            (0xFFFFFFFF ^^^ segment_mask (handle_interrupt edge s).cursor) =
          s.hex1 &&& (0xFFFFFFFF ^^^ segment_mask (handle_interrupt edge s).cursor))) ∧
    (handle_interrupt edge s).leds = 1 <<< (handle_interrupt edge s).cursor :=
  update_display_frame s _ _ (handle_interrupt_ok edge s h).2.2.1 rfl rfl rfl
    (handle_interrupt edge s) rfl

/-- C30: from the state in which `main` enters its loop (six 'A' characters, cursor 0), after
every sequence of key combinations handled by `handle_interrupt`, the six displayed
characters are spaces or capital letters, the cursor is in 0..5, every index at which
`update_display` has read `hex_map` since the start of the program is in 0..25, and one
more `handle_interrupt` leaves the display register that does not hold the selected digit
as it was and changes no bit of the other one outside the seven segment bits of the
selected digit (it also writes `1 << cursor` to the LED register).  KEY0 maps 'A' to ' ',
keeps ' ' and decrements the other letters; KEY1 maps ' ' to 'A', keeps 'Z' and increments
the other letters. -/
theorem C30_display_safety (junk : Fin 6 → Nat) (hex0 hex1 leds : Nat) (h0 : hex0 < 2 ^ 32)
    (h1 : hex1 < 2 ^ 32) (keys : List Nat) :
    (main_init junk hex0 hex1 leds).displayed_char = List.replicate 6 ('A').toNat ∧
    (main_init junk hex0 hex1 leds).cursor = 0 ∧
    (run_keys keys (main_init junk hex0 hex1 leds)).displayed_char.length = 6 ∧
    (∀ c ∈ (run_keys keys (main_init junk hex0 hex1 leds)).displayed_char, valid_char c) ∧
    (run_keys keys (main_init junk hex0 hex1 leds)).cursor < 6 ∧
    (∀ i ∈ (run_keys keys (main_init junk hex0 hex1 leds)).hex_map_reads, i < 26) ∧
    (run_keys keys (main_init junk hex0 hex1 leds)).hex0 < 2 ^ 32 ∧
    (run_keys keys (main_init junk hex0 hex1 leds)).hex1 < 2 ^ 32 ∧
    (∀ edge : Nat,
      (((handle_interrupt edge (run_keys keys (main_init junk hex0 hex1 leds))).cursor < 4 ∧
        (handle_interrupt edge (run_keys keys (main_init junk hex0 hex1 leds))).hex1 =
          (run_keys keys (main_init junk hex0 hex1 leds)).hex1 ∧
        (handle_interrupt edge (run_keys keys (main_init junk hex0 hex1 leds))).hex0 &&&
            (0xFFFFFFFF ^^^ segment_mask
              (handle_interrupt edge (run_keys keys (main_init junk hex0 hex1 leds))).cursor) =
          (run_keys keys (main_init junk hex0 hex1 leds)).hex0 &&&
            (0xFFFFFFFF ^^^ segment_mask
              (handle_interrupt edge (run_keys keys (main_init junk hex0 hex1 leds))).cursor)) ∨
       (4 ≤ (handle_interrupt edge (run_keys keys (main_init junk hex0 hex1 leds))).cursor ∧
        (handle_interrupt edge (run_keys keys (main_init junk hex0 hex1 leds))).hex0 =
          (run_keys keys (main_init junk hex0 hex1 leds)).hex0 ∧
        (handle_interrupt edge (run_keys keys (main_init junk hex0 hex1 leds))).hex1 &&&
            (0xFFFFFFFF ^^^ segment_mask
              (handle_interrupt edge (run_keys keys (main_init junk hex0 hex1 leds))).cursor) =
          (run_keys keys (main_init junk hex0 hex1 leds)).hex1 &&&
            (0xFFFFFFFF ^^^ segment_mask
              (handle_interrupt edge (run_keys keys (main_init junk hex0 hex1 leds))).cursor))) ∧
      (handle_interrupt edge (run_keys keys (main_init junk hex0 hex1 leds))).leds =
        1 <<< (handle_interrupt edge (run_keys keys (main_init junk hex0 hex1 leds))).cursor) ∧
    key0_char ('A').toNat = (' ').toNat ∧ key0_char (' ').toNat = (' ').toNat ∧
    key1_char (' ').toNat = ('A').toNat ∧ key1_char ('Z').toNat = ('Z').toNat ∧
    (∀ k : Fin 25, key0_char (('B').toNat + k.val) = ('A').toNat + k.val ∧
      key1_char (('A').toNat + k.val) = ('B').toNat + k.val) := by
  obtain ⟨hrep, hcur, hinit⟩ := main_init_ok junk hex0 hex1 leds h0 h1
  have hok := run_keys_ok keys _ hinit
  have hfields := hok
  obtain ⟨hl, hv, hc, hr, g0, g1⟩ := hfields
  exact ⟨hrep, hcur, hl, hv, hc, hr, g0, g1, fun edge => handle_interrupt_frame edge _ hok,
    by decide, by decide, by decide, by decide, by decide⟩

theorem C30_display_safety_witness :
    (0 : Nat) < 2 ^ 32 ∧
    (run_keys [1, 4, 2, 8, 8] (main_init (fun _ => 0) 0 0 0)).cursor < 6 ∧
    (∀ i ∈ (run_keys [1, 4, 2, 8, 8] (main_init (fun _ => 0) 0 0 0)).hex_map_reads, i < 26) :=
  ⟨by decide,
    (C30_display_safety (fun _ => 0) 0 0 0 (by decide) (by decide) [1, 4, 2, 8, 8]).2.2.2.2.1,
    (C30_display_safety (fun _ => 0) 0 0 0 (by decide) (by decide) [1, 4, 2, 8, 8]).2.2.2.2.2.1⟩

end Ex4
